import Mathlib

/-!
Verification of the percolator sharded perpetual-futures engine.

This file gives a shallow embedding of the slab program (two-phase
reserve/commit engine, cancel, funding, insurance pool) and of the router
portfolio-margin calculation, translated from the Rust sources under
`programs/slab/src` and `programs/router/src`, together with theorems about
the specified behaviour.

Conventions of the embedding:
* unsigned machine integers (u16/u32/u64/u128) become `Nat`; signed ones
  (i64/i128) become `Int`; Rust division on unsigned ints is `Nat`
  division and on signed ints `Int.tdiv` (truncation toward zero, the
  Rust `/` semantics);
* explicitly wrapping operations (`wrapping_add` on seqno and on the
  monotonic id counters) are taken modulo the word size; other arithmetic
  is unbounded, following the design note that the code multiplies into
  widened integers and never relies on runtime overflow;
* the fixed-capacity pools become total functions `Nat -> record`; the
  bounds checks of `get_*`/`free_*` are kept verbatim.  The `alloc_*`
  functions index the pool by the freelist head without a bounds check
  (in Rust an out-of-range head would panic), so theorems about
  allocation paths carry explicit freelist well-formedness hypotheses;
* unbounded `while` loops over linked chains become fuel recursion, with
  fuel exhaustion mapped to `Option.none` at the instruction boundary
  (the Rust loop would not return normally there).

Types and helpers of the `percolator_common` crate are not part of the
sources (only their users are); those few definitions are modelled from
the spec and are marked `Modelled from the spec:` in their doc comments.
-/

namespace Percolator

/-- Sentinel index `u32::MAX` meaning "none" in every pool link. -/
def INVALID : Nat := 4294967295

/-- Word size of u32, for the explicitly wrapping seqno counter. -/
def U32MOD : Nat := 4294967296

/-- Word size of u64, for the explicitly wrapping id counters. -/
def U64MOD : Nat := 18446744073709551616

/-- Pool capacity for orders (`POOL_ORDERS`). -/
def POOL_ORDERS : Nat := 30000

/-- Pool capacity for positions (`POOL_POSITIONS`). -/
def POOL_POSITIONS : Nat := 30000

/-- Pool capacity for reservations (`POOL_RESERVATIONS`). -/
def POOL_RESERVATIONS : Nat := 4000

/-- Pool capacity for slices (`POOL_SLICES`). -/
def POOL_SLICES : Nat := 16000

/-- Capacity of the trade ring (`POOL_TRADES`). -/
def POOL_TRADES : Nat := 10000

/-- Pool capacity for accounts (`POOL_ACCOUNTS`). -/
def POOL_ACCOUNTS : Nat := 5000

/-- Pool capacity for instruments (`POOL_INSTRUMENTS`). -/
def POOL_INSTRUMENTS : Nat := 32

/-- Taker side of an order, as in `percolator_common::Side`. -/
inductive Side where
  | Buy
  | Sell
deriving DecidableEq, Repr

/-- Order lifecycle state (`OrderState`), LIVE or PENDING. -/
inductive OrderState where
  | LIVE
  | PENDING
deriving DecidableEq, Repr

/-- Error taxonomy of the engine (`PercolatorError`); the crate defining it
is not in the sources, so the constructor set is the taxonomy of the spec,
restricted to the codes raised by the embedded functions. -/
inductive PercolatorError where
  | InvalidInstruction
  | InvalidInstrument
  | InvalidQuantity
  | InvalidPrice
  | InvalidRiskParams
  | Unauthorized
  | PoolFull
  | InsufficientLiquidity
  | InsufficientFunds
  | OrderNotFound
  | PositionNotFound
  | ReservationNotFound
  | ReservationExpired
  | InvalidReservation
  | NoPendingWithdrawal
  | WithdrawalLocked
  | KillBandExceeded
  | ReservedQtyExceeded
  | InsuranceBelowThreshold
deriving DecidableEq, Repr

/-- Modelled from the spec: `mul_u64` of `percolator_common` widens two u64
values and multiplies into u128 ("quantities multiply prices into u128"). -/
def mul_u64 (a b : Nat) : Nat := a * b

/-- Modelled from the spec: `calculate_vwap` of `percolator_common`,
`vwap_px = total_notional / total_qty` (u128 division, result narrowed to
u64; the quotient is bounded by the largest maker price so the narrowing
is lossless). -/
def calculate_vwap (total_notional total_qty : Nat) : Nat :=
  total_notional / total_qty

/-- Modelled from the spec: `calculate_pnl` of `percolator_common`.  The
spec gives "Realized PnL = signed reduced quantity x (fill_px - old_entry)
(long convention)" with all values 1e6-scaled; the SDK helper of the same
name divides the product by the 1e6 price scale. -/
def calculate_pnl (qty : Int) (entry_px fill_px : Nat) : Int :=
  Int.tdiv (qty * ((fill_px : Int) - (entry_px : Int))) 1000000

/-- Modelled from the spec: `calculate_funding_payment` of
`percolator_common`: `payment = qty_signed * funding_delta / 1e6 / 1e6`,
where the delta is the difference of the two cumulative-funding
arguments. -/
def calculate_funding_payment (qty : Int) (cum_now cum_entry : Int) : Int :=
  Int.tdiv (Int.tdiv (qty * (cum_now - cum_entry)) 1000000) 1000000

/-- Saturating subtraction on i128 values (`i128::saturating_sub`),
clamping into the i128 range. -/
def satSubI128 (a b : Int) : Int :=
  let r := a - b
  if r < -(2 ^ 127) then -(2 ^ 127)
  else if (2 ^ 127 - 1) < r then 2 ^ 127 - 1
  else r

/-- Saturating addition on u64 values (`u64::saturating_add`). -/
def satAdd64 (a b : Nat) : Nat :=
  min (a + b) (U64MOD - 1)

/-! ## Insurance pool (`programs/slab/src/state/insurance.rs`) -/

/-- Size of the insurance event ring (`INSURANCE_HISTORY_SIZE`). -/
def INSURANCE_HISTORY_SIZE : Nat := 100

/-- Default insurance contribution rate in bps. -/
def DEFAULT_INSURANCE_RATE_BPS : Nat := 25

/-- Default ADL trigger threshold in bps of open interest. -/
def ADL_TRIGGER_THRESHOLD_BPS : Nat := 50

/-- Insurance event type (`InsuranceEventType`). -/
inductive InsuranceEventType where
  | LiquidationContribution
  | ShortfallPayout
  | AutoDeleverage
  | LpContribution
  | LpWithdrawal
  | SocializedLoss
deriving DecidableEq, Repr

/-- Single insurance event record (`InsuranceEvent`). -/
structure InsuranceEvent where
  event_type : InsuranceEventType
  timestamp : Nat
  amount : Int
  balance_after : Nat
  related_account : Nat
  related_instrument : Nat
deriving DecidableEq, Repr

/-- Default (zeroed) insurance event. -/
def InsuranceEvent.default0 : InsuranceEvent :=
  { event_type := .LiquidationContribution, timestamp := 0, amount := 0,
    balance_after := 0, related_account := 0, related_instrument := 0 }

instance : Inhabited InsuranceEvent := ⟨InsuranceEvent.default0⟩

/-- Insurance pool statistics (`InsuranceStats`). -/
structure InsuranceStats where
  total_contributions : Nat
  total_payouts : Nat
  adl_events : Nat
  shortfall_events : Nat
  max_single_payout : Nat
  last_contribution_ts : Nat
  last_payout_ts : Nat
deriving DecidableEq, Repr

/-- Zeroed insurance statistics record. -/
def InsuranceStats.default0 : InsuranceStats :=
  { total_contributions := 0, total_payouts := 0, adl_events := 0,
    shortfall_events := 0, max_single_payout := 0,
    last_contribution_ts := 0, last_payout_ts := 0 }

/-- Slab insurance pool state (`InsurancePool`); the owner pubkey is not
relevant to the embedded operations and is omitted. -/
structure InsurancePool where
  balance : Nat
  target_balance : Nat
  contribution_rate_bps : Nat
  adl_threshold_bps : Nat
  withdrawal_timelock_secs : Nat
  pending_withdrawal : Nat
  pending_withdrawal_unlock_ts : Nat
  total_open_interest : Nat
  stats : InsuranceStats
  event_write_idx : Nat
  events : Nat → InsuranceEvent

/-- Record an event in the 100-slot ring (`InsurancePool::record_event`). -/
def InsurancePool.record_event (p : InsurancePool) (e : InsuranceEvent) : InsurancePool :=
  let idx := p.event_write_idx % INSURANCE_HISTORY_SIZE
  { p with
    events := fun j => if j = idx then e else p.events j,
    event_write_idx := (p.event_write_idx + 1) % U32MOD }

/-- Pay out from the insurance pool for a shortfall
(`InsurancePool::payout`): pays `min(amount, balance)`, errors when that
is zero, updates statistics and records a negative-amount event. -/
def InsurancePool.payout (p : InsurancePool) (amount : Nat)
    (event_type : InsuranceEventType) (related_account related_instrument ts : Nat) :
    Except PercolatorError (Nat × InsurancePool) :=
  let actual_payout := min amount p.balance
  if actual_payout = 0 then .error .InsufficientFunds
  else
    let p1 := { p with
      balance := p.balance - actual_payout,
      stats := { p.stats with
        total_payouts := p.stats.total_payouts + actual_payout,
        last_payout_ts := ts } }
    let p2 := if p1.stats.max_single_payout < actual_payout then
                { p1 with stats := { p1.stats with max_single_payout := actual_payout } }
              else p1
    let p3 := if event_type = .ShortfallPayout then
                { p2 with stats := { p2.stats with shortfall_events := p2.stats.shortfall_events + 1 } }
              else if event_type = .AutoDeleverage then
                { p2 with stats := { p2.stats with adl_events := p2.stats.adl_events + 1 } }
              else p2
    let p4 := p3.record_event
      { event_type := event_type, timestamp := ts,
        amount := -(actual_payout : Int), balance_after := p3.balance,
        related_account := related_account, related_instrument := related_instrument }
    .ok (actual_payout, p4)

/-- ADL trigger check (`InsurancePool::should_trigger_adl`): balance below
`OI * adl_threshold_bps / 10000` with nonzero open interest. -/
def InsurancePool.should_trigger_adl (p : InsurancePool) : Bool :=
  if p.total_open_interest = 0 then false
  else p.balance < p.total_open_interest * p.adl_threshold_bps / 10000

/-! ## Router portfolio margin
(`programs/router/src/instructions/portfolio_margin.rs`) -/

/-- Default initial margin ratio in bps (`DEFAULT_IMR_BPS`, 10 percent). -/
def DEFAULT_IMR_BPS : Nat := 1000

/-- Default maintenance margin ratio in bps (`DEFAULT_MMR_BPS`). -/
def DEFAULT_MMR_BPS : Nat := 500

/-- Maximum correlation benefit in bps (`MAX_CORRELATION_BENEFIT_BPS`). -/
def MAX_CORRELATION_BENEFIT_BPS : Nat := 5000

/-- Minimum correlation to apply a benefit (`MIN_CORRELATION_THRESHOLD`). -/
def MIN_CORRELATION_THRESHOLD : Int := 500

/-- Instrument risk parameters (`InstrumentRiskParams`). -/
structure InstrumentRiskParams where
  slab_idx : Nat
  instrument_idx : Nat
  imr_bps : Nat
  mmr_bps : Nat
  contract_size : Nat
  mark_price : Nat
  risk_weight : Nat
deriving DecidableEq, Repr

/-- Default risk parameters (`InstrumentRiskParams::default`). -/
def InstrumentRiskParams.default0 : InstrumentRiskParams :=
  { slab_idx := 0, instrument_idx := 0, imr_bps := DEFAULT_IMR_BPS,
    mmr_bps := DEFAULT_MMR_BPS, contract_size := 1000000,
    mark_price := 0, risk_weight := 100 }

instance : Inhabited InstrumentRiskParams := ⟨InstrumentRiskParams.default0⟩

/-- Correlation entry between two instruments (`CorrelationEntry`). -/
structure CorrelationEntry where
  inst1_slab : Nat
  inst1_idx : Nat
  inst2_slab : Nat
  inst2_idx : Nat
  correlation : Int
deriving DecidableEq, Repr

/-- Portfolio margin calculation result (`PortfolioMarginResult`). -/
structure PortfolioMarginResult where
  gross_im : Nat
  net_im : Nat
  gross_mm : Nat
  net_mm : Nat
  total_notional : Nat
  netting_benefit : Nat
  correlation_benefit : Nat
  position_count : Nat
deriving DecidableEq, Repr

/-- Exposure grouped by underlying (`PositionDelta`). -/
structure PositionDelta where
  underlying_id : Nat
  net_delta : Int
  long_notional : Nat
  short_notional : Nat
  risk_weight : Nat
deriving DecidableEq, Repr

/-- Default (zeroed) position delta. -/
def PositionDelta.default0 : PositionDelta :=
  { underlying_id := 0, net_delta := 0, long_notional := 0,
    short_notional := 0, risk_weight := 0 }

instance : Inhabited PositionDelta := ⟨PositionDelta.default0⟩

/-- Modelled from the spec: the router `Portfolio` state record is not under
the sources (only the router instructions that use it are); the margin
calculations need only its exposures list `(shard_idx, instrument_idx,
signed_qty)`, whose length plays the role of `exposure_count`. -/
structure Portfolio where
  exposures : List (Nat × Nat × Int)

/-- Lookup of risk parameters for one exposure in the gross-margin loop:
first match on (slab, instrument), else the default record patched with
the exposure identity (`unwrap_or_else` in the source). -/
def findRiskParams (risk_params : List InstrumentRiskParams) (s i : Nat) :
    InstrumentRiskParams :=
  match risk_params.find? (fun p => p.slab_idx = s ∧ p.instrument_idx = i) with
  | some p => p
  | none => { InstrumentRiskParams.default0 with slab_idx := s, instrument_idx := i }

/-- Gross-margin accumulation loop of `calculate_portfolio_margin`
(step 1): per exposure with nonzero quantity and known positive mark,
`notional = |qty| * mark * contract_size / 1e12`, `im = notional *
imr_bps / 10000`, `mm` analogously; stops counting at 64 positions.
Returns (gross_im, gross_mm, total_notional, position_count). -/
def grossLoop (risk_params : List InstrumentRiskParams) :
    List (Nat × Nat × Int) → Nat → Nat → Nat → Nat → Nat × Nat × Nat × Nat
  | [], gim, gmm, tn, pc => (gim, gmm, tn, pc)
  | (s, i, qty) :: rest, gim, gmm, tn, pc =>
    if 64 ≤ pc then (gim, gmm, tn, pc)
    else if qty = 0 then grossLoop risk_params rest gim gmm tn pc
    else
      let params := findRiskParams risk_params s i
      if params.mark_price = 0 then grossLoop risk_params rest gim gmm tn pc
      else
        let abs_qty := qty.natAbs
        let notional := abs_qty * params.mark_price * params.contract_size / 1000000000000
        let im := notional * params.imr_bps / 10000
        let mm := notional * params.mmr_bps / 10000
        grossLoop risk_params rest (gim + im) (gmm + mm) (tn + notional) (pc + 1)

/-- Accumulation loop of `calculate_net_exposure_groups`: total signed
long and short quantities and their notionals (`|qty| * mark / 1e6`,
parameters defaulted when absent).  Returns (total_long, total_short,
long_notional, short_notional). -/
def netLoop (risk_params : List InstrumentRiskParams) :
    List (Nat × Nat × Int) → Int → Int → Nat → Nat → Int × Int × Nat × Nat
  | [], tl, ts, tln, tsn => (tl, ts, tln, tsn)
  | (s, i, qty) :: rest, tl, ts, tln, tsn =>
    if qty = 0 then netLoop risk_params rest tl ts tln tsn
    else
      let params :=
        (risk_params.find? (fun p => p.slab_idx = s ∧ p.instrument_idx = i)).getD
          InstrumentRiskParams.default0
      let notional := qty.natAbs * params.mark_price / 1000000
      if 0 < qty then netLoop risk_params rest (tl + qty) ts (tln + notional) tsn
      else netLoop risk_params rest tl (ts + (-qty)) tln (tsn + notional)

/-- Group exposures by underlying (`calculate_net_exposure_groups`): v0
collapses all instruments into group 0; groups 1..15 stay zeroed. -/
def calculate_net_exposure_groups (portfolio : Portfolio)
    (risk_params : List InstrumentRiskParams) : List PositionDelta :=
  let (tl, ts, tln, tsn) := netLoop risk_params portfolio.exposures 0 0 0 0
  { underlying_id := 0, net_delta := tl - ts, long_notional := tln,
    short_notional := tsn, risk_weight := 100 }
    :: List.replicate 15 PositionDelta.default0

/-- Average imr over the risk-parameter list used by `calculate_net_im`
(defaulting to `DEFAULT_IMR_BPS` when empty). -/
def avgImr (risk_params : List InstrumentRiskParams) : Nat :=
  if risk_params.isEmpty then DEFAULT_IMR_BPS
  else (risk_params.map (·.imr_bps)).sum / risk_params.length

/-- Average positive mark price used by `calculate_net_im` (saturating
u64 accumulation; 1e6 when no positive mark exists). -/
def avgPrice (risk_params : List InstrumentRiskParams) : Nat :=
  if risk_params.isEmpty then 1000000
  else
    let tp := risk_params.foldl
      (fun acc p => if 0 < p.mark_price then satAdd64 acc p.mark_price else acc) 0
    let c := risk_params.foldl
      (fun acc p => if 0 < p.mark_price then acc + 1 else acc) 0
    if c = 0 then 1000000 else tp / c

/-- Initial margin on net exposure (`calculate_net_im`): per nonzero
group, `im = (|net_delta| * avg_price / 1e6) * avg_imr / 10000`. -/
def calculate_net_im (groups : List PositionDelta)
    (risk_params : List InstrumentRiskParams) : Nat :=
  let avg_imr := avgImr risk_params
  let avg_price := avgPrice risk_params
  groups.foldl
    (fun acc g =>
      if g.net_delta = 0 ∧ g.long_notional = 0 ∧ g.short_notional = 0 then acc
      else acc + g.net_delta.natAbs * avg_price / 1000000 * avg_imr / 10000)
    0

/-- Correlation benefit for one ordered pair of groups (body of the inner
loop of `calculate_correlation_benefit`). -/
def pairBenefit (correlations : List CorrelationEntry) (g1 g2 : PositionDelta) : Nat :=
  if g1.net_delta = 0 ∨ g2.net_delta = 0 then 0
  else
    let corr := ((correlations.find? (fun c =>
        (c.inst1_slab = g1.underlying_id ∧ c.inst2_slab = g2.underlying_id) ∨
        (c.inst2_slab = g1.underlying_id ∧ c.inst1_slab = g2.underlying_id))).map
        (·.correlation)).getD 0
    if (decide (0 < g1.net_delta) ≠ decide (0 < g2.net_delta)) ∧
        MIN_CORRELATION_THRESHOLD < corr then
      let smaller_notional := min (satAdd64 g1.long_notional g1.short_notional)
        (satAdd64 g2.long_notional g2.short_notional)
      let max_benefit := smaller_notional * MAX_CORRELATION_BENEFIT_BPS / 10000
      max_benefit * corr.toNat / 1000
    else 0

/-- Correlation benefit over all unordered group pairs
(`calculate_correlation_benefit`). -/
def calculate_correlation_benefit (groups : List PositionDelta)
    (correlations : List CorrelationEntry) : Nat :=
  (List.range groups.length).foldl
    (fun acc i =>
      ((List.range groups.length).drop (i + 1)).foldl
        (fun acc2 j => acc2 + pairBenefit correlations (groups.getD i default)
          (groups.getD j default))
        acc)
    0

/-- Portfolio margin across slabs (`calculate_portfolio_margin`): gross
margins, v0 net-exposure grouping, net margin, optional correlation
benefit, and `netting_benefit = gross_im saturating-minus net_im`. -/
def calculate_portfolio_margin (portfolio : Portfolio)
    (risk_params : List InstrumentRiskParams)
    (correlations : Option (List CorrelationEntry)) : PortfolioMarginResult :=
  let g := grossLoop risk_params portfolio.exposures 0 0 0 0
  let groups := calculate_net_exposure_groups portfolio risk_params
  let net_im0 := calculate_net_im groups risk_params
  let net_mm0 := net_im0 / 2
  match correlations with
  | none =>
    { gross_im := g.1, net_im := net_im0, gross_mm := g.2.1, net_mm := net_mm0,
      total_notional := g.2.2.1, netting_benefit := g.1 - net_im0,
      correlation_benefit := 0, position_count := g.2.2.2 }
  | some corrs =>
    let cb := calculate_correlation_benefit groups corrs
    let net_im1 := net_im0 - cb
    let net_mm1 := net_mm0 - cb / 2
    { gross_im := g.1, net_im := net_im1, gross_mm := g.2.1, net_mm := net_mm1,
      total_notional := g.2.2.1, netting_benefit := g.1 - net_im1,
      correlation_benefit := cb, position_count := g.2.2.2 }

/-! ## Slab data model (`programs/slab/src/state`)

Pools become total functions `Nat -> record`; byte-array payloads
(pubkeys, commitment hashes, salts) carry no behaviour in the embedded
instructions and are omitted from the records. -/

/-- Resting order record (`percolator_common::Order`); fields per the spec
data model and the uses in the slab sources. -/
structure Order where
  order_id : Nat
  account_idx : Nat
  instrument_idx : Nat
  side : Side
  state : OrderState
  price : Nat
  qty_orig : Nat
  qty : Nat
  reserved_qty : Nat
  eligible_epoch : Nat
  created_ms : Nat
  prev : Nat
  next : Nat
  next_free : Nat
  used : Bool
deriving DecidableEq, Repr

/-- Zeroed order record with empty links. -/
def Order.default0 : Order :=
  { order_id := 0, account_idx := 0, instrument_idx := 0, side := .Buy,
    state := .LIVE, price := 0, qty_orig := 0, qty := 0, reserved_qty := 0,
    eligible_epoch := 0, created_ms := 0, prev := INVALID, next := INVALID,
    next_free := INVALID, used := false }

instance : Inhabited Order := ⟨Order.default0⟩

/-- Position record (`percolator_common::Position`); `index` doubles as the
freelist link while the record is free. -/
structure Position where
  account_idx : Nat
  instrument_idx : Nat
  qty : Int
  entry_px : Nat
  last_funding : Int
  next_in_account : Nat
  index : Nat
  used : Bool
deriving DecidableEq, Repr

/-- Zeroed position record. -/
def Position.default0 : Position :=
  { account_idx := 0, instrument_idx := 0, qty := 0, entry_px := 0,
    last_funding := 0, next_in_account := INVALID, index := INVALID,
    used := false }

instance : Inhabited Position := ⟨Position.default0⟩

/-- Reservation record (`percolator_common::Reservation`); `index` doubles
as the freelist link while free; the commitment hash and salt payloads are
omitted. -/
structure Reservation where
  hold_id : Nat
  route_id : Nat
  account_idx : Nat
  instrument_idx : Nat
  side : Side
  qty : Nat
  vwap_px : Nat
  worst_px : Nat
  max_charge : Nat
  book_seqno : Nat
  expiry_ms : Nat
  slice_head : Nat
  committed : Bool
  index : Nat
  used : Bool
deriving DecidableEq, Repr

/-- Zeroed reservation record. -/
def Reservation.default0 : Reservation :=
  { hold_id := 0, route_id := 0, account_idx := 0, instrument_idx := 0,
    side := .Buy, qty := 0, vwap_px := 0, worst_px := 0, max_charge := 0,
    book_seqno := 0, expiry_ms := 0, slice_head := INVALID,
    committed := false, index := INVALID, used := false }

instance : Inhabited Reservation := ⟨Reservation.default0⟩

/-- Slice record (`percolator_common::Slice`) binding a reserved quantity
to one maker order; `index` doubles as the freelist link while free. -/
structure Slice where
  order_idx : Nat
  qty : Nat
  next : Nat
  index : Nat
  used : Bool
deriving DecidableEq, Repr

/-- Zeroed slice record. -/
def Slice.default0 : Slice :=
  { order_idx := 0, qty := 0, next := INVALID, index := INVALID, used := false }

instance : Inhabited Slice := ⟨Slice.default0⟩

/-- Trade record (`percolator_common::Trade`); the commit hash payload is
omitted. -/
structure Trade where
  ts : Nat
  order_id_maker : Nat
  order_id_taker : Nat
  instrument_idx : Nat
  side : Side
  price : Nat
  qty : Nat
  reveal_ms : Nat
deriving DecidableEq, Repr

/-- Zeroed trade record. -/
def Trade.default0 : Trade :=
  { ts := 0, order_id_maker := 0, order_id_taker := 0, instrument_idx := 0,
    side := .Buy, price := 0, qty := 0, reveal_ms := 0 }

instance : Inhabited Trade := ⟨Trade.default0⟩

/-- Instrument record (`percolator_common::Instrument`); the symbol bytes
are omitted. -/
structure Instrument where
  contract_size : Nat
  tick : Nat
  lot : Nat
  index_price : Nat
  funding_rate : Int
  cum_funding : Int
  last_funding_ts : Nat
  bids_head : Nat
  asks_head : Nat
  bids_pending_head : Nat
  asks_pending_head : Nat
  epoch : Nat
deriving DecidableEq, Repr

/-- Zeroed instrument record with empty books. -/
def Instrument.default0 : Instrument :=
  { contract_size := 1000000, tick := 1, lot := 1, index_price := 0,
    funding_rate := 0, cum_funding := 0, last_funding_ts := 0,
    bids_head := INVALID, asks_head := INVALID,
    bids_pending_head := INVALID, asks_pending_head := INVALID, epoch := 0 }

instance : Inhabited Instrument := ⟨Instrument.default0⟩

/-- Per-shard account record (`percolator_common::AccountState`); the
owner pubkey is omitted. -/
structure AccountState where
  cash : Int
  im : Nat
  mm : Nat
  position_head : Nat
  index : Nat
  active : Bool
deriving DecidableEq, Repr

/-- Inactive zeroed account record. -/
def AccountState.default0 : AccountState :=
  { cash := 0, im := 0, mm := 0, position_head := INVALID, index := 0,
    active := false }

instance : Inhabited AccountState := ⟨AccountState.default0⟩

/-- Slab header (`state/header.rs`); magic, version, pubkeys and bump are
identification payload and are omitted. -/
structure SlabHeader where
  seqno : Nat
  imr_bps : Nat
  mmr_bps : Nat
  maker_fee_bps : Int
  taker_fee_bps : Nat
  batch_ms : Nat
  kill_band_bps : Nat
  freeze_levels : Nat
  jit_penalty_on : Bool
  maker_rebate_min_ms : Nat
  arg_enabled : Bool
  arg_tax_bps : Nat
  current_epoch : Nat
  next_order_id : Nat
  next_hold_id : Nat
  last_batch_open_ts : Nat
  last_funding_ts : Nat
  mark_px : Int
  prev_mark_px : Int
  instrument_count : Nat
  account_count : Nat
  order_count : Nat
  position_count : Nat
  reservation_count : Nat
  slice_count : Nat
  trade_write_idx : Nat
  order_freelist_head : Nat
  position_freelist_head : Nat
  reservation_freelist_head : Nat
  slice_freelist_head : Nat
deriving DecidableEq, Repr

attribute [ext] SlabHeader

/-- Increment the u32 sequence number with wraparound
(`SlabHeader::increment_seqno`). -/
def SlabHeader.increment_seqno (h : SlabHeader) : SlabHeader :=
  { h with seqno := (h.seqno + 1) % U32MOD }

/-- Full slab state (`state/slab.rs::SlabState`): header plus the pools.
The quote cache and aggressor ledger are unused by the embedded
instructions and are omitted. -/
structure SlabState where
  header : SlabHeader
  instruments : Nat → Instrument
  accounts : Nat → AccountState
  orders : Nat → Order
  positions : Nat → Position
  reservations : Nat → Reservation
  slices : Nat → Slice
  trades : Nat → Trade

attribute [ext] SlabState

namespace SlabState

/-- Order lookup with bounds and used checks (`get_order`). -/
def get_order (s : SlabState) (idx : Nat) : Option Order :=
  if POOL_ORDERS ≤ idx then none
  else if (s.orders idx).used then some (s.orders idx) else none

/-- Mutation through `get_order_mut`: apply `f` when the index is in range
and the record used, else leave the state unchanged. -/
def with_order (s : SlabState) (idx : Nat) (f : Order → Order) : SlabState :=
  if POOL_ORDERS ≤ idx then s
  else if (s.orders idx).used then
    { s with orders := fun j => if j = idx then f (s.orders idx) else s.orders j }
  else s

/-- Free an order back to the freelist (`free_order`). -/
def free_order (s : SlabState) (idx : Nat) : SlabState :=
  if POOL_ORDERS ≤ idx then s
  else if ¬ (s.orders idx).used then s
  else
    { s with
      orders := fun j =>
        if j = idx then
          { s.orders idx with used := false, next_free := s.header.order_freelist_head }
        else s.orders j,
      header := { s.header with
        order_freelist_head := idx,
        order_count := s.header.order_count - 1 } }

/-- Position lookup (`get_position`). -/
def get_position (s : SlabState) (idx : Nat) : Option Position :=
  if POOL_POSITIONS ≤ idx then none
  else if (s.positions idx).used then some (s.positions idx) else none

/-- Mutation through `get_position_mut`. -/
def with_position (s : SlabState) (idx : Nat) (f : Position → Position) : SlabState :=
  if POOL_POSITIONS ≤ idx then s
  else if (s.positions idx).used then
    { s with positions := fun j => if j = idx then f (s.positions idx) else s.positions j }
  else s

/-- Allocate a position from the freelist (`alloc_position`); as in the
source the popped head is indexed without a bounds check, so theorems
about this path assume the head is in range. -/
def alloc_position (s : SlabState) : Option (Nat × SlabState) :=
  let head := s.header.position_freelist_head
  if head = INVALID then none
  else
    some (head,
      { s with
        positions := fun j =>
          if j = head then { s.positions head with used := true, index := head }
          else s.positions j,
        header := { s.header with
          position_freelist_head := (s.positions head).index,
          position_count := s.header.position_count + 1 } })

/-- Free a position back to the freelist (`free_position`). -/
def free_position (s : SlabState) (idx : Nat) : SlabState :=
  if POOL_POSITIONS ≤ idx then s
  else if ¬ (s.positions idx).used then s
  else
    { s with
      positions := fun j =>
        if j = idx then
          { s.positions idx with used := false, index := s.header.position_freelist_head }
        else s.positions j,
      header := { s.header with
        position_freelist_head := idx,
        position_count := s.header.position_count - 1 } }

/-- Reservation lookup (`get_reservation`). -/
def get_reservation (s : SlabState) (idx : Nat) : Option Reservation :=
  if POOL_RESERVATIONS ≤ idx then none
  else if (s.reservations idx).used then some (s.reservations idx) else none

/-- Mutation through `get_reservation_mut`. -/
def with_reservation (s : SlabState) (idx : Nat) (f : Reservation → Reservation) : SlabState :=
  if POOL_RESERVATIONS ≤ idx then s
  else if (s.reservations idx).used then
    { s with reservations := fun j => if j = idx then f (s.reservations idx) else s.reservations j }
  else s

/-- Allocate a reservation from the freelist (`alloc_reservation`); the
popped head is indexed without a bounds check as in the source. -/
def alloc_reservation (s : SlabState) : Option (Nat × SlabState) :=
  let head := s.header.reservation_freelist_head
  if head = INVALID then none
  else
    some (head,
      { s with
        reservations := fun j =>
          if j = head then { s.reservations head with used := true, index := head }
          else s.reservations j,
        header := { s.header with
          reservation_freelist_head := (s.reservations head).index,
          reservation_count := s.header.reservation_count + 1 } })

/-- Free a reservation back to the freelist (`free_reservation`). -/
def free_reservation (s : SlabState) (idx : Nat) : SlabState :=
  if POOL_RESERVATIONS ≤ idx then s
  else if ¬ (s.reservations idx).used then s
  else
    { s with
      reservations := fun j =>
        if j = idx then
          { s.reservations idx with used := false, index := s.header.reservation_freelist_head }
        else s.reservations j,
      header := { s.header with
        reservation_freelist_head := idx,
        reservation_count := s.header.reservation_count - 1 } }

/-- Linear scan for a used reservation with the given hold id
(`find_reservation_by_hold_id`). -/
def find_reservation_by_hold_id (s : SlabState) (hold_id : Nat) : Option Nat :=
  (List.range POOL_RESERVATIONS).find?
    (fun i => (s.reservations i).used && (s.reservations i).hold_id == hold_id)

/-- Slice lookup (`get_slice`). -/
def get_slice (s : SlabState) (idx : Nat) : Option Slice :=
  if POOL_SLICES ≤ idx then none
  else if (s.slices idx).used then some (s.slices idx) else none

/-- Mutation through `get_slice_mut`. -/
def with_slice (s : SlabState) (idx : Nat) (f : Slice → Slice) : SlabState :=
  if POOL_SLICES ≤ idx then s
  else if (s.slices idx).used then
    { s with slices := fun j => if j = idx then f (s.slices idx) else s.slices j }
  else s

/-- Allocate a slice from the freelist (`alloc_slice`); the popped head is
indexed without a bounds check as in the source. -/
def alloc_slice (s : SlabState) : Option (Nat × SlabState) :=
  let head := s.header.slice_freelist_head
  if head = INVALID then none
  else
    some (head,
      { s with
        slices := fun j =>
          if j = head then { s.slices head with used := true, index := head }
          else s.slices j,
        header := { s.header with
          slice_freelist_head := (s.slices head).index,
          slice_count := s.header.slice_count + 1 } })

/-- Free a slice back to the freelist (`free_slice`). -/
def free_slice (s : SlabState) (idx : Nat) : SlabState :=
  if POOL_SLICES ≤ idx then s
  else if ¬ (s.slices idx).used then s
  else
    { s with
      slices := fun j =>
        if j = idx then
          { s.slices idx with used := false, index := s.header.slice_freelist_head }
        else s.slices j,
      header := { s.header with
        slice_freelist_head := idx,
        slice_count := s.header.slice_count - 1 } }

/-- Record a trade in the ring buffer (`record_trade`). -/
def record_trade (s : SlabState) (t : Trade) : SlabState :=
  let idx := s.header.trade_write_idx % POOL_TRADES
  { s with
    trades := fun j => if j = idx then t else s.trades j,
    header := { s.header with trade_write_idx := (s.header.trade_write_idx + 1) % U32MOD } }

/-- Instrument lookup (`get_instrument`): in range and below the active
instrument count. -/
def get_instrument (s : SlabState) (idx : Nat) : Option Instrument :=
  if POOL_INSTRUMENTS ≤ idx ∨ s.header.instrument_count ≤ idx then none
  else some (s.instruments idx)

/-- Mutation through `get_instrument_mut`. -/
def with_instrument (s : SlabState) (idx : Nat) (f : Instrument → Instrument) : SlabState :=
  if POOL_INSTRUMENTS ≤ idx ∨ s.header.instrument_count ≤ idx then s
  else { s with instruments := fun j => if j = idx then f (s.instruments idx) else s.instruments j }

/-- Account lookup (`get_account`): in range and active. -/
def get_account (s : SlabState) (idx : Nat) : Option AccountState :=
  if POOL_ACCOUNTS ≤ idx then none
  else if (s.accounts idx).active then some (s.accounts idx) else none

/-- Mutation through `get_account_mut`. -/
def with_account (s : SlabState) (idx : Nat) (f : AccountState → AccountState) : SlabState :=
  if POOL_ACCOUNTS ≤ idx then s
  else if (s.accounts idx).active then
    { s with accounts := fun j => if j = idx then f (s.accounts idx) else s.accounts j }
  else s

/-- Head of the contra side for a taker (`get_best_contra`): the ask head
for a Buy taker, the bid head for a Sell taker. -/
def get_best_contra (s : SlabState) (instrument_idx : Nat) (side : Side) : Option Nat :=
  match s.get_instrument instrument_idx with
  | none => none
  | some instr =>
    match side with
    | .Buy => if instr.asks_head ≠ INVALID then some instr.asks_head else none
    | .Sell => if instr.bids_head ≠ INVALID then some instr.bids_head else none

/-- Remove an order from its book list (`remove_order_from_book`):
re-stitch prev/next (or the instrument head) and clear the links. -/
def remove_order_from_book (s : SlabState) (order_idx : Nat) : SlabState :=
  match s.get_order order_idx with
  | none => s
  | some o =>
    let s1 :=
      if o.prev ≠ INVALID then
        s.with_order o.prev (fun po => { po with next := o.next })
      else
        s.with_instrument o.instrument_idx (fun instr =>
          match o.state, o.side with
          | .LIVE, .Buy => { instr with bids_head := o.next }
          | .LIVE, .Sell => { instr with asks_head := o.next }
          | .PENDING, .Buy => { instr with bids_pending_head := o.next }
          | .PENDING, .Sell => { instr with asks_pending_head := o.next })
    let s2 :=
      if o.next ≠ INVALID then s1.with_order o.next (fun no => { no with prev := o.prev })
      else s1
    let s3 := s2.with_order order_idx (fun oo => { oo with prev := INVALID, next := INVALID })
    { s3 with header := s3.header.increment_seqno }

end SlabState

/-! ## Reserve (`programs/slab/src/instructions/reserve.rs`) -/

/-- Result of a reserve operation (`ReserveResult`). -/
structure ReserveResult where
  hold_id : Nat
  vwap_px : Nat
  worst_px : Nat
  filled_qty : Nat
  max_charge : Nat
  expiry_ms : Nat
  book_seqno : Nat
deriving DecidableEq, Repr

/-- Price gate of the walk: a Buy taker accepts maker asks priced at or
below the limit, a Sell taker accepts maker bids priced at or above it. -/
def price_ok (side : Side) (limit_px price : Nat) : Bool :=
  match side with
  | .Buy => decide (price ≤ limit_px)
  | .Sell => decide (limit_px ≤ price)

/-- Book walk of `walk_and_reserve`, one recursive step per loop
iteration.  Accumulator order: remaining quantity, current order index,
total quantity, total notional, worst price, slice chain head, previous
slice index.  Fuel exhaustion (a cyclic list, on which the Rust loop
would not terminate) yields `none`. -/
def walkAndReserveLoop (side : Side) (limit_px : Nat) :
    Nat → SlabState → Nat → Nat → Nat → Nat → Nat → Nat → Nat →
    Option (Except PercolatorError (Nat × Nat × Nat × Nat) × SlabState)
  | 0, _, _, _, _, _, _, _, _ => none
  | fuel + 1, s, qty_remaining, order_idx, total_qty, total_notional, worst_px,
      slice_head, prev_slice_idx =>
    if qty_remaining = 0 ∨ order_idx = INVALID then
      some (.ok (total_qty, total_notional, worst_px, slice_head), s)
    else
      match s.get_order order_idx with
      | none => some (.ok (total_qty, total_notional, worst_px, slice_head), s)
      | some order =>
        if price_ok side limit_px order.price = false then
          some (.ok (total_qty, total_notional, worst_px, slice_head), s)
        else
          let available := order.qty - order.reserved_qty
          if available = 0 then
            walkAndReserveLoop side limit_px fuel s qty_remaining order.next
              total_qty total_notional worst_px slice_head prev_slice_idx
          else
            let take := min available qty_remaining
            match s.alloc_slice with
            | none => some (.error .PoolFull, s)
            | some (slice_idx, s1) =>
              let s2 := s1.with_slice slice_idx
                (fun sl => { sl with order_idx := order_idx, qty := take, next := INVALID })
              let s3 :=
                if slice_head = INVALID then s2
                else s2.with_slice prev_slice_idx (fun sl => { sl with next := slice_idx })
              let slice_head1 := if slice_head = INVALID then slice_idx else slice_head
              let s4 := s3.with_order order_idx
                (fun o => { o with reserved_qty := o.reserved_qty + take })
              let order_price := ((s4.get_order order_idx).map Order.price).getD 0
              let nxt := ((s4.get_order order_idx).map Order.next).getD INVALID
              walkAndReserveLoop side limit_px fuel s4 (qty_remaining - take) nxt
                (total_qty + take) (total_notional + mul_u64 take order_price)
                order_price slice_head1 slice_idx

/-- Walk the contra book and reserve slices (`walk_and_reserve`); returns
(filled_qty, total_notional, worst_px, slice_head) and the new state. -/
def walk_and_reserve (s : SlabState) (instrument_idx : Nat) (side : Side)
    (qty limit_px : Nat) :
    Option (Except PercolatorError (Nat × Nat × Nat × Nat) × SlabState) :=
  match s.get_best_contra instrument_idx side with
  | none => some (.ok (0, 0, 0, INVALID), s)
  | some idx =>
    walkAndReserveLoop side limit_px (POOL_ORDERS + 1) s qty idx 0 0 0 INVALID INVALID

/-- Reserve instruction (`process_reserve`): validate, allocate a
reservation, mint the hold id, walk the contra book locking slices,
compute VWAP and max charge, populate the reservation and bump the
seqno.  Errors are returned together with the state at the error return
(the Rust function mutates in place; the host reverts on error). -/
def process_reserve (s : SlabState) (account_idx instrument_idx : Nat) (side : Side)
    (qty limit_px ttl_ms route_id : Nat) :
    Option (Except PercolatorError ReserveResult × SlabState) :=
  if (s.get_instrument instrument_idx).isNone then some (.error .InvalidInstrument, s)
  else if qty = 0 then some (.error .InvalidQuantity, s)
  else if limit_px = 0 then some (.error .InvalidPrice, s)
  else
    match s.alloc_reservation with
    | none => some (.error .PoolFull, s)
    | some (resv_idx, s1) =>
      let hold_id := s1.header.next_hold_id
      let s2 := { s1 with header := { s1.header with next_hold_id := (hold_id + 1) % U64MOD } }
      let book_seqno := s2.header.seqno
      let expiry_ms := ttl_ms
      match walk_and_reserve s2 instrument_idx side qty limit_px with
      | none => none
      | some (.error e, s3) => some (.error e, s3)
      | some (.ok (filled_qty, total_notional, worst_px, slice_head), s3) =>
        if filled_qty = 0 then
          some (.error .InsufficientLiquidity, s3.free_reservation resv_idx)
        else
          let vwap_px := calculate_vwap total_notional filled_qty
          let fee := total_notional * s3.header.taker_fee_bps / 10000
          let max_charge := total_notional + fee
          let s4 := s3.with_reservation resv_idx (fun r =>
            { r with
              hold_id := hold_id, route_id := route_id,
              account_idx := account_idx, instrument_idx := instrument_idx,
              side := side, qty := filled_qty, vwap_px := vwap_px,
              worst_px := worst_px, max_charge := max_charge,
              book_seqno := book_seqno, expiry_ms := expiry_ms,
              slice_head := slice_head, committed := false })
          let s5 := { s4 with header := s4.header.increment_seqno }
          some (.ok { hold_id := hold_id, vwap_px := vwap_px, worst_px := worst_px,
                      filled_qty := filled_qty, max_charge := max_charge,
                      expiry_ms := expiry_ms, book_seqno := book_seqno }, s5)

/-! ## Cancel and expiry sweep
(`programs/slab/src/instructions/cancel.rs`) -/

/-- Release loop shared by `cancel.rs::release_slices` and
`commit.rs::release_reservation_slices` (their bodies are identical):
walk the slice chain, restore each maker order's `reserved_qty`
(saturating) and free the slice. -/
def releaseSlicesLoop : Nat → SlabState → Nat → Option SlabState
  | 0, _, _ => none
  | fuel + 1, s, slice_idx =>
    if slice_idx = INVALID then some s
    else
      match s.get_slice slice_idx with
      | none => some s
      | some sl =>
        let s1 := s.with_order sl.order_idx
          (fun o => { o with reserved_qty := o.reserved_qty - sl.qty })
        let s2 := s1.free_slice slice_idx
        releaseSlicesLoop fuel s2 sl.next

/-- Release every slice of a chain (`release_slices`). -/
def release_slices (s : SlabState) (slice_head : Nat) : Option SlabState :=
  releaseSlicesLoop (POOL_SLICES + 1) s slice_head

/-- Release every slice of a reservation
(`commit.rs::release_reservation_slices`). -/
def release_reservation_slices (s : SlabState) (resv_idx : Nat) : Option SlabState :=
  match s.get_reservation resv_idx with
  | none => some s
  | some r => release_slices s r.slice_head

/-- Cancel instruction (`process_cancel`): find the reservation, refuse
committed holds, release the slices, free the reservation, bump seqno. -/
def process_cancel (s : SlabState) (hold_id : Nat) :
    Option (Except PercolatorError Unit × SlabState) :=
  match s.find_reservation_by_hold_id hold_id with
  | none => some (.error .ReservationNotFound, s)
  | some resv_idx =>
    match s.get_reservation resv_idx with
    | none => some (.error .ReservationNotFound, s)
    | some resv =>
      if resv.committed then some (.error .InvalidReservation, s)
      else
        match release_slices s resv.slice_head with
        | none => none
        | some s1 =>
          let s2 := s1.free_reservation resv_idx
          some (.ok (), { s2 with header := s2.header.increment_seqno })

/-- One iteration of the expiry sweep over the reservation pool. -/
def cleanupStep (current_ts max_cleanup : Nat) (acc : Option (Nat × SlabState)) (i : Nat) :
    Option (Nat × SlabState) :=
  match acc with
  | none => none
  | some (cleaned, s) =>
    if max_cleanup ≤ cleaned then some (cleaned, s)
    else
      match s.get_reservation i with
      | none => some (cleaned, s)
      | some resv =>
        if resv.committed then some (cleaned, s)
        else if 0 < resv.expiry_ms ∧ resv.expiry_ms < current_ts then
          match release_slices s resv.slice_head with
          | none => none
          | some s1 => some (cleaned + 1, s1.free_reservation i)
        else some (cleaned, s)

/-- Expiry sweep (`cleanup_expired_reservations`): walk the reservation
pool, release and free every uncommitted reservation with
`expiry_ms > 0` and `current_ts > expiry_ms`, up to `max_cleanup`. -/
def cleanup_expired_reservations (s : SlabState) (current_ts max_cleanup : Nat) :
    Option (Nat × SlabState) :=
  match (List.range POOL_RESERVATIONS).foldl (cleanupStep current_ts max_cleanup)
      (some (0, s)) with
  | none => none
  | some (cleaned, s1) =>
    if 0 < cleaned then some (cleaned, { s1 with header := s1.header.increment_seqno })
    else some (cleaned, s1)

/-! ## Commit (`programs/slab/src/instructions/commit.rs`) -/

/-- Result of a commit operation (`CommitResult`). -/
structure CommitResult where
  filled_qty : Nat
  vwap_px : Nat
  notional : Nat
  fees : Nat
  realized_pnl : Int
deriving DecidableEq, Repr

/-- Fill-execution loop of `execute_fills`: per slice, fill at the maker
resting price, decrement the maker order (removing it when exhausted),
record a trade, accumulate totals and free the slice; slices whose maker
was cancelled are skipped and freed. -/
def executeFillsLoop (taker_fee_bps : Nat) (maker_fee_bps : Int)
    (maker_rebate_min_ms current_ts : Nat) :
    Nat → SlabState → Nat → Nat → Nat → Nat → Option (Nat × Nat × Nat × SlabState)
  | 0, _, _, _, _, _ => none
  | fuel + 1, s, slice_idx, total_qty, total_notional, total_fees =>
    if slice_idx = INVALID then some (total_qty, total_notional, total_fees, s)
    else
      match s.get_slice slice_idx with
      | none => some (total_qty, total_notional, total_fees, s)
      | some sl =>
        let order_idx := sl.order_idx
        let fill_qty := sl.qty
        let next_slice := sl.next
        match s.get_order order_idx with
        | none =>
          let s1 := s.free_slice slice_idx
          executeFillsLoop taker_fee_bps maker_fee_bps maker_rebate_min_ms current_ts
            fuel s1 next_slice total_qty total_notional total_fees
        | some order =>
          let fill_price := order.price
          let order_created_ms := order.created_ms
          let instrument_idx := order.instrument_idx
          let fill_notional := mul_u64 fill_qty fill_price
          let taker_fee := fill_notional * taker_fee_bps / 10000
          let _maker_fee : Int :=
            if current_ts - order_created_ms < maker_rebate_min_ms then 0
            else Int.tdiv ((fill_notional : Int) * maker_fee_bps) 10000
          let s1 := s.with_order order_idx
            (fun o => { o with qty := o.qty - fill_qty, reserved_qty := o.reserved_qty - fill_qty })
          let s2 :=
            match s1.get_order order_idx with
            | some o2 =>
              if o2.qty = 0 then (s1.remove_order_from_book order_idx).free_order order_idx
              else s1
            | none => s1
          let maker_order_id := ((s2.get_order order_idx).map Order.order_id).getD 0
          let s3 := s2.record_trade
            { ts := current_ts, order_id_maker := maker_order_id, order_id_taker := 0,
              instrument_idx := instrument_idx, side := .Buy, price := fill_price,
              qty := fill_qty, reveal_ms := 0 }
          let s4 := s3.free_slice slice_idx
          executeFillsLoop taker_fee_bps maker_fee_bps maker_rebate_min_ms current_ts
            fuel s4 next_slice (total_qty + fill_qty) (total_notional + fill_notional)
            (total_fees + taker_fee)

/-- Execute fills for all slices of a reservation (`execute_fills`);
returns (filled_qty, total_notional, fees) and the new state. -/
def execute_fills (s : SlabState) (slice_head current_ts : Nat) :
    Option (Nat × Nat × Nat × SlabState) :=
  executeFillsLoop s.header.taker_fee_bps s.header.maker_fee_bps
    s.header.maker_rebate_min_ms current_ts (POOL_SLICES + 1) s slice_head 0 0 0

/-- Chain scan of `find_position`: first position of the account with the
given instrument; an unreadable link aborts with "not found" (`?` in the
source). -/
def findPositionLoop (s : SlabState) (instrument_idx : Nat) :
    Nat → Nat → Option (Option Nat)
  | 0, _ => none
  | fuel + 1, pos_idx =>
    if pos_idx = INVALID then some none
    else
      match s.get_position pos_idx with
      | none => some none
      | some pos =>
        if pos.instrument_idx = instrument_idx then some (some pos_idx)
        else findPositionLoop s instrument_idx fuel pos.next_in_account

/-- Find the position of (account, instrument) (`find_position`). -/
def find_position (s : SlabState) (account_idx instrument_idx : Nat) :
    Option (Option Nat) :=
  match s.get_account account_idx with
  | none => some none
  | some acc => findPositionLoop s instrument_idx (POOL_POSITIONS + 1) acc.position_head

/-- Position update after a fill (`update_position`): VWAP entry update on
same-sign adds, realized PnL on reductions, free on full close, create and
link a fresh position when none exists.  Returns the realized PnL. -/
def update_position (s : SlabState) (account_idx instrument_idx : Nat) (side : Side)
    (fill_qty : Int) (fill_price : Nat) :
    Option (Except PercolatorError Int × SlabState) :=
  let qty_change : Int := match side with | .Buy => fill_qty | .Sell => -fill_qty
  match find_position s account_idx instrument_idx with
  | none => none
  | some (some idx) =>
    match s.get_position idx with
    | none => some (.error .PositionNotFound, s)
    | some pos =>
      let old_qty := pos.qty
      let old_entry := pos.entry_px
      let new_qty := old_qty + qty_change
      let realized_pnl : Int :=
        if (0 < old_qty ∧ qty_change < 0) ∨ (old_qty < 0 ∧ 0 < qty_change) then
          let reduced_qty := min old_qty.natAbs qty_change.natAbs
          calculate_pnl (if 0 < old_qty then (reduced_qty : Int) else -(reduced_qty : Int))
            old_entry fill_price
        else 0
      if new_qty = 0 then some (.ok realized_pnl, s.free_position idx)
      else
        let s1 := s.with_position idx (fun p => { p with qty := new_qty })
        let s2 :=
          if (0 < old_qty ∧ 0 < qty_change) ∨ (old_qty < 0 ∧ qty_change < 0) then
            s1.with_position idx (fun p =>
              let new_notional := old_qty.natAbs * old_entry + qty_change.natAbs * fill_price
              let new_abs_qty := new_qty.natAbs
              if 0 < new_abs_qty then { p with entry_px := new_notional / new_abs_qty } else p)
          else s1
        some (.ok realized_pnl, s2)
  | some none =>
    match s.alloc_position with
    | none => some (.error .PoolFull, s)
    | some (new_idx, s1) =>
      let s2 := s1.with_position new_idx (fun p =>
        { p with
          account_idx := account_idx, instrument_idx := instrument_idx,
          qty := qty_change, entry_px := fill_price, last_funding := 0,
          next_in_account := INVALID })
      let s3 :=
        match s2.get_account account_idx with
        | none => s2
        | some acc =>
          let s2a := s2.with_position new_idx
            (fun p => { p with next_in_account := acc.position_head })
          s2a.with_account account_idx (fun a => { a with position_head := new_idx })
      some (.ok 0, s3)

/-- Commit instruction (`process_commit`): resolve the hold, check
committed / expiry / kill band, execute the fills at the reserved maker
prices, update the taker position, free the reservation, bump seqno. -/
def process_commit (s : SlabState) (hold_id current_ts : Nat) :
    Option (Except PercolatorError CommitResult × SlabState) :=
  match s.find_reservation_by_hold_id hold_id with
  | none => some (.error .ReservationNotFound, s)
  | some resv_idx =>
    match s.get_reservation resv_idx with
    | none => some (.error .ReservationNotFound, s)
    | some resv =>
      if resv.committed then some (.error .InvalidReservation, s)
      else if resv.expiry_ms < current_ts ∧ 0 < resv.expiry_ms then
        match release_reservation_slices s resv_idx with
        | none => none
        | some s1 => some (.error .ReservationExpired, s1.free_reservation resv_idx)
      else
        let mark_at_reserve := s.header.prev_mark_px
        let mark_now := s.header.mark_px
        let diff := (mark_now - mark_at_reserve).natAbs
        let threshold := mark_at_reserve.natAbs * s.header.kill_band_bps / 10000
        if mark_at_reserve ≠ 0 ∧ mark_now ≠ 0 ∧ threshold < diff then
          match release_reservation_slices s resv_idx with
          | none => none
          | some s1 => some (.error .KillBandExceeded, s1.free_reservation resv_idx)
        else
          match execute_fills s resv.slice_head current_ts with
          | none => none
          | some (filled_qty, total_notional, fees, s1) =>
            let vwap_px := if 0 < filled_qty then total_notional / filled_qty else 0
            match update_position s1 resv.account_idx resv.instrument_idx resv.side
                (filled_qty : Int) vwap_px with
            | none => none
            | some (.error e, s2) => some (.error e, s2)
            | some (.ok realized_pnl, s2) =>
              let s3 := s2.with_reservation resv_idx (fun r => { r with committed := true })
              let s4 := s3.free_reservation resv_idx
              some (.ok { filled_qty := filled_qty, vwap_px := vwap_px,
                          notional := total_notional, fees := fees,
                          realized_pnl := realized_pnl },
                { s4 with header := s4.header.increment_seqno })

/-! ## Funding (`programs/slab/src/instructions/funding.rs`) -/

/-- Funding update interval, one hour in milliseconds
(`FUNDING_INTERVAL_MS`). -/
def FUNDING_INTERVAL_MS : Nat := 3600000

/-- Wrap an Int into the i64 range (the `as i64` narrowing cast). -/
def wrapI64 (x : Int) : Int :=
  (x + 2 ^ 63) % (2 ^ 64 : Int) - 2 ^ 63

/-- Funding rate from the mark/index premium
(`calculate_funding_rate`): premium in bps, divided by 8 for an hourly
rate, time-weighted by elapsed/interval. -/
def calculate_funding_rate (mark_price index_price time_elapsed_ms : Nat) : Int :=
  if index_price = 0 then 0
  else
    let premium_bps := Int.tdiv (((mark_price : Int) - (index_price : Int)) * 10000) index_price
    let hourly_rate := Int.tdiv premium_bps 8
    let time_factor := Int.tdiv ((time_elapsed_ms : Int) * 1000000) (FUNDING_INTERVAL_MS : Int)
    Int.tdiv (hourly_rate * time_factor) 1000000

/-- First pass of the per-account loop in `apply_funding_to_positions`:
walk the position chain collecting up to 32 positions of the instrument
and the account's total funding payment. -/
def fundingScanLoop (s : SlabState) (instrument_idx : Nat) (funding_delta : Int) :
    Nat → Nat → List Nat → Int → Option (List Nat × Int)
  | 0, _, _, _ => none
  | fuel + 1, pos_idx, collected, payment =>
    if pos_idx = INVALID ∨ 32 ≤ collected.length then some (collected, payment)
    else
      match s.get_position pos_idx with
      | none => some (collected, payment)
      | some p =>
        if p.instrument_idx = instrument_idx then
          fundingScanLoop s instrument_idx funding_delta fuel p.next_in_account
            (collected ++ [pos_idx]) (payment + calculate_funding_payment p.qty funding_delta 0)
        else
          fundingScanLoop s instrument_idx funding_delta fuel p.next_in_account collected payment

/-- Per-account body of `apply_funding_to_positions`: collect the matching
positions, stamp their `last_funding` with the new cumulative funding, and
debit the account's cash by the total payment (i128 saturating). -/
def applyFundingAccount (instrument_idx : Nat) (funding_delta new_cum : Int)
    (s : SlabState) (acc_idx : Nat) : Option SlabState :=
  match s.get_account acc_idx with
  | none => some s
  | some acc =>
    match fundingScanLoop s instrument_idx funding_delta (POOL_POSITIONS + 1)
        acc.position_head [] 0 with
    | none => none
    | some (collected, funding_payment) =>
      let s1 := collected.foldl
        (fun st idx => st.with_position idx (fun p => { p with last_funding := new_cum })) s
      if funding_payment ≠ 0 then
        some (s1.with_account acc_idx
          (fun a => { a with cash := satSubI128 a.cash funding_payment }))
      else some s1

/-- Apply funding to every account's positions on the instrument
(`apply_funding_to_positions`). -/
def apply_funding_to_positions (s : SlabState) (instrument_idx : Nat)
    (old_cum new_cum : Int) : Option SlabState :=
  let funding_delta := new_cum - old_cum
  (List.range s.header.account_count).foldl
    (fun acc a =>
      match acc with
      | none => none
      | some st => applyFundingAccount instrument_idx funding_delta new_cum st a)
    (some s)

/-- Funding instruction (`process_update_funding`): enforce the funding
interval, compute the rate from the mark/index premium, advance the
instrument's cumulative funding and settle every position. -/
def process_update_funding (s : SlabState) (instrument_idx index_price current_ts : Nat) :
    Option (Except PercolatorError Unit × SlabState) :=
  match s.get_instrument instrument_idx with
  | none => some (.error .InvalidInstrument, s)
  | some instr =>
    let time_elapsed := current_ts - instr.last_funding_ts
    if time_elapsed < FUNDING_INTERVAL_MS then some (.error .InvalidInstruction, s)
    else
      let mark_price := (s.header.mark_px % (U64MOD : Int)).toNat
      if mark_price = 0 then some (.error .InvalidPrice, s)
      else
        let funding_rate := calculate_funding_rate mark_price index_price time_elapsed
        let old_cum_funding := instr.cum_funding
        let new_cum_funding := old_cum_funding + funding_rate
        let s1 := s.with_instrument instrument_idx (fun ins =>
          { ins with
            funding_rate := wrapI64 funding_rate, cum_funding := new_cum_funding,
            index_price := index_price, last_funding_ts := current_ts })
        match apply_funding_to_positions s1 instrument_idx old_cum_funding new_cum_funding with
        | none => none
        | some s2 =>
          let s3 := { s2 with header := { s2.header with last_funding_ts := current_ts } }
          some (.ok (), { s3 with header := s3.header.increment_seqno })

/-! ## Chain walkers and auxiliary descriptions used in specifications -/

/-- Opposite side: the contra book a taker walks. -/
def contraSide : Side → Side
  | .Buy => .Sell
  | .Sell => .Buy

/-- Generic fuelled walk of an index-linked chain: collect the nodes from
`idx` following `f` until the INVALID sentinel; `none` when a node is
unreadable by `f` or the fuel runs out (a cyclic chain never reaches the
sentinel, so `some` implies the collected nodes are distinct). -/
def linkChain (f : Nat → Option Nat) : Nat → Nat → Option (List Nat)
  | 0, idx => if idx = INVALID then some [] else none
  | fuel + 1, idx =>
    if idx = INVALID then some []
    else
      match f idx with
      | none => none
      | some nxt => (linkChain f fuel nxt).map (idx :: ·)

/-- Step function of the slice freelist: readable while in range and
free; the link is the `index` field. -/
def sliceFreeF (s : SlabState) (i : Nat) : Option Nat :=
  if POOL_SLICES ≤ i then none
  else if (s.slices i).used then none
  else some (s.slices i).index

/-- Step function of a live slice chain (the `next` field through
`get_slice`). -/
def sliceNextF (s : SlabState) (i : Nat) : Option Nat :=
  (s.get_slice i).map Slice.next

/-- Step function of an order book list (the `next` field through
`get_order`). -/
def orderNextF (s : SlabState) (i : Nat) : Option Nat :=
  (s.get_order i).map Order.next

/-- Step function of an account position chain (the `next_in_account`
field through `get_position`). -/
def posNextF (s : SlabState) (i : Nat) : Option Nat :=
  (s.get_position i).map Position.next_in_account

/-- Fuelled read of a slice chain as records, stopping at the sentinel or
at an unreadable slice. -/
def sliceChainRead (s : SlabState) : Nat → Nat → List Slice
  | 0, _ => []
  | fuel + 1, idx =>
    if idx = INVALID then []
    else
      match s.get_slice idx with
      | none => []
      | some sl => sl :: sliceChainRead s fuel sl.next

/-- Total notional of a list of slices at the resting prices of their
maker orders in `s`. -/
def sliceListNotional (s : SlabState) (L : List Slice) : Nat :=
  (L.map (fun sl => sl.qty * (((s.get_order sl.order_idx).map Order.price).getD 0))).sum

/-- One locking step of the reserve walk, for specification purposes:
slice index popped, maker order index, taken quantity and maker price. -/
structure WalkStep where
  sidx : Nat
  oidx : Nat
  take : Nat
  price : Nat
deriving DecidableEq, Repr

/-- Total quantity locked by a walk trace. -/
def stepsQty (tr : List WalkStep) : Nat := (tr.map (·.take)).sum

/-- Total notional locked by a walk trace. -/
def stepsNotional (tr : List WalkStep) : Nat :=
  (tr.map (fun e => e.take * e.price)).sum

/-- Quantity a walk trace adds to the `reserved_qty` of order `j`. -/
def stepsReservedAt (tr : List WalkStep) (j : Nat) : Nat :=
  ((tr.filter (fun e => e.oidx = j)).map (·.take)).sum

/-- Slice-pool transformation performed by a walk trace: each step writes
its slice record (as the allocation and field assignment do) and the next
step links the previous slice to it; `shead`/`prev` mirror the
`slice_head`/`prev_slice_idx` locals of the walk. -/
def placeSlices : Nat → Nat → List WalkStep → (Nat → Slice) → Nat → Slice
  | _, _, [], sl => sl
  | shead, prev, e :: rest, sl =>
    let sl1 : Nat → Slice := fun j =>
      if j = e.sidx then
        { order_idx := e.oidx, qty := e.take, next := INVALID, index := e.sidx, used := true }
      else sl j
    let sl2 : Nat → Slice :=
      if shead = INVALID then sl1
      else fun j => if j = prev then { sl1 prev with next := e.sidx } else sl1 j
    placeSlices (if shead = INVALID then e.sidx else shead) e.sidx rest sl2

/-- Order-pool transformation performed by releasing one slice (the body
of the release loop): restore the maker order's `reserved_qty` by the
slice quantity, when that order is readable. -/
def subResStep (s : SlabState) (od : Nat → Order) (i : Nat) : Nat → Order :=
  let oidx := (s.slices i).order_idx
  let q := (s.slices i).qty
  if POOL_ORDERS ≤ oidx then od
  else if (od oidx).used then
    fun j => if j = oidx then { od oidx with reserved_qty := (od oidx).reserved_qty - q } else od j
  else od

/-- Order-pool transformation performed by releasing a whole chain. -/
def subRes (s : SlabState) (RL : List Nat) (od : Nat → Order) : Nat → Order :=
  RL.foldl (subResStep s) od

/-- Error projection of an `Except` outcome, for decidable statements
about failing calls. -/
def errOf {α : Type} : Except PercolatorError α → Option PercolatorError
  | .error e => some e
  | .ok _ => none

/-- Reserved quantity a slice chain holds against order `j`. -/
def chainReservedSum (s : SlabState) (RL : List Nat) (j : Nat) : Nat :=
  ((RL.filter (fun i => (s.slices i).order_idx = j)).map (fun i => (s.slices i).qty)).sum

/-- Funding payment an account owes for the matching positions of a chain
(positive values are debited from cash). -/
def chainFundingPayment (s : SlabState) (instrument_idx : Nat) (funding_delta : Int)
    (PL : List Nat) : Int :=
  ((PL.filter (fun i => (s.positions i).instrument_idx = instrument_idx)).map
    (fun i => calculate_funding_payment (s.positions i).qty funding_delta 0)).sum

/-- Total notional of a slice chain at the resting prices of the maker
orders referenced by each slice. -/
def chainNotional (s : SlabState) (AL : List Nat) : Nat :=
  (AL.map (fun v => (s.slices v).qty * (s.orders ((s.slices v).order_idx)).price)).sum

/-- Funding settlement preserves the shape of the position and account
pools: every position keeps its quantity, instrument, chain link and
used flag, and every account keeps its active flag and chain head. -/
def FundingShape (x y : SlabState) : Prop :=
  (∀ i, (y.positions i).qty = (x.positions i).qty ∧
    (y.positions i).instrument_idx = (x.positions i).instrument_idx ∧
    (y.positions i).next_in_account = (x.positions i).next_in_account ∧
    (y.positions i).used = (x.positions i).used) ∧
  (∀ b, (y.accounts b).active = (x.accounts b).active ∧
    (y.accounts b).position_head = (x.accounts b).position_head)

/-! ## Concrete states used by the theorems

A small two-maker ask book matching the reserve-commit scenario of the
spec: asks at price 100 (qty 10) and price 101 (qty 20), one active
account, short explicit freelists. -/

/-- Header of the concrete book: 0.2 percent taker fee, 1 percent kill
band, one instrument, one account, two resting orders. -/
def baseHeader : SlabHeader :=
  { seqno := 0, imr_bps := 500, mmr_bps := 250, maker_fee_bps := -5,
    taker_fee_bps := 20, batch_ms := 100, kill_band_bps := 100,
    freeze_levels := 3, jit_penalty_on := true, maker_rebate_min_ms := 50,
    arg_enabled := true, arg_tax_bps := 50, current_epoch := 0,
    next_order_id := 3, next_hold_id := 1, last_batch_open_ts := 0,
    last_funding_ts := 0, mark_px := 0, prev_mark_px := 0,
    instrument_count := 1, account_count := 1, order_count := 2,
    position_count := 0, reservation_count := 0, slice_count := 0,
    trade_write_idx := 0, order_freelist_head := INVALID,
    position_freelist_head := 0, reservation_freelist_head := 0,
    slice_freelist_head := 0 }

/-- First resting ask: price 100, quantity 10. -/
def askOrder0 : Order :=
  { Order.default0 with
    order_id := 1, side := .Sell, price := 100, qty_orig := 10, qty := 10,
    next := 1, used := true }

/-- Second resting ask: price 101, quantity 20. -/
def askOrder1 : Order :=
  { Order.default0 with
    order_id := 2, side := .Sell, price := 101, qty_orig := 20, qty := 20,
    prev := 0, used := true }

/-- The concrete two-ask book state. -/
def bookS : SlabState :=
  { header := baseHeader,
    instruments := fun i =>
      if i = 0 then { Instrument.default0 with asks_head := 0 } else Instrument.default0,
    accounts := fun i =>
      if i = 0 then { AccountState.default0 with active := true } else AccountState.default0,
    orders := fun i =>
      if i = 0 then askOrder0 else if i = 1 then askOrder1 else Order.default0,
    positions := fun i =>
      if i = 0 then { Position.default0 with index := 1 } else Position.default0,
    reservations := fun i =>
      if i = 0 then { Reservation.default0 with index := 1 }
      else if i = 1 then { Reservation.default0 with index := 2 }
      else Reservation.default0,
    slices := fun i =>
      if i = 0 then { Slice.default0 with index := 1 }
      else if i = 1 then { Slice.default0 with index := 2 }
      else Slice.default0,
    trades := fun _ => Trade.default0 }

/-- The book after a Buy reserve of quantity 25 at limit 102 (hold 1,
slices (order 0, 10) and (order 1, 15)). -/
def bookR : SlabState :=
  match process_reserve bookS 0 0 .Buy 25 102 1000 0 with
  | some (_, s) => s
  | none => bookS

/-- Reserved book with a 2 percent mark move against a 1 percent kill
band (prev mark 50000e6, mark 51000e6). -/
def bookRKill : SlabState :=
  { bookR with header :=
    { bookR.header with prev_mark_px := 50000000000, mark_px := 51000000000 } }

/-- Reserved book with prev mark zero and a nonzero mark: the kill-band
check is skipped by the code. -/
def bookRPrevZero : SlabState :=
  { bookR with header :=
    { bookR.header with prev_mark_px := 0, mark_px := 51000000000 } }

/-- Reserved book whose reservation carries `expiry_ms = 0`. -/
def bookRNoExpiry : SlabState :=
  { bookR with reservations := fun i =>
      if i = 0 then { bookR.reservations 0 with expiry_ms := 0 } else bookR.reservations i }

/-- The book after committing hold 1 on the reserved book. -/
def bookC : SlabState :=
  match process_commit bookR 1 0 with
  | some (.ok _, s) => s
  | _ => bookR

/-- The reserved book after cancelling hold 1. -/
def bookRC : SlabState :=
  match process_cancel bookR 1 with
  | some (_, s) => s
  | none => bookR

/-- The two-ask book with the first ask's side flag corrupted to Buy: the
reserve walk trusts the book list and never checks the maker's side. -/
def bookWS : SlabState :=
  { bookS with orders := fun i =>
      if i = 0 then { askOrder0 with side := .Buy } else bookS.orders i }

/-- The corrupted book after a Buy reserve of 5 at limit 100. -/
def bookWSR : SlabState :=
  match process_reserve bookWS 0 0 .Buy 5 100 1000 0 with
  | some (_, s) => s
  | none => bookWS

/-- The two-ask book with an empty slice freelist: the reserve walk hits
`PoolFull` after the reservation was already allocated. -/
def bookNoSlices : SlabState :=
  { bookS with header := { bookS.header with slice_freelist_head := INVALID } }

/-- The state `process_reserve` leaves behind when the walk runs out of
slices on `bookNoSlices`. -/
def bookPF : SlabState :=
  match process_reserve bookNoSlices 0 0 .Buy 25 102 1000 0 with
  | some (_, s) => s
  | none => bookNoSlices

/-- Funding test state: mark 51000e6 against index 50000e6, one long
position of 1e6 at entry 50000e6, account cash 1e9. -/
def fundS : SlabState :=
  { bookS with
    header := { baseHeader with mark_px := 51000000000, position_count := 1 },
    positions := fun i =>
      if i = 0 then
        { Position.default0 with
          account_idx := 0, instrument_idx := 0, qty := 1000000,
          entry_px := 50000000000, used := true, index := 0 }
      else Position.default0,
    accounts := fun i =>
      if i = 0 then
        { AccountState.default0 with
          active := true, cash := 1000000000, position_head := 0 }
      else AccountState.default0 }

/-- Funding state with the mark one tick above the index: the premium
rounds to zero. -/
def fundSTiny : SlabState :=
  { fundS with header := { fundS.header with mark_px := 50000000001 } }

/-- The funding state after a successful update at the one-hour mark. -/
def fundC : SlabState :=
  match process_update_funding fundS 0 50000000000 3600000 with
  | some (.ok _, s) => s
  | _ => fundS

/-- The tiny-premium funding state after a successful update. -/
def fundCTiny : SlabState :=
  match process_update_funding fundSTiny 0 50000000000 3600000 with
  | some (.ok _, s) => s
  | _ => fundSTiny

/-- Insurance pool of the ADL scenario: balance 100000, open interest
1e14, threshold 50 bps. -/
def adlPool : InsurancePool :=
  { balance := 100000, target_balance := 1000000000000,
    contribution_rate_bps := DEFAULT_INSURANCE_RATE_BPS,
    adl_threshold_bps := 50, withdrawal_timelock_secs := 604800,
    pending_withdrawal := 0, pending_withdrawal_unlock_ts := 0,
    total_open_interest := 100000000000000, stats := InsuranceStats.default0,
    event_write_idx := 0, events := fun _ => InsuranceEvent.default0 }

/-- The ADL-scenario pool after the payout of 1e6 (pays the whole balance
of 100000). -/
def adlPoolAfter : InsurancePool :=
  match adlPool.payout 1000000 .ShortfallPayout 0 0 0 with
  | .ok (_, p) => p
  | .error _ => adlPool

/-- Hedged portfolio of the capital-efficiency scenario: +1e6 on shard 0,
-1e6 on shard 1. -/
def hedgedPortfolio : Portfolio :=
  ⟨[(0, 0, (1000000 : Int)), (1, 0, (-1000000 : Int))]⟩

/-- Risk parameters of the capital-efficiency scenario: both instruments
at mark 50000e6, imr 1000 bps, contract size 1e6. -/
def hedgedParams : List InstrumentRiskParams :=
  [{ slab_idx := 0, instrument_idx := 0, imr_bps := 1000, mmr_bps := 500,
     contract_size := 1000000, mark_price := 50000000000, risk_weight := 100 },
   { slab_idx := 1, instrument_idx := 0, imr_bps := 1000, mmr_bps := 500,
     contract_size := 1000000, mark_price := 50000000000, risk_weight := 100 }]

/-- Single-exposure portfolio with no published risk parameters: the
gross loop skips the exposure (unknown mark) while the net loop counts
it. -/
def lonePortfolio : Portfolio :=
  ⟨[(0, 0, (1000000 : Int))]⟩

set_option maxHeartbeats 1600000

/-! ## Generic lemmas -/

/-- Invariant preservation through a left fold. -/
theorem foldl_inv {α β : Type} (P : β → Prop) (step : β → α → β) (L : List α) (init : β)
    (h0 : P init) (hstep : ∀ b a, P b → P (step b a)) : P (L.foldl step init) := by
  induction L generalizing init with
  | nil => exact h0
  | cons a L ih => exact ih (step init a) (hstep init a h0)

/-! ## Claim C6: hedged net-zero capital efficiency -/

/-- Claim C6, counterexample: on the literal inputs of the scenario
(+1e6 on shard 0, -1e6 on shard 1, mark 50000e6, imr 1000 bps, contract
size 1e6) the computed `gross_im` is 10_000_000_000, not the
10_000_000_000_000 the claim states. -/
theorem c6_counterexample :
    (calculate_portfolio_margin hedgedPortfolio hedgedParams none).gross_im ≠
      10000000000000 := by
  decide

/-- Claim C6 (amended): on the hedged scenario inputs the result has
`gross_im = 10_000_000_000`, `net_im = 0` and `netting_benefit =
gross_im`.  (The spec scenario states the same shape with `gross_im`
given as 1e13; the code, consistently with its own per-leg formula
`|qty| * mark * contract_size / 1e12 * imr_bps / 1e4`, yields 1e10.) -/
theorem c6_hedged_netting :
    (calculate_portfolio_margin hedgedPortfolio hedgedParams none).gross_im =
        10000000000 ∧
      (calculate_portfolio_margin hedgedPortfolio hedgedParams none).net_im = 0 ∧
      (calculate_portfolio_margin hedgedPortfolio hedgedParams none).netting_benefit =
        (calculate_portfolio_margin hedgedPortfolio hedgedParams none).gross_im := by
  refine ⟨by decide, by decide, by decide⟩

/-! ## Claim C9: insurance payout postcondition -/

/-- Claim C9, counterexample: for a requested payout amount of zero on a
pool with positive balance the code returns `InsufficientFunds` and
records no event, while the claim (quantifying over every requested
amount) asks for a payout of `min(0, balance) = 0` with a matching
event. -/
theorem c9_counterexample :
    errOf (adlPool.payout 0 .ShortfallPayout 0 0 0) =
      some PercolatorError.InsufficientFunds := by
  decide

/-- Claim C9 (amended to positive requested amounts): for every pool with
`balance > 0` and every requested `amount > 0`, `payout` succeeds paying
`actual = min(amount, balance)`, the balance decreases by exactly
`actual` (it is a `u128`, hence never negative), and the event written at
the ring slot records `amount = -actual` and `balance_after =
balance_before - actual`; on the concrete ADL scenario (balance 100000,
open interest 1e14, threshold 50 bps) a request of 1e6 pays 100000,
leaves balance 0, and `should_trigger_adl` then holds. -/
theorem c9_payout :
    (∀ (p : InsurancePool) (amount : Nat) (etype : InsuranceEventType) (ra ri ts : Nat),
      0 < p.balance → 0 < amount →
      ∃ p2, p.payout amount etype ra ri ts = .ok (min amount p.balance, p2) ∧
        p2.balance = p.balance - min amount p.balance ∧
        (p2.events (p.event_write_idx % INSURANCE_HISTORY_SIZE)).amount =
          -((min amount p.balance : Nat) : Int) ∧
        (p2.events (p.event_write_idx % INSURANCE_HISTORY_SIZE)).balance_after =
          p.balance - min amount p.balance) ∧
    (∃ p2, adlPool.payout 1000000 .ShortfallPayout 0 0 0 = .ok (100000, p2) ∧
      p2.balance = 0 ∧ p2.should_trigger_adl = true) := by
  constructor
  · intro p amount etype ra ri ts hb ha
    have hmin : ¬ (min amount p.balance = 0) := by
      have := Nat.lt_min.mpr ⟨ha, hb⟩
      omega
    simp only [InsurancePool.payout, InsurancePool.record_event]
    rw [if_neg hmin]
    refine ⟨_, rfl, ?_, ?_, ?_⟩ <;>
      · repeat' split
        all_goals simp
  · exact ⟨adlPoolAfter, rfl, by decide, by decide⟩

/-- Witness for the universally quantified part of the amended C9 at the
concrete ADL pool and amount 1e6. -/
theorem c9_payout_witness :
    0 < adlPool.balance ∧ 0 < 1000000 ∧
      (∃ p2, adlPool.payout 1000000 .ShortfallPayout 0 0 0 =
          .ok (min 1000000 adlPool.balance, p2) ∧
        p2.balance = adlPool.balance - min 1000000 adlPool.balance ∧
        (p2.events (adlPool.event_write_idx % INSURANCE_HISTORY_SIZE)).amount =
          -((min 1000000 adlPool.balance : Nat) : Int) ∧
        (p2.events (adlPool.event_write_idx % INSURANCE_HISTORY_SIZE)).balance_after =
          adlPool.balance - min 1000000 adlPool.balance) :=
  ⟨by decide, by decide,
    c9_payout.1 adlPool 1000000 .ShortfallPayout 0 0 0 (by decide) (by decide)⟩

/-! ## Claim C5: net margin never exceeds gross margin -/

/-- Claim C5, counterexample: a portfolio with one nonzero exposure and an
empty risk-parameter list has `gross_im = 0` (the exposure is skipped for
lack of a mark price) but `net_im = 100000` (computed from the default
average mark and margin ratio), so `net_im ≤ gross_im` fails. -/
theorem c5_counterexample :
    ¬ ((calculate_portfolio_margin lonePortfolio [] none).net_im ≤
        (calculate_portfolio_margin lonePortfolio [] none).gross_im) := by
  decide

/-- Gross-margin loop characterization: with fewer than 64 remaining
positions the loop adds, per exposure, the individual initial margin of
that exposure. -/
theorem grossLoop_spec (RP : List InstrumentRiskParams) (E : List (Nat × Nat × Int))
    (g m t pc : Nat) (hlen : pc + E.length ≤ 64) :
    (grossLoop RP E g m t pc).1 =
      g + (E.map (fun e =>
        if e.2.2 = 0 then 0
        else if (findRiskParams RP e.1 e.2.1).mark_price = 0 then 0
        else e.2.2.natAbs * (findRiskParams RP e.1 e.2.1).mark_price *
            (findRiskParams RP e.1 e.2.1).contract_size / 1000000000000 *
            (findRiskParams RP e.1 e.2.1).imr_bps / 10000)).sum := by
  induction E generalizing g m t pc with
  | nil => simp [grossLoop]
  | cons e E ih =>
    obtain ⟨s, i, q⟩ := e
    have hpc : ¬ (64 ≤ pc) := by simp at hlen; omega
    simp only [grossLoop, if_neg hpc]
    by_cases hq : q = 0
    · simp only [if_pos hq, List.map_cons, List.sum_cons]
      rw [ih g m t pc (by simp at hlen ⊢; omega)]
      simp [hq]
    · simp only [if_neg hq]
      by_cases hm : (findRiskParams RP s i).mark_price = 0
      · simp only [if_pos hm, List.map_cons, List.sum_cons]
        rw [ih g m t pc (by simp at hlen ⊢; omega)]
        simp [hq, hm]
      · simp only [if_neg hm, List.map_cons, List.sum_cons]
        rw [ih _ _ _ (pc + 1) (by simp at hlen ⊢; omega)]
        simp only [if_neg hq, if_neg hm]
        omega

/-- Net-exposure loop: the long/short difference accumulates the signed
sum of the exposure quantities. -/
theorem netLoop_sub (RP : List InstrumentRiskParams) (E : List (Nat × Nat × Int))
    (tl ts : Int) (a b : Nat) :
    (netLoop RP E tl ts a b).1 - (netLoop RP E tl ts a b).2.1 =
      (tl - ts) + (E.map (fun e => e.2.2)).sum := by
  induction E generalizing tl ts a b with
  | nil => simp [netLoop]
  | cons e E ih =>
    obtain ⟨s, i, q⟩ := e
    by_cases hq : q = 0
    · simp only [netLoop, List.map_cons, List.sum_cons]
      rw [if_pos hq, ih, hq]
      ring
    · simp only [netLoop, List.map_cons, List.sum_cons]
      rw [if_neg hq]
      by_cases hpos : 0 < q
      · rw [if_pos hpos, ih]
        ring
      · rw [if_neg hpos, ih]
        ring

/-- Net-exposure loop: the absolute net delta is bounded by the sum of
the absolute exposure quantities. -/
theorem netLoop_absBound (RP : List InstrumentRiskParams) (E : List (Nat × Nat × Int))
    (tl ts : Int) (a b : Nat) :
    ((netLoop RP E tl ts a b).1 - (netLoop RP E tl ts a b).2.1).natAbs ≤
      (tl - ts).natAbs + (E.map (fun e => e.2.2.natAbs)).sum := by
  induction E generalizing tl ts a b with
  | nil => simp [netLoop]
  | cons e E ih =>
    obtain ⟨s, i, q⟩ := e
    by_cases hq : q = 0
    · simp only [netLoop, List.map_cons, List.sum_cons]
      rw [if_pos hq, hq]
      calc _ ≤ (tl - ts).natAbs + (E.map (fun e => e.2.2.natAbs)).sum := ih tl ts a b
        _ ≤ _ := by simp
    · simp only [netLoop, List.map_cons, List.sum_cons]
      rw [if_neg hq]
      by_cases hpos : 0 < q
      · rw [if_pos hpos]
        calc ((netLoop RP E (tl + q) ts _ _).1 - (netLoop RP E (tl + q) ts _ _).2.1).natAbs
            ≤ (tl + q - ts).natAbs + (E.map (fun e => e.2.2.natAbs)).sum := ih _ _ _ _
          _ ≤ ((tl - ts).natAbs + q.natAbs) + (E.map (fun e => e.2.2.natAbs)).sum := by
              have h1 : tl + q - ts = (tl - ts) + q := by ring
              rw [h1]
              exact Nat.add_le_add_right (Int.natAbs_add_le _ _) _
          _ = _ := by omega
      · rw [if_neg hpos]
        calc ((netLoop RP E tl (ts + -q) _ _).1 - (netLoop RP E tl (ts + -q) _ _).2.1).natAbs
            ≤ (tl - (ts + -q)).natAbs + (E.map (fun e => e.2.2.natAbs)).sum := ih _ _ _ _
          _ ≤ ((tl - ts).natAbs + q.natAbs) + (E.map (fun e => e.2.2.natAbs)).sum := by
              have h1 : tl - (ts + -q) = (tl - ts) + q := by ring
              rw [h1]
              exact Nat.add_le_add_right (Int.natAbs_add_le _ _) _
          _ = _ := by omega

/-- Sum of a pointwise-constant map. -/
theorem sum_map_const_nat {α : Type} (L : List α) (f : α → Nat) (c : Nat)
    (hall : ∀ x ∈ L, f x = c) : (L.map f).sum = c * L.length := by
  induction L with
  | nil => simp
  | cons x L ih =>
    simp only [List.map_cons, List.sum_cons, List.length_cons]
    rw [hall x (by simp), ih (fun y hy => hall y (by simp [hy]))]
    ring

/-- With a constant margin ratio across the parameter list the average is
that ratio. -/
theorem avgImr_const (RP : List InstrumentRiskParams) (R : Nat)
    (hall : ∀ p ∈ RP, p.imr_bps = R) (hne : RP ≠ []) : avgImr RP = R := by
  have hsum : (RP.map (·.imr_bps)).sum = R * RP.length :=
    sum_map_const_nat RP _ R hall
  have hlen : 0 < RP.length := List.length_pos.mpr hne
  simp only [avgImr, List.isEmpty_eq_true]
  rw [if_neg hne, hsum, Nat.mul_div_cancel _ hlen]

/-- With a constant positive mark price and no u64 saturation the average
mark price is that price. -/
theorem avgPrice_const (RP : List InstrumentRiskParams) (P : Nat)
    (hall : ∀ p ∈ RP, p.mark_price = P) (hP : 0 < P) (hne : RP ≠ [])
    (hsat : RP.length * P < U64MOD) : avgPrice RP = P := by
  have key : ∀ (L : List InstrumentRiskParams) (acc c : Nat),
      (∀ p ∈ L, p.mark_price = P) → acc + L.length * P < U64MOD →
      (L.foldl (fun acc p => if 0 < p.mark_price then satAdd64 acc p.mark_price else acc) acc =
        acc + L.length * P) ∧
      (L.foldl (fun acc p => if 0 < p.mark_price then acc + 1 else acc) c =
        c + L.length) := by
    intro L
    induction L with
    | nil => intro acc c _ _; simp
    | cons p L ih =>
      intro acc c hL hb
      have hp := hL p (by simp)
      have hrest : ∀ q ∈ L, q.mark_price = P := fun q hq => hL q (by simp [hq])
      simp only [List.foldl_cons, List.length_cons, hp, if_pos hP]
      have hmul : (L.length + 1) * P = L.length * P + P := by ring
      have hb2 : acc + (L.length * P + P) < U64MOD := by
        simp only [List.length_cons, hmul] at hb
        omega
      have hsa : satAdd64 acc P = acc + P := by
        have h1 : acc + P ≤ U64MOD - 1 := by omega
        simp [satAdd64, Nat.min_eq_left h1]
      rw [hsa]
      have := ih (acc + P) (c + 1) hrest (by omega)
      refine ⟨?_, ?_⟩
      · rw [this.1, hmul]; ring
      · rw [this.2]; ring
  have hlen : 0 < RP.length := List.length_pos.mpr hne
  have hk := key RP 0 0 hall (by simpa using hsat)
  simp only [avgPrice]
  rw [if_neg (show ¬ (RP.isEmpty = true) by simp [hne]), hk.1, hk.2]
  simp only [Nat.zero_add]
  rw [if_neg (by omega)]
  exact Nat.mul_div_cancel_left P hlen

/-- Folding the margin accumulation over the fifteen zeroed groups keeps
the accumulator. -/
theorem netIm_defaults_fold (n acc : Nat) (ap ai : Nat) :
    (List.replicate n PositionDelta.default0).foldl
      (fun acc g =>
        if g.net_delta = 0 ∧ g.long_notional = 0 ∧ g.short_notional = 0 then acc
        else acc + g.net_delta.natAbs * ap / 1000000 * ai / 10000) acc = acc := by
  induction n generalizing acc with
  | zero => simp
  | succ n ih =>
    simp only [List.replicate_succ, List.foldl_cons]
    rw [if_pos (by simp [PositionDelta.default0])]
    exact ih acc

/-- Right multiplication distributes over a mapped list sum. -/
theorem sum_map_mul_right_nat {α : Type} (L : List α) (f : α → Nat) (c : Nat) :
    (L.map f).sum * c = (L.map (fun x => f x * c)).sum := by
  induction L with
  | nil => simp
  | cons x L ih => simp only [List.map_cons, List.sum_cons, Nat.add_mul, ih]

/-- Exact division distributes over a list sum when the divisor divides
every term. -/
theorem sum_div_exact {α : Type} (L : List α) (f : α → Nat) (d : Nat)
    (hdvd : ∀ x ∈ L, d ∣ f x) :
    (L.map f).sum / d = (L.map (fun x => f x / d)).sum := by
  induction L with
  | nil => simp
  | cons x L ih =>
    simp only [List.map_cons, List.sum_cons]
    have hx := hdvd x (by simp)
    have hrest : d ∣ (L.map f).sum := by
      refine List.dvd_sum ?_
      intro y hy
      obtain ⟨z, hz, rfl⟩ := List.mem_map.mp hy
      exact hdvd z (by simp [hz])
    rw [Nat.add_div_of_dvd_right hx, ih (fun y hy => hdvd y (by simp [hy]))]

/-- Claim C5 (amended): `net_im ≤ gross_im` holds when every exposure has
published risk parameters sharing one positive mark price, one margin
ratio and the 1e6 contract size, there are at most 64 exposures, the
average-price accumulation does not saturate, and the per-exposure
notional and margin divisions are exact.  (Without these side conditions
the inequality fails: see the counterexample, where an exposure that the
gross loop skips for lack of a mark price is still counted by the net
loop.) -/
theorem c5_net_le_gross (E : List (Nat × Nat × Int)) (RP : List InstrumentRiskParams)
    (C : Option (List CorrelationEntry)) (P R : Nat)
    (hP : 0 < P)
    (hall : ∀ p ∈ RP, p.mark_price = P ∧ p.imr_bps = R ∧ p.contract_size = 1000000)
    (hmatch : ∀ e ∈ E, e.2.2 ≠ 0 → ∃ p ∈ RP, p.slab_idx = e.1 ∧ p.instrument_idx = e.2.1)
    (hlen : E.length ≤ 64)
    (hdiv1 : ∀ e ∈ E, (1000000 : Nat) ∣ e.2.2.natAbs * P)
    (hdiv2 : ∀ e ∈ E, (10000 : Nat) ∣ e.2.2.natAbs * P / 1000000 * R)
    (hsat : RP.length * P < U64MOD) :
    (calculate_portfolio_margin ⟨E⟩ RP C).net_im ≤
      (calculate_portfolio_margin ⟨E⟩ RP C).gross_im := by
  -- the exact form of each matched parameter record
  have hfind : ∀ e ∈ E, e.2.2 ≠ 0 →
      (findRiskParams RP e.1 e.2.1).mark_price = P ∧
      (findRiskParams RP e.1 e.2.1).imr_bps = R ∧
      (findRiskParams RP e.1 e.2.1).contract_size = 1000000 := by
    intro e he hq
    obtain ⟨p, hp, hps, hpi⟩ := hmatch e he hq
    have hex : ∃ x ∈ RP, (fun p => decide (p.slab_idx = e.1 ∧ p.instrument_idx = e.2.1)) x = true := by
      exact ⟨p, hp, by simp [hps, hpi]⟩
    obtain ⟨x, hxfind⟩ := Option.isSome_iff_exists.mp (List.find?_isSome.mpr hex)
    have hxmem := List.mem_of_find?_eq_some hxfind
    simp only [findRiskParams, hxfind]
    exact hall x hxmem
  -- gross margin as a sum
  have hgross : (grossLoop RP E 0 0 0 0).1 =
      (E.map (fun e => e.2.2.natAbs * P / 1000000 * R / 10000)).sum := by
    rw [grossLoop_spec RP E 0 0 0 0 (by omega)]
    rw [Nat.zero_add]
    refine congrArg List.sum (List.map_congr_left ?_)
    intro e he
    by_cases hq : e.2.2 = 0
    · simp [hq]
    · obtain ⟨hm, hi, hc⟩ := hfind e he hq
      rw [if_neg hq, if_neg (by omega), hm, hi, hc]
      congr 1
      congr 1
      have : (1000000000000 : Nat) = 1000000 * 1000000 := by norm_num
      rw [this, Nat.mul_div_mul_right _ _ (by norm_num : (0:Nat) < 1000000)]
  -- the net delta bound
  have habs : ((netLoop RP E 0 0 0 0).1 - (netLoop RP E 0 0 0 0).2.1).natAbs ≤
      (E.map (fun e => e.2.2.natAbs)).sum := by
    have := netLoop_absBound RP E 0 0 0 0
    simpa using this
  -- reduce to the uncorrelated net margin
  have hsub : ∀ gim nim, nim ≤ gim →
      (match C with
        | none => nim
        | some corrs => nim - calculate_correlation_benefit
            (calculate_net_exposure_groups ⟨E⟩ RP) corrs) ≤ gim := by
    intro gim nim h
    cases C with
    | none => exact h
    | some corrs => exact le_trans (Nat.sub_le _ _) h
  -- main chain of inequalities for the uncorrelated net margin
  have hmain : calculate_net_im (calculate_net_exposure_groups ⟨E⟩ RP) RP ≤
      (grossLoop RP E 0 0 0 0).1 := by
    by_cases hE : ∀ e ∈ E, e.2.2 = 0
    · -- every quantity is zero: the net delta is zero
      have hzero : (netLoop RP E 0 0 0 0).1 - (netLoop RP E 0 0 0 0).2.1 = 0 := by
        rw [netLoop_sub]
        have hz : (E.map (fun e => e.2.2)).sum = 0 := by
          apply List.sum_eq_zero
          intro x hx
          obtain ⟨e, he, rfl⟩ := List.mem_map.mp hx
          exact hE e he
        simp [hz]
      simp only [calculate_net_im, calculate_net_exposure_groups, List.foldl_cons]
      rw [netIm_defaults_fold]
      split
      · exact Nat.zero_le _
      · rw [hzero]
        simp
    · -- some quantity is nonzero, so RP is nonempty and the averages equal P, R
      push_neg at hE
      obtain ⟨e0, he0, hq0⟩ := hE
      obtain ⟨p0, hp0, -, -⟩ := hmatch e0 he0 hq0
      have hne : RP ≠ [] := by
        intro h
        rw [h] at hp0
        exact absurd hp0 (List.not_mem_nil p0)
      have hap := avgPrice_const RP P (fun p hp => (hall p hp).1) hP hne hsat
      have hai := avgImr_const RP R (fun p hp => (hall p hp).2.1) hne
      simp only [calculate_net_im, calculate_net_exposure_groups, List.foldl_cons, hap, hai]
      rw [netIm_defaults_fold]
      have hterm : ((netLoop RP E 0 0 0 0).1 - (netLoop RP E 0 0 0 0).2.1).natAbs *
          P / 1000000 * R / 10000 ≤ (grossLoop RP E 0 0 0 0).1 := by
        rw [hgross]
        have h1 : ((netLoop RP E 0 0 0 0).1 - (netLoop RP E 0 0 0 0).2.1).natAbs * P ≤
            (E.map (fun e => e.2.2.natAbs * P)).sum := by
          calc _ ≤ (E.map (fun e => e.2.2.natAbs)).sum * P :=
                Nat.mul_le_mul_right P habs
            _ = _ := sum_map_mul_right_nat E _ P
        have h2 : ((netLoop RP E 0 0 0 0).1 - (netLoop RP E 0 0 0 0).2.1).natAbs *
            P / 1000000 ≤ (E.map (fun e => e.2.2.natAbs * P / 1000000)).sum := by
          calc _ ≤ (E.map (fun e => e.2.2.natAbs * P)).sum / 1000000 :=
              Nat.div_le_div_right h1
            _ = _ := sum_div_exact E _ 1000000 hdiv1
        have h3 : ((netLoop RP E 0 0 0 0).1 - (netLoop RP E 0 0 0 0).2.1).natAbs *
            P / 1000000 * R ≤ (E.map (fun e => e.2.2.natAbs * P / 1000000 * R)).sum := by
          calc _ ≤ (E.map (fun e => e.2.2.natAbs * P / 1000000)).sum * R :=
              Nat.mul_le_mul_right R h2
            _ = _ := sum_map_mul_right_nat E _ R
        calc _ ≤ (E.map (fun e => e.2.2.natAbs * P / 1000000 * R)).sum / 10000 :=
            Nat.div_le_div_right h3
          _ = _ := sum_div_exact E _ 10000 hdiv2
      split
      · exact Nat.zero_le _
      · simpa using hterm
  simp only [calculate_portfolio_margin]
  cases C with
  | none => simpa using hmain
  | some corrs => simpa using le_trans (Nat.sub_le _ _) hmain

/-- Witness for the amended C5 at the hedged scenario inputs. -/
theorem c5_net_le_gross_witness :
    (0 < 50000000000) ∧
    (calculate_portfolio_margin ⟨hedgedPortfolio.exposures⟩ hedgedParams none).net_im ≤
      (calculate_portfolio_margin ⟨hedgedPortfolio.exposures⟩ hedgedParams none).gross_im :=
  ⟨by decide,
    c5_net_le_gross hedgedPortfolio.exposures hedgedParams none 50000000000 1000
      (by decide) (by decide) (by decide) (by decide) (by decide) (by decide) (by decide)⟩

/-! ## Frame lemmas for the slab state operations -/

theorem with_order_reservations (s : SlabState) (idx : Nat) (f : Order → Order) :
    (s.with_order idx f).reservations = s.reservations := by
  unfold SlabState.with_order
  repeat' split
  all_goals rfl

theorem free_slice_reservations (s : SlabState) (idx : Nat) :
    (s.free_slice idx).reservations = s.reservations := by
  unfold SlabState.free_slice
  repeat' split
  all_goals rfl

theorem with_instrument_reservations (s : SlabState) (idx : Nat) (f : Instrument → Instrument) :
    (s.with_instrument idx f).reservations = s.reservations := by
  unfold SlabState.with_instrument
  repeat' split
  all_goals rfl

theorem with_account_reservations (s : SlabState) (idx : Nat) (f : AccountState → AccountState) :
    (s.with_account idx f).reservations = s.reservations := by
  unfold SlabState.with_account
  repeat' split
  all_goals rfl

theorem with_position_reservations (s : SlabState) (idx : Nat) (f : Position → Position) :
    (s.with_position idx f).reservations = s.reservations := by
  unfold SlabState.with_position
  repeat' split
  all_goals rfl

theorem free_order_reservations (s : SlabState) (idx : Nat) :
    (s.free_order idx).reservations = s.reservations := by
  unfold SlabState.free_order
  repeat' split
  all_goals rfl

theorem free_position_reservations (s : SlabState) (idx : Nat) :
    (s.free_position idx).reservations = s.reservations := by
  unfold SlabState.free_position
  repeat' split
  all_goals rfl

theorem alloc_position_reservations (s : SlabState) (idx : Nat) (s2 : SlabState) :
    s.alloc_position = some (idx, s2) → s2.reservations = s.reservations := by
  simp only [SlabState.alloc_position]
  split
  · intro h; cases h
  · intro h
    cases h
    rfl

theorem record_trade_reservations (s : SlabState) (t : Trade) :
    (s.record_trade t).reservations = s.reservations := rfl

theorem remove_order_reservations (s : SlabState) (idx : Nat) :
    (s.remove_order_from_book idx).reservations = s.reservations := by
  unfold SlabState.remove_order_from_book
  split
  · rfl
  · simp only
    repeat' split
    all_goals
      simp only [with_order_reservations, with_instrument_reservations]

theorem free_reservation_at_ne (s : SlabState) (i j : Nat) (hne : i ≠ j) :
    (s.free_reservation j).reservations i = s.reservations i := by
  unfold SlabState.free_reservation
  repeat' split
  all_goals simp [hne]

/-- The release loop never touches the reservation pool. -/
theorem releaseSlicesLoop_reservations (fuel : Nat) :
    ∀ (s : SlabState) (idx : Nat) (s2 : SlabState),
      releaseSlicesLoop fuel s idx = some s2 → s2.reservations = s.reservations := by
  induction fuel with
  | zero => intro s idx s2 h; cases h
  | succ fuel ih =>
    intro s idx s2 h
    unfold releaseSlicesLoop at h
    by_cases hidx : idx = INVALID
    · rw [if_pos hidx] at h
      cases h
      rfl
    · rw [if_neg hidx] at h
      cases hsl : s.get_slice idx with
      | none =>
        rw [hsl] at h
        cases h
        rfl
      | some sl =>
        rw [hsl] at h
        have := ih _ _ _ h
        rw [this, free_slice_reservations, with_order_reservations]

/-- Fill execution never touches the reservation pool. -/
theorem executeFillsLoop_reservations (a : Nat) (b : Int) (c d : Nat) (fuel : Nat) :
    ∀ (s : SlabState) (idx tq tn tf : Nat) (out : Nat × Nat × Nat × SlabState),
      executeFillsLoop a b c d fuel s idx tq tn tf = some out →
      out.2.2.2.reservations = s.reservations := by
  induction fuel with
  | zero => intro s idx tq tn tf out h; cases h
  | succ fuel ih =>
    intro s idx tq tn tf out h
    simp only [executeFillsLoop] at h
    split at h
    · cases h
      rfl
    · split at h
      · cases h
        rfl
      · split at h
        · have := ih _ _ _ _ _ _ h
          rw [this, free_slice_reservations]
        · have := ih _ _ _ _ _ _ h
          rw [this]
          simp only [free_slice_reservations, record_trade_reservations]
          split
          · split
            · simp only [free_order_reservations, remove_order_reservations,
                with_order_reservations]
            · simp only [with_order_reservations]
          · simp only [with_order_reservations]

/-- Position update never touches the reservation pool. -/
theorem update_position_reservations (s : SlabState) (a i : Nat) (side : Side)
    (q : Int) (px : Nat) (out : Except PercolatorError Int) (s2 : SlabState) :
    update_position s a i side q px = some (out, s2) → s2.reservations = s.reservations := by
  intro h
  simp only [update_position] at h
  split at h
  · exact absurd h (by simp)
  · split at h
    · cases h
      rfl
    · split at h
      · cases h
        rw [free_position_reservations]
      · cases h
        split
        · simp only [with_position_reservations]
        · simp only [with_position_reservations]
  · split at h
    · cases h
      rfl
    · rename_i new_idx s1 hap
      cases h
      have hbase := alloc_position_reservations s new_idx s1 hap
      split
      · simp only [with_position_reservations, hbase]
      · simp only [with_account_reservations, with_position_reservations, hbase]

/-- Mutating one reservation record leaves every other index unchanged. -/
theorem with_reservation_at_ne (s : SlabState) (i j : Nat) (f : Reservation → Reservation)
    (hne : i ≠ j) : (s.with_reservation j f).reservations i = s.reservations i := by
  unfold SlabState.with_reservation
  repeat' split
  all_goals simp [hne]

/-- Slice mutation never touches the reservation pool. -/
theorem with_slice_reservations (s : SlabState) (idx : Nat) (f : Slice → Slice) :
    (s.with_slice idx f).reservations = s.reservations := by
  unfold SlabState.with_slice
  repeat' split
  all_goals rfl

/-- Slice allocation never touches the reservation pool. -/
theorem alloc_slice_reservations (s : SlabState) (idx : Nat) (s2 : SlabState) :
    s.alloc_slice = some (idx, s2) → s2.reservations = s.reservations := by
  simp only [SlabState.alloc_slice]
  split
  · intro h; cases h
  · intro h
    cases h
    rfl

/-- The reserve walk never touches the reservation pool. -/
theorem walkAndReserveLoop_reservations (side : Side) (limit_px : Nat) (fuel : Nat) :
    ∀ (s : SlabState) (qr oi tq tn wp sh ps : Nat)
      (out : Except PercolatorError (Nat × Nat × Nat × Nat) × SlabState),
      walkAndReserveLoop side limit_px fuel s qr oi tq tn wp sh ps = some out →
      out.2.reservations = s.reservations := by
  induction fuel with
  | zero => intro s qr oi tq tn wp sh ps out h; cases h
  | succ fuel ih =>
    intro s qr oi tq tn wp sh ps out h
    simp only [walkAndReserveLoop] at h
    split at h
    · cases h; rfl
    · split at h
      · cases h; rfl
      · split at h
        · cases h; rfl
        · split at h
          · exact ih _ _ _ _ _ _ _ _ _ h
          · split at h
            · cases h; rfl
            · next slice_idx s1 halloc =>
              have := ih _ _ _ _ _ _ _ _ _ h
              rw [this, with_order_reservations]
              split
              · rw [with_slice_reservations, alloc_slice_reservations _ _ _ halloc]
              · rw [with_slice_reservations, with_slice_reservations,
                  alloc_slice_reservations _ _ _ halloc]

/-- `walk_and_reserve` never touches the reservation pool. -/
theorem walk_and_reserve_reservations (s : SlabState) (ii : Nat) (side : Side)
    (q px : Nat) (out : Except PercolatorError (Nat × Nat × Nat × Nat) × SlabState)
    (h : walk_and_reserve s ii side q px = some out) :
    out.2.reservations = s.reservations := by
  unfold walk_and_reserve at h
  split at h
  · cases h; rfl
  · exact walkAndReserveLoop_reservations _ _ _ _ _ _ _ _ _ _ _ _ h

/-- Reservation allocation pops the freelist head and touches no other
reservation record. -/
theorem alloc_reservation_spec (s : SlabState) (idx : Nat) (s2 : SlabState)
    (h : s.alloc_reservation = some (idx, s2)) :
    idx = s.header.reservation_freelist_head ∧
    ∀ j, j ≠ idx → s2.reservations j = s.reservations j := by
  simp only [SlabState.alloc_reservation] at h
  split at h
  · cases h
  · cases h
    exact ⟨rfl, fun j hj => by simp [hj]⟩

/-- A reserve call can only change the reservation record at the
pre-call freelist head; every other reservation record is untouched,
whether the call succeeds or fails. -/
theorem process_reserve_reservations_ne (S : SlabState) (a ii : Nat) (side : Side)
    (q px ttl rid : Nat) (out : Except PercolatorError ReserveResult) (S2 : SlabState)
    (h : process_reserve S a ii side q px ttl rid = some (out, S2)) (i : Nat)
    (hi : i ≠ S.header.reservation_freelist_head) :
    S2.reservations i = S.reservations i := by
  unfold process_reserve at h
  split at h
  · cases h; rfl
  · split at h
    · cases h; rfl
    · split at h
      · cases h; rfl
      · split at h
        · cases h; rfl
        · next resv_idx s1 halloc =>
          obtain ⟨hidx, hframe⟩ := alloc_reservation_spec S resv_idx s1 halloc
          have hine : i ≠ resv_idx := by rw [hidx]; exact hi
          have hs1 : s1.reservations i = S.reservations i := hframe i hine
          simp only [] at h
          split at h
          · cases h
          · next e s3 hwalk =>
            have h3 : s3.reservations = s1.reservations :=
              walk_and_reserve_reservations _ _ _ _ _ _ hwalk
            cases h
            rw [h3]
            exact hs1
          · next fq tn wp sh s3 hwalk =>
            have h3 : s3.reservations = s1.reservations :=
              walk_and_reserve_reservations _ _ _ _ _ _ hwalk
            split at h
            · cases h
              rw [free_reservation_at_ne _ _ _ hine, h3]
              exact hs1
            · cases h
              show ((s3.with_reservation resv_idx _).reservations i) = S.reservations i
              rw [with_reservation_at_ne _ _ _ _ hine, h3]
              exact hs1

/-- Every reservation record of the two-ask base book is unused. -/
theorem bookS_reservations_unused (i : Nat) : (bookS.reservations i).used = false := by
  simp only [bookS]
  repeat' split
  all_goals rfl

/-- A list without duplicates on which at most the element `a` can
satisfy `p` has `countP p` at most one. -/
theorem countP_le_one_of_unique (p : Nat → Bool) (a : Nat) :
    ∀ l : List Nat, l.Nodup → (∀ i ∈ l, p i = true → i = a) → l.countP p ≤ 1 := by
  intro l
  induction l with
  | nil => intro _ _; simp
  | cons x xs ih =>
    intro hnd huniq
    rw [List.countP_cons]
    by_cases hx : p x = true
    · have hxa : x = a := huniq x (List.mem_cons_self x xs) hx
      have hzero : xs.countP p = 0 := by
        rw [List.countP_eq_zero]
        intro b hb hpb
        have hba : b = a := huniq b (List.mem_cons_of_mem _ hb) hpb
        have hbx : b = x := by rw [hba, hxa]
        exact (List.nodup_cons.mp hnd).1 (hbx ▸ hb)
      simp [hx, hzero]
    · have h1 := ih (List.nodup_cons.mp hnd).2
        (fun i hi hp => huniq i (List.mem_cons_of_mem _ hi) hp)
      rw [if_neg hx]
      omega

/-- Errors of the position update are PositionNotFound or PoolFull. -/
theorem update_position_err (s : SlabState) (a i : Nat) (side : Side) (q : Int) (px : Nat)
    (e : PercolatorError) (s2 : SlabState) :
    update_position s a i side q px = some (.error e, s2) →
    e = .PositionNotFound ∨ e = .PoolFull := by
  intro h
  simp only [update_position] at h
  split at h
  · exact absurd h (by simp)
  · split at h
    · cases h
      left
      rfl
    · split at h
      · exact absurd h (by simp)
      · exact absurd h (by simp)
  · split at h
    · cases h
      right
      rfl
    · exact absurd h (by simp)

theorem get_reservation_some (s : SlabState) (x : Nat) (r : Reservation) :
    s.get_reservation x = some r →
    r = s.reservations x ∧ x < POOL_RESERVATIONS ∧ r.used = true := by
  unfold SlabState.get_reservation
  split
  · intro h; cases h
  · split
    · intro h
      cases h
      exact ⟨rfl, by omega, by assumption⟩
    · intro h; cases h

theorem get_order_some (s : SlabState) (x : Nat) (o : Order) :
    s.get_order x = some o →
    o = s.orders x ∧ x < POOL_ORDERS ∧ o.used = true := by
  unfold SlabState.get_order
  split
  · intro h; cases h
  · split
    · intro h
      cases h
      exact ⟨rfl, by omega, by assumption⟩
    · intro h; cases h

theorem get_slice_some (s : SlabState) (x : Nat) (sl : Slice) :
    s.get_slice x = some sl →
    sl = s.slices x ∧ x < POOL_SLICES ∧ sl.used = true := by
  unfold SlabState.get_slice
  split
  · intro h; cases h
  · split
    · intro h
      cases h
      exact ⟨rfl, by omega, by assumption⟩
    · intro h; cases h

theorem get_position_some (s : SlabState) (x : Nat) (p : Position) :
    s.get_position x = some p →
    p = s.positions x ∧ x < POOL_POSITIONS ∧ p.used = true := by
  unfold SlabState.get_position
  split
  · intro h; cases h
  · split
    · intro h
      cases h
      exact ⟨rfl, by omega, by assumption⟩
    · intro h; cases h

/-! ## Claim C10: reservations with `expiry_ms = 0` never expire -/

/-- Claim C10: a reservation whose `expiry_ms` is 0 never expires: for
every current timestamp, `process_commit` never answers
`ReservationExpired` for it (both expiry checks require
`expiry_ms > 0`), and the expiry sweep `cleanup_expired_reservations`
leaves the reservation record untouched, so such a reservation stays
live until explicitly committed or cancelled. -/
theorem c10_zero_expiry_never_expires (S : SlabState) (hold_id ts mc : Nat) :
    (∀ r resv, S.find_reservation_by_hold_id hold_id = some r →
        S.get_reservation r = some resv → resv.expiry_ms = 0 →
        ∀ out S2, process_commit S hold_id ts = some (out, S2) →
          out ≠ .error .ReservationExpired) ∧
    (∀ i, i < POOL_RESERVATIONS → (S.reservations i).used = true →
        (S.reservations i).expiry_ms = 0 →
        ∀ n S2, cleanup_expired_reservations S ts mc = some (n, S2) →
          S2.reservations i = S.reservations i) := by
  constructor
  · intro r resv hfind hres hexp out S2 h
    unfold process_commit at h
    rw [hfind] at h
    simp only [hres] at h
    split at h
    · cases h
      simp
    · split at h
      · rename_i hcond
        rw [hexp] at hcond
        exact absurd hcond.2 (by omega)
      · split at h
        · split at h
          · exact absurd h (by simp)
          · cases h
            simp
        · split at h
          · exact absurd h (by simp)
          · split at h
            · exact absurd h (by simp)
            · cases h
              rename_i e s2 hup
              rcases update_position_err _ _ _ _ _ _ _ _ hup with rfl | rfl <;> simp
            · cases h
              simp
  · intro i hi hused hexp n S2 h
    unfold cleanup_expired_reservations at h
    have hP : ∀ p, ((List.range POOL_RESERVATIONS).foldl (cleanupStep ts mc) (some (0, S))) =
        some p → p.2.reservations i = S.reservations i := by
      have := foldl_inv
        (fun (acc : Option (Nat × SlabState)) =>
          ∀ p, acc = some p → p.2.reservations i = S.reservations i)
        (cleanupStep ts mc) (List.range POOL_RESERVATIONS) (some (0, S))
        (by intro p hp; cases hp; rfl)
        ?_
      · exact this
      · intro acc j hacc p hp
        unfold cleanupStep at hp
        split at hp
        · cases hp
        · next x0 cleaned st =>
          have hst : st.reservations i = S.reservations i := hacc (cleaned, st) rfl
          split at hp
          · cases hp
            exact hst
          · split at hp
            · cases hp
              exact hst
            · next resv_j hget =>
              split at hp
              · cases hp
                exact hst
              · split at hp
                · next hcomm hcond =>
                  split at hp
                  · cases hp
                  · next s1 hrel =>
                    cases hp
                    by_cases hij : j = i
                    · subst hij
                      obtain ⟨hval, -, -⟩ := get_reservation_some st j resv_j hget
                      rw [hval, hst, hexp] at hcond
                      exact absurd hcond.1 (by omega)
                    · show (s1.free_reservation j).reservations i = S.reservations i
                      rw [free_reservation_at_ne _ _ _ (fun hc => hij hc.symm),
                        releaseSlicesLoop_reservations _ _ _ _ hrel, hst]
                · cases hp
                  exact hst
    split at h
    · exact absurd h (by simp)
    · rename_i x1 cleaned1 s1x hfold
      split at h
      · cases h
        exact hP (n, s1x) hfold
      · cases h
        exact hP (n, S2) hfold

set_option maxRecDepth 10000 in
/-- Witness for C10 on the reserved book whose reservation has
`expiry_ms = 0`, at a far-future timestamp. -/
theorem c10_witness :
    bookRNoExpiry.find_reservation_by_hold_id 1 = some 0 ∧
    bookRNoExpiry.get_reservation 0 = some (bookRNoExpiry.reservations 0) ∧
    (bookRNoExpiry.reservations 0).expiry_ms = 0 ∧
    (0 : Nat) < POOL_RESERVATIONS ∧
    (bookRNoExpiry.reservations 0).used = true ∧
    (∀ out S2, process_commit bookRNoExpiry 1 999999999 = some (out, S2) →
        out ≠ .error .ReservationExpired) ∧
    (∀ n S2, cleanup_expired_reservations bookRNoExpiry 999999999 10 = some (n, S2) →
        S2.reservations 0 = bookRNoExpiry.reservations 0) :=
  ⟨by decide, by rfl, by decide, by decide, by decide,
    (c10_zero_expiry_never_expires bookRNoExpiry 1 999999999 10).1 0
      (bookRNoExpiry.reservations 0) (by decide) (by rfl) (by decide),
    (c10_zero_expiry_never_expires bookRNoExpiry 1 999999999 10).2 0
      (by decide) (by decide) (by decide)⟩

/-! ## Claim C2: committing the same hold twice -/

theorem two_le_length_of_two_mem {l : List Nat} (a b : Nat) (ha : a ∈ l) (hb : b ∈ l)
    (hne : a ≠ b) : 2 ≤ l.length := by
  induction l with
  | nil => cases ha
  | cons x xs ih =>
    rcases List.mem_cons.mp ha with rfl | ha2
    · rcases List.mem_cons.mp hb with rfl | hb2
      · exact absurd rfl hne
      · have : 0 < xs.length := List.length_pos.mpr (by rintro rfl; cases hb2)
        simp only [List.length_cons]
        omega
    · have : 0 < xs.length := List.length_pos.mpr (by rintro rfl; cases ha2)
      simp only [List.length_cons]
      omega

/-- A successful commit frees exactly the found reservation and leaves
every other reservation record unchanged. -/
theorem commit_ok_reservations (S : SlabState) (h ts : Nat) (res : CommitResult)
    (S1 : SlabState) (hc : process_commit S h ts = some (.ok res, S1)) :
    ∃ r, S.find_reservation_by_hold_id h = some r ∧ r < POOL_RESERVATIONS ∧
      (∀ j, j ≠ r → S1.reservations j = S.reservations j) ∧
      (S1.reservations r).used = false := by
  unfold process_commit at hc
  split at hc
  · exact absurd hc (by simp)
  · next r hfind =>
    refine ⟨r, hfind, ?_⟩
    split at hc
    · exact absurd hc (by simp)
    · next resv hget =>
      obtain ⟨hval, hlt, hused⟩ := get_reservation_some S r resv hget
      refine ⟨hlt, ?_⟩
      split at hc
      · exact absurd hc (by simp)
      · split at hc
        · split at hc
          · exact absurd hc (by simp)
          · exact absurd hc (by simp)
        · simp only [] at hc
          split at hc
          · split at hc
            · exact absurd hc (by simp)
            · exact absurd hc (by simp)
          · split at hc
            · exact absurd hc (by simp)
            · next fq tn fees s1 hexec =>
              split at hc
              · exact absurd hc (by simp)
              · exact absurd hc (by simp)
              · next rp s2 hupd =>
                cases hc
                have hres1 : s1.reservations = S.reservations :=
                  executeFillsLoop_reservations _ _ _ _ _ _ _ _ _ _ _ hexec
                have hres2 : s2.reservations = s1.reservations :=
                  update_position_reservations _ _ _ _ _ _ _ _ hupd
                have husedr2 : (s2.reservations r).used = true := by
                  rw [hres2, hres1, ← hval]
                  exact hused
                constructor
                · intro j hj
                  show ((s2.with_reservation r _).free_reservation r).reservations j =
                    S.reservations j
                  rw [free_reservation_at_ne _ _ _ hj, with_reservation_at_ne _ _ _ _ hj,
                    hres2, hres1]
                · show (((s2.with_reservation r _).free_reservation r).reservations r).used =
                    false
                  have hnle : ¬ POOL_RESERVATIONS ≤ r := by omega
                  simp [SlabState.free_reservation, SlabState.with_reservation, hnle, husedr2]

/-- Claim C2 (amended): after a successful commit of a hold, a second
commit of the same hold id fails with `ReservationNotFound` (not
`InvalidReservation`): the successful commit frees the reservation, so
the hold id no longer resolves; the hypothesis states that the hold id
was held by at most one reservation, the documented uniqueness
invariant. -/
theorem c2_commit_twice (S : SlabState) (h ts ts2 : Nat) (res : CommitResult)
    (S1 : SlabState)
    (hUniq : ((List.range POOL_RESERVATIONS).countP
        (fun i => (S.reservations i).used && (S.reservations i).hold_id == h)) ≤ 1)
    (hcommit : process_commit S h ts = some (.ok res, S1)) :
    process_commit S1 h ts2 = some (.error .ReservationNotFound, S1) := by
  obtain ⟨r, hfind, hlt, hother, hfreed⟩ := commit_ok_reservations S h ts res S1 hcommit
  unfold SlabState.find_reservation_by_hold_id at hfind
  have hpredr := List.find?_some hfind
  have hrmem := List.mem_of_find?_eq_some hfind
  have hnone : S1.find_reservation_by_hold_id h = none := by
    unfold SlabState.find_reservation_by_hold_id
    rw [List.find?_eq_none]
    intro i hi
    by_cases hir : i = r
    · subst hir
      simp [hfreed]
    · rw [hother i hir]
      intro hpred
      have h2 : 2 ≤ ((List.range POOL_RESERVATIONS).filter
          (fun i => (S.reservations i).used && (S.reservations i).hold_id == h)).length := by
        refine two_le_length_of_two_mem i r ?_ ?_ hir
        · exact List.mem_filter.mpr ⟨hi, hpred⟩
        · exact List.mem_filter.mpr ⟨hrmem, hpredr⟩
      rw [List.countP_eq_length_filter] at hUniq
      omega
  unfold process_commit
  rw [hnone]

set_option maxRecDepth 10000 in
/-- Witness for the amended C2 on the concrete reserved book: the hold id
is held by a single reservation, the first commit of hold 1 succeeds, and
the second commit answers `ReservationNotFound`. -/
theorem c2_commit_twice_witness :
    ((List.range POOL_RESERVATIONS).countP
        (fun i => (bookR.reservations i).used && (bookR.reservations i).hold_id == 1)) ≤ 1 ∧
    process_commit bookR 1 0 =
      some (.ok { filled_qty := 25, vwap_px := 100, notional := 2515, fees := 5,
                  realized_pnl := 0 }, bookC) ∧
    process_commit bookC 1 5 = some (.error .ReservationNotFound, bookC) := by
  have hresR : ∃ out, process_reserve bookS 0 0 .Buy 25 102 1000 0 = some (out, bookR) :=
    ⟨_, rfl⟩
  obtain ⟨outR, houtR⟩ := hresR
  have hhead : bookS.header.reservation_freelist_head = 0 := rfl
  have hUniq : ((List.range POOL_RESERVATIONS).countP
      (fun i => (bookR.reservations i).used && (bookR.reservations i).hold_id == 1)) ≤ 1 := by
    refine countP_le_one_of_unique _ 0 _ (List.nodup_range _) ?_
    intro i hi hp
    by_contra h0
    have hp2 : ((bookR.reservations i).used && (bookR.reservations i).hold_id == 1) = true :=
      hp
    have hframe : bookR.reservations i = bookS.reservations i :=
      process_reserve_reservations_ne bookS 0 0 .Buy 25 102 1000 0 outR bookR houtR i
        (by rw [hhead]; exact h0)
    rw [hframe, bookS_reservations_unused i] at hp2
    simp at hp2
  have hcommit : process_commit bookR 1 0 =
      some (.ok { filled_qty := 25, vwap_px := 100, notional := 2515, fees := 5,
                  realized_pnl := 0 }, bookC) := by rfl
  exact ⟨hUniq, hcommit, c2_commit_twice bookR 1 0 5 _ bookC hUniq hcommit⟩

set_option maxRecDepth 10000 in
/-- Counterexample to C2 as stated: on the concrete two-ask book, after a
successful commit of hold 1 the second commit of the same hold returns
`ReservationNotFound`, not the claimed `InvalidReservation`: the first
commit frees the reservation, so the hold id no longer resolves at all. -/
theorem c2_counterexample :
    process_commit bookR 1 0 =
      some (.ok { filled_qty := 25, vwap_px := 100, notional := 2515, fees := 5,
                  realized_pnl := 0 }, bookC) ∧
    process_commit bookC 1 5 = some (.error .ReservationNotFound, bookC) ∧
    PercolatorError.ReservationNotFound ≠ PercolatorError.InvalidReservation :=
  ⟨by rfl, by rfl, by decide⟩

/-! ## Chain-walk lemmas -/

/-- More fuel never changes a successful chain walk. -/
theorem linkChain_fuel_mono (f : Nat → Option Nat) :
    ∀ fuel fuel2 idx L, fuel ≤ fuel2 → linkChain f fuel idx = some L →
      linkChain f fuel2 idx = some L := by
  intro fuel
  induction fuel with
  | zero =>
    intro fuel2 idx L _ h
    simp only [linkChain] at h
    split at h
    · next hinv =>
      cases h
      cases fuel2 with
      | zero => simp only [linkChain]; rw [if_pos hinv]
      | succ n => simp only [linkChain]; rw [if_pos hinv]
    · cases h
  | succ fuel ih =>
    intro fuel2 idx L hle h
    simp only [linkChain] at h
    by_cases hidx : idx = INVALID
    · rw [if_pos hidx] at h
      cases h
      cases fuel2 with
      | zero => simp only [linkChain]; rw [if_pos hidx]
      | succ n => simp only [linkChain]; rw [if_pos hidx]
    · rw [if_neg hidx] at h
      obtain ⟨fuel2p, rfl⟩ : ∃ k, fuel2 = k + 1 := ⟨fuel2 - 1, by omega⟩
      split at h
      · cases h
      · next nxt hf =>
        obtain ⟨L1, hL1, rfl⟩ := Option.map_eq_some'.mp h
        have htail := ih fuel2p nxt L1 (by omega) hL1
        simp only [linkChain]
        rw [if_neg hidx]
        simp only [hf, htail, Option.map_some']

/-- A successful chain walk is independent of the fuel. -/
theorem linkChain_unique (f : Nat → Option Nat) (fuel fuel2 idx : Nat) (L M : List Nat)
    (h1 : linkChain f fuel idx = some L) (h2 : linkChain f fuel2 idx = some M) : L = M := by
  have ha := linkChain_fuel_mono f fuel (fuel + fuel2) idx L (by omega) h1
  have hb := linkChain_fuel_mono f fuel2 (fuel + fuel2) idx M (by omega) h2
  rw [ha] at hb
  exact Option.some_inj.mp hb

/-- Every member of a successful chain walk heads its own successful
walk, no longer than the original. -/
theorem linkChain_mem_le (f : Nat → Option Nat) :
    ∀ fuel idx L, linkChain f fuel idx = some L →
      ∀ v ∈ L, ∃ g M, linkChain f g v = some M ∧ M.length ≤ L.length := by
  intro fuel
  induction fuel with
  | zero =>
    intro idx L h v hv
    simp only [linkChain] at h
    split at h
    · cases h; cases hv
    · cases h
  | succ fuel ih =>
    intro idx L h v hv
    simp only [linkChain] at h
    by_cases hidx : idx = INVALID
    · rw [if_pos hidx] at h; cases h; cases hv
    · rw [if_neg hidx] at h
      split at h
      · cases h
      · next nxt hf =>
        obtain ⟨L1, hL1, rfl⟩ := Option.map_eq_some'.mp h
        rcases List.mem_cons.mp hv with rfl | hv1
        · refine ⟨fuel + 1, v :: L1, ?_, le_refl _⟩
          simp only [linkChain]
          rw [if_neg hidx]
          simp only [hf, hL1, Option.map_some']
        · obtain ⟨g, M, hM, hlen⟩ := ih nxt L1 hL1 v hv1
          exact ⟨g, M, hM, by simp only [List.length_cons]; omega⟩

/-- A successful chain walk has no duplicate nodes: a repeated node of a
deterministic step function closes a cycle, which exhausts any fuel. -/
theorem linkChain_nodup (f : Nat → Option Nat) :
    ∀ fuel idx L, linkChain f fuel idx = some L → L.Nodup := by
  intro fuel
  induction fuel with
  | zero =>
    intro idx L h
    simp only [linkChain] at h
    split at h
    · cases h; exact List.nodup_nil
    · cases h
  | succ fuel ih =>
    intro idx L h
    have horig := h
    simp only [linkChain] at h
    by_cases hidx : idx = INVALID
    · rw [if_pos hidx] at h; cases h; exact List.nodup_nil
    · rw [if_neg hidx] at h
      split at h
      · cases h
      · next nxt hf =>
        obtain ⟨L1, hL1, rfl⟩ := Option.map_eq_some'.mp h
        refine List.nodup_cons.mpr ⟨?_, ih nxt L1 hL1⟩
        intro hmem
        obtain ⟨g, M, hM, hlen⟩ := linkChain_mem_le f fuel nxt L1 hL1 idx hmem
        have heq := linkChain_unique f g (fuel + 1) idx M (idx :: L1) hM horig
        rw [heq] at hlen
        simp only [List.length_cons] at hlen
        omega

/-- Every member of a successful chain walk is in the step function's
domain. -/
theorem linkChain_mem_dom (f : Nat → Option Nat) :
    ∀ fuel idx L, linkChain f fuel idx = some L → ∀ v ∈ L, ∃ y, f v = some y := by
  intro fuel
  induction fuel with
  | zero =>
    intro idx L h v hv
    simp only [linkChain] at h
    split at h
    · cases h; cases hv
    · cases h
  | succ fuel ih =>
    intro idx L h v hv
    simp only [linkChain] at h
    by_cases hidx : idx = INVALID
    · rw [if_pos hidx] at h; cases h; cases hv
    · rw [if_neg hidx] at h
      split at h
      · cases h
      · next nxt hf =>
        obtain ⟨L1, hL1, rfl⟩ := Option.map_eq_some'.mp h
        rcases List.mem_cons.mp hv with rfl | hv1
        · exact ⟨nxt, hf⟩
        · exact ih nxt L1 hL1 v hv1

/-- Chain walks agree for step functions that agree on the walked
nodes. -/
theorem linkChain_congr (f g : Nat → Option Nat) :
    ∀ fuel idx L, linkChain f fuel idx = some L → (∀ v ∈ L, g v = f v) →
      linkChain g fuel idx = some L := by
  intro fuel
  induction fuel with
  | zero =>
    intro idx L h _
    simp only [linkChain] at h
    split at h
    · next hinv => cases h; simp only [linkChain]; rw [if_pos hinv]
    · cases h
  | succ fuel ih =>
    intro idx L h hag
    simp only [linkChain] at h
    by_cases hidx : idx = INVALID
    · rw [if_pos hidx] at h; cases h; simp only [linkChain]; rw [if_pos hidx]
    · rw [if_neg hidx] at h
      split at h
      · cases h
      · next nxt hf =>
        obtain ⟨L1, hL1, rfl⟩ := Option.map_eq_some'.mp h
        have hg : g idx = some nxt := by
          rw [hag idx (List.mem_cons_self _ _)]; exact hf
        have htail := ih nxt L1 hL1 (fun v hv => hag v (List.mem_cons_of_mem _ hv))
        simp only [linkChain]
        rw [if_neg hidx]
        simp only [hg, htail, Option.map_some']

/-- The slice chain step only reads the slice record of its node. -/
theorem sliceNextF_congr_at (s s2 : SlabState) (v : Nat)
    (hsl : s2.slices v = s.slices v) : sliceNextF s2 v = sliceNextF s v := by
  unfold sliceNextF SlabState.get_slice
  rw [hsl]

/-! ## Frame lemmas for the release loop -/

/-- `with_order` changes only the order pool: slices. -/
theorem with_order_slices (s : SlabState) (idx : Nat) (f : Order → Order) :
    (s.with_order idx f).slices = s.slices := by
  unfold SlabState.with_order
  repeat' split
  all_goals rfl

/-- `with_order` changes only the order pool: positions. -/
theorem with_order_positions (s : SlabState) (idx : Nat) (f : Order → Order) :
    (s.with_order idx f).positions = s.positions := by
  unfold SlabState.with_order
  repeat' split
  all_goals rfl

/-- `with_order` changes only the order pool: accounts. -/
theorem with_order_accounts (s : SlabState) (idx : Nat) (f : Order → Order) :
    (s.with_order idx f).accounts = s.accounts := by
  unfold SlabState.with_order
  repeat' split
  all_goals rfl

/-- `with_order` changes only the order pool: instruments. -/
theorem with_order_instruments (s : SlabState) (idx : Nat) (f : Order → Order) :
    (s.with_order idx f).instruments = s.instruments := by
  unfold SlabState.with_order
  repeat' split
  all_goals rfl

/-- `with_order` changes only the order pool: header. -/
theorem with_order_header (s : SlabState) (idx : Nat) (f : Order → Order) :
    (s.with_order idx f).header = s.header := by
  unfold SlabState.with_order
  repeat' split
  all_goals rfl

/-- `free_slice` changes only the slice pool and header: orders. -/
theorem free_slice_orders (s : SlabState) (idx : Nat) :
    (s.free_slice idx).orders = s.orders := by
  unfold SlabState.free_slice
  repeat' split
  all_goals rfl

/-- `free_slice` changes only the slice pool and header: positions. -/
theorem free_slice_positions (s : SlabState) (idx : Nat) :
    (s.free_slice idx).positions = s.positions := by
  unfold SlabState.free_slice
  repeat' split
  all_goals rfl

/-- `free_slice` changes only the slice pool and header: accounts. -/
theorem free_slice_accounts (s : SlabState) (idx : Nat) :
    (s.free_slice idx).accounts = s.accounts := by
  unfold SlabState.free_slice
  repeat' split
  all_goals rfl

/-- `free_slice` changes only the slice pool and header: instruments. -/
theorem free_slice_instruments (s : SlabState) (idx : Nat) :
    (s.free_slice idx).instruments = s.instruments := by
  unfold SlabState.free_slice
  repeat' split
  all_goals rfl

/-- `free_slice` leaves every other slice record unchanged. -/
theorem free_slice_at_ne (s : SlabState) (w idx : Nat) (hne : w ≠ idx) :
    (s.free_slice idx).slices w = s.slices w := by
  unfold SlabState.free_slice
  repeat' split
  all_goals simp [hne]

/-- `free_slice` marks an in-range used slice unused. -/
theorem free_slice_used_false (s : SlabState) (idx : Nat) (hlt : idx < POOL_SLICES)
    (hused : (s.slices idx).used = true) :
    ((s.free_slice idx).slices idx).used = false := by
  have hnle : ¬ POOL_SLICES ≤ idx := by omega
  simp [SlabState.free_slice, hnle, hused]

/-- `free_slice` on an in-range used slice decrements the slice count. -/
theorem free_slice_count (s : SlabState) (idx : Nat) (hlt : idx < POOL_SLICES)
    (hused : (s.slices idx).used = true) :
    (s.free_slice idx).header.slice_count = s.header.slice_count - 1 := by
  have hnle : ¬ POOL_SLICES ≤ idx := by omega
  simp [SlabState.free_slice, hnle, hused]

/-- `free_reservation` changes only the reservation pool and header:
slices. -/
theorem free_reservation_slices (s : SlabState) (idx : Nat) :
    (s.free_reservation idx).slices = s.slices := by
  unfold SlabState.free_reservation
  repeat' split
  all_goals rfl

/-- `free_reservation` changes only the reservation pool and header:
orders. -/
theorem free_reservation_orders (s : SlabState) (idx : Nat) :
    (s.free_reservation idx).orders = s.orders := by
  unfold SlabState.free_reservation
  repeat' split
  all_goals rfl

/-- `free_reservation` changes only the reservation pool and header:
positions. -/
theorem free_reservation_positions (s : SlabState) (idx : Nat) :
    (s.free_reservation idx).positions = s.positions := by
  unfold SlabState.free_reservation
  repeat' split
  all_goals rfl

/-! ## The release transformation `subRes` -/

/-- One release step only rewrites the targeted order's
`reserved_qty`. -/
theorem subResStep_qty_used (s : SlabState) (od : Nat → Order) (i j : Nat) :
    ((subResStep s od i) j).qty = (od j).qty ∧
    ((subResStep s od i) j).used = (od j).used := by
  simp only [subResStep]
  by_cases h1 : POOL_ORDERS ≤ (s.slices i).order_idx
  · simp [h1]
  · by_cases h2 : (od (s.slices i).order_idx).used
    · by_cases h3 : j = (s.slices i).order_idx
      · subst h3; simp [h1, h2]
      · simp [h1, h2, h3]
    · simp [h1, h2]

/-- `subRes` never changes an order's quantity or its used flag. -/
theorem subRes_qty_used (s : SlabState) :
    ∀ (RL : List Nat) (od : Nat → Order) (j : Nat),
      ((subRes s RL od) j).qty = (od j).qty ∧
      ((subRes s RL od) j).used = (od j).used := by
  intro RL
  induction RL with
  | nil => intro od j; exact ⟨rfl, rfl⟩
  | cons i RL ih =>
    intro od j
    obtain ⟨hq, hu⟩ := ih (subResStep s od i) j
    obtain ⟨hq1, hu1⟩ := subResStep_qty_used s od i j
    exact ⟨by rw [show subRes s (i :: RL) od = subRes s RL (subResStep s od i) from rfl,
        hq, hq1],
      by rw [show subRes s (i :: RL) od = subRes s RL (subResStep s od i) from rfl, hu, hu1]⟩

/-- `subRes` subtracts exactly the chain's reserved quantity from every
in-range used order. -/
theorem subRes_reserved (s : SlabState) :
    ∀ (RL : List Nat) (od : Nat → Order) (j : Nat), j < POOL_ORDERS → (od j).used = true →
      ((subRes s RL od) j).reserved_qty = (od j).reserved_qty - chainReservedSum s RL j := by
  intro RL
  induction RL with
  | nil =>
    intro od j _ _
    show (od j).reserved_qty = (od j).reserved_qty - chainReservedSum s [] j
    simp [chainReservedSum]
  | cons i RL ih =>
    intro od j hj hu
    have hnle : ¬ POOL_ORDERS ≤ j := by omega
    obtain ⟨-, hu1⟩ := subResStep_qty_used s od i j
    have hstep := ih (subResStep s od i) j hj (by rw [hu1]; exact hu)
    rw [show subRes s (i :: RL) od = subRes s RL (subResStep s od i) from rfl, hstep]
    by_cases htar : (s.slices i).order_idx = j
    · have hso : ((subResStep s od i) j).reserved_qty =
          (od j).reserved_qty - (s.slices i).qty := by
        simp only [subResStep]
        rw [htar]
        simp [hnle, hu]
      have hsum : chainReservedSum s (i :: RL) j = (s.slices i).qty + chainReservedSum s RL j := by
        simp [chainReservedSum, htar]
      rw [hso, hsum, Nat.sub_sub]
    · have hso : ((subResStep s od i) j).reserved_qty = (od j).reserved_qty := by
        simp only [subResStep]
        by_cases h1 : POOL_ORDERS ≤ (s.slices i).order_idx
        · simp [h1]
        · by_cases h2 : (od (s.slices i).order_idx).used
          · simp [h1, h2]
            rw [if_neg (fun hh : j = (s.slices i).order_idx => htar hh.symm)]
          · simp [h1, h2]
      have hsum : chainReservedSum s (i :: RL) j = chainReservedSum s RL j := by
        simp [chainReservedSum, htar]
      rw [hso, hsum]

/-- `subRes` only reads the slice records of the released chain. -/
theorem subRes_congr (s s2 : SlabState) :
    ∀ (RL : List Nat) (od : Nat → Order), (∀ i ∈ RL, s2.slices i = s.slices i) →
      subRes s2 RL od = subRes s RL od := by
  intro RL
  induction RL with
  | nil => intro od _; rfl
  | cons i RL ih =>
    intro od hag
    have hstep : subResStep s2 od i = subResStep s od i := by
      simp only [subResStep]
      rw [hag i (List.mem_cons_self _ _)]
    show subRes s2 RL (subResStep s2 od i) = subRes s RL (subResStep s od i)
    rw [hstep]
    exact ih (subResStep s od i) (fun v hv => hag v (List.mem_cons_of_mem _ hv))

/-- The order-pool effect of one release-loop iteration is
`subResStep`. -/
theorem release_step_orders (s : SlabState) (i : Nat) (sl : Slice)
    (hget : s.get_slice i = some sl) :
    (s.with_order sl.order_idx
      (fun o => { o with reserved_qty := o.reserved_qty - sl.qty })).orders
      = subResStep s s.orders i := by
  obtain ⟨hval, hlt, hused⟩ := get_slice_some s i sl hget
  funext j
  simp only [SlabState.with_order, subResStep, ← hval]
  by_cases h1 : POOL_ORDERS ≤ sl.order_idx
  · simp [h1]
  · by_cases h2 : (s.orders sl.order_idx).used
    · simp [h1, h2]
    · simp [h1, h2]

/-- Characterization of the release loop on a valid slice chain: it
succeeds, every chain slice is freed, the maker orders lose exactly the
chain's reserved quantities (`subRes`), and nothing else changes. -/
theorem releaseSlicesLoop_spec :
    ∀ (fuel : Nat) (s : SlabState) (idx : Nat) (RL : List Nat),
      linkChain (sliceNextF s) fuel idx = some RL →
      ∃ s2, releaseSlicesLoop (fuel + 1) s idx = some s2 ∧
        s2.orders = subRes s RL s.orders ∧
        (∀ v ∈ RL, (s2.slices v).used = false) ∧
        (∀ w, w ∉ RL → s2.slices w = s.slices w) ∧
        s2.positions = s.positions ∧
        s2.accounts = s.accounts ∧
        s2.instruments = s.instruments ∧
        s2.reservations = s.reservations ∧
        s2.header.slice_count = s.header.slice_count - RL.length := by
  intro fuel
  induction fuel with
  | zero =>
    intro s idx RL h
    simp only [linkChain] at h
    split at h
    · next hinv =>
      cases h
      refine ⟨s, ?_, rfl, (by intro v hv; cases hv), fun w _ => rfl, rfl, rfl, rfl, rfl, rfl⟩
      simp only [releaseSlicesLoop]
      rw [if_pos hinv]
    · cases h
  | succ fuel ih =>
    intro s idx RL h
    have horig := h
    simp only [linkChain] at h
    by_cases hidx : idx = INVALID
    · rw [if_pos hidx] at h
      cases h
      refine ⟨s, ?_, rfl, (by intro v hv; cases hv), fun w _ => rfl, rfl, rfl, rfl, rfl, rfl⟩
      simp only [releaseSlicesLoop]
      rw [if_pos hidx]
    · rw [if_neg hidx] at h
      split at h
      · cases h
      · next nxt hf =>
        obtain ⟨L1, hL1, rfl⟩ := Option.map_eq_some'.mp h
        obtain ⟨sl, hget, hnxt⟩ : ∃ sl, s.get_slice idx = some sl ∧ sl.next = nxt := by
          unfold sliceNextF at hf
          cases hg : s.get_slice idx with
          | none => rw [hg] at hf; cases hf
          | some sl0 => rw [hg] at hf; cases hf; exact ⟨sl0, rfl, rfl⟩
        obtain ⟨hval, hlt, hused⟩ := get_slice_some s idx sl hget
        have hnodup := linkChain_nodup (sliceNextF s) (fuel + 1) idx (idx :: L1) horig
        have hnotmem : idx ∉ L1 := (List.nodup_cons.mp hnodup).1
        have hslw : ∀ w, w ≠ idx →
            (((s.with_order sl.order_idx
              (fun o => { o with reserved_qty := o.reserved_qty - sl.qty })).free_slice
              idx).slices w) = s.slices w := by
          intro w hw
          rw [free_slice_at_ne _ _ _ hw]
          rw [with_order_slices]
        have hchain2 : linkChain (sliceNextF ((s.with_order sl.order_idx
            (fun o => { o with reserved_qty := o.reserved_qty - sl.qty })).free_slice idx))
            fuel nxt = some L1 := by
          refine linkChain_congr _ _ fuel nxt L1 hL1 ?_
          intro v hv
          exact sliceNextF_congr_at _ _ v (hslw v (fun hc => hnotmem (hc ▸ hv)))
        obtain ⟨s3, hloop3, horder3, hfree3, hunch3, hpos3, hacc3, hins3, hres3, hcount3⟩ :=
          ih _ nxt L1 hchain2
        have husedw : ((s.with_order sl.order_idx
            (fun o => { o with reserved_qty := o.reserved_qty - sl.qty })).slices idx).used
            = true := by
          rw [with_order_slices, ← hval]
          exact hused
        refine ⟨s3, ?_, ?_, ?_, ?_, ?_, ?_, ?_, ?_, ?_⟩
        · simp only [releaseSlicesLoop]
          rw [if_neg hidx, hget]
          rw [← hnxt] at hloop3
          exact hloop3
        · rw [horder3, free_slice_orders, subRes_congr _ _ L1 _
            (fun i hi => hslw i (fun hc => hnotmem (hc ▸ hi))),
            release_step_orders s idx sl hget]
          rfl
        · intro v hv
          rcases List.mem_cons.mp hv with rfl | hv1
          · rw [hunch3 v hnotmem]
            rw [show ((s.with_order sl.order_idx
              (fun o => { o with reserved_qty := o.reserved_qty - sl.qty })).free_slice v)
              = ((s.with_order sl.order_idx
              (fun o => { o with reserved_qty := o.reserved_qty - sl.qty })).free_slice v)
              from rfl]
            refine free_slice_used_false _ v hlt ?_
            rw [with_order_slices, ← hval]
            exact hused
          · exact hfree3 v hv1
        · intro w hw
          have hw1 : w ≠ idx := fun hc => hw (hc ▸ List.mem_cons_self _ _)
          have hw2 : w ∉ L1 := fun hc => hw (List.mem_cons_of_mem _ hc)
          rw [hunch3 w hw2, hslw w hw1]
        · rw [hpos3, free_slice_positions, with_order_positions]
        · rw [hacc3, free_slice_accounts, with_order_accounts]
        · rw [hins3, free_slice_instruments, with_order_instruments]
        · rw [hres3, free_slice_reservations, with_order_reservations]
        · rw [hcount3, free_slice_count _ idx hlt husedw]
          rw [show ((s.with_order sl.order_idx
            (fun o => { o with reserved_qty := o.reserved_qty - sl.qty })).header.slice_count)
            = s.header.slice_count from by rw [with_order_header]]
          simp only [List.length_cons]
          omega

/-- `release_slices` on a valid chain: the loop characterization at the
source's fuel. -/
theorem release_slices_spec (s : SlabState) (head : Nat) (RL : List Nat)
    (hchain : linkChain (sliceNextF s) POOL_SLICES head = some RL) :
    ∃ s2, release_slices s head = some s2 ∧
      s2.orders = subRes s RL s.orders ∧
      (∀ v ∈ RL, (s2.slices v).used = false) ∧
      (∀ w, w ∉ RL → s2.slices w = s.slices w) ∧
      s2.positions = s.positions ∧
      s2.accounts = s.accounts ∧
      s2.instruments = s.instruments ∧
      s2.reservations = s.reservations ∧
      s2.header.slice_count = s.header.slice_count - RL.length := by
  unfold release_slices
  exact releaseSlicesLoop_spec POOL_SLICES s head RL hchain

/-! ## Claim C3: kill-band rejection at commit -/

/-- Claim C3 (amended): kill-band rejection at commit.  If the
reservation is live (uncommitted, unexpired), both the reserve-time and
current marks are nonzero — a gate the claim omits — and the mark moved
beyond the band, the commit answers `KillBandExceeded`; every slice of
the reservation's chain is freed, each maker order's `reserved_qty`
drops by exactly the chain's quantity held against it, no order quantity
is filled, no position changes, and the reservation itself is freed. -/
theorem c3_kill_band (S : SlabState) (h ts r : Nat) (resv : Reservation) (RL : List Nat)
    (hfind : S.find_reservation_by_hold_id h = some r)
    (hget : S.get_reservation r = some resv)
    (hncom : resv.committed = false)
    (hnexp : ¬ (resv.expiry_ms < ts ∧ 0 < resv.expiry_ms))
    (hprev : S.header.prev_mark_px ≠ 0)
    (hmark : S.header.mark_px ≠ 0)
    (hband : S.header.prev_mark_px.natAbs * S.header.kill_band_bps / 10000 <
      (S.header.mark_px - S.header.prev_mark_px).natAbs)
    (hchain : linkChain (sliceNextF S) POOL_SLICES resv.slice_head = some RL) :
    ∃ S2, process_commit S h ts = some (.error .KillBandExceeded, S2) ∧
      (∀ v ∈ RL, (S2.slices v).used = false) ∧
      (∀ j, (S2.orders j).qty = (S.orders j).qty) ∧
      (∀ j, j < POOL_ORDERS → (S.orders j).used = true →
        (S2.orders j).reserved_qty = (S.orders j).reserved_qty - chainReservedSum S RL j) ∧
      S2.positions = S.positions ∧
      (S2.reservations r).used = false ∧
      (∀ j, j ≠ r → S2.reservations j = S.reservations j) := by
  obtain ⟨s2, hrel, horders, hfree, hunch, hpos, hacc, hins, hres, hcout⟩ :=
    release_slices_spec S resv.slice_head RL hchain
  obtain ⟨hval, hlt, hused⟩ := get_reservation_some S r resv hget
  have hnle : ¬ POOL_RESERVATIONS ≤ r := by omega
  have hrr : release_reservation_slices S r = some s2 := by
    unfold release_reservation_slices
    rw [hget]
    exact hrel
  refine ⟨s2.free_reservation r, ?_, ?_, ?_, ?_, ?_, ?_, ?_⟩
  · unfold process_commit
    rw [hfind]
    simp only [hget]
    rw [if_neg (show ¬ resv.committed = true from by rw [hncom]; simp)]
    rw [if_neg hnexp]
    rw [if_pos ⟨hprev, hmark, hband⟩]
    rw [hrr]
  · intro v hv
    rw [free_reservation_slices]
    exact hfree v hv
  · intro j
    rw [free_reservation_orders, horders]
    exact (subRes_qty_used S RL S.orders j).1
  · intro j hj hu
    rw [free_reservation_orders, horders]
    exact subRes_reserved S RL S.orders j hj hu
  · rw [free_reservation_positions, hpos]
  · have hu2 : (s2.reservations r).used = true := by
      rw [hres, ← hval]
      exact hused
    simp [SlabState.free_reservation, hnle, hu2]
  · intro j hj
    rw [free_reservation_at_ne _ _ _ hj, hres]

set_option maxRecDepth 10000 in
/-- Counterexample to C3 as stated: with `prev_mark_px = 0` the claim's
band condition `|mark − prev| > prev·kill_band/10000` holds (threshold 0,
deviation 51000000000), yet the commit succeeds — the code applies the
band only when both marks are nonzero. -/
theorem c3_counterexample :
    bookRPrevZero.header.prev_mark_px.natAbs * bookRPrevZero.header.kill_band_bps / 10000 <
      (bookRPrevZero.header.mark_px - bookRPrevZero.header.prev_mark_px).natAbs ∧
    ∃ res S2, process_commit bookRPrevZero 1 0 = some (.ok res, S2) :=
  ⟨by decide, _, _, by rfl⟩

set_option maxRecDepth 10000 in
/-- Witness for the amended C3 on the banded book (`prev` 50000e6, `mark`
51000e6, band 100 bps): all hypotheses hold concretely and the kill-band
rejection with its slice/order/reservation postconditions follows. -/
theorem c3_kill_band_witness :
    bookRKill.find_reservation_by_hold_id 1 = some 0 ∧
    bookRKill.get_reservation 0 = some (bookRKill.reservations 0) ∧
    (bookRKill.reservations 0).committed = false ∧
    ¬ ((bookRKill.reservations 0).expiry_ms < 0 ∧ 0 < (bookRKill.reservations 0).expiry_ms) ∧
    bookRKill.header.prev_mark_px ≠ 0 ∧
    bookRKill.header.mark_px ≠ 0 ∧
    bookRKill.header.prev_mark_px.natAbs * bookRKill.header.kill_band_bps / 10000 <
      (bookRKill.header.mark_px - bookRKill.header.prev_mark_px).natAbs ∧
    linkChain (sliceNextF bookRKill) POOL_SLICES ((bookRKill.reservations 0).slice_head)
      = some [0, 1] ∧
    (∃ S2, process_commit bookRKill 1 0 = some (.error .KillBandExceeded, S2) ∧
      (∀ v ∈ [0, 1], (S2.slices v).used = false) ∧
      (∀ j, (S2.orders j).qty = (bookRKill.orders j).qty) ∧
      (∀ j, j < POOL_ORDERS → (bookRKill.orders j).used = true →
        (S2.orders j).reserved_qty =
          (bookRKill.orders j).reserved_qty - chainReservedSum bookRKill [0, 1] j) ∧
      S2.positions = bookRKill.positions ∧
      (S2.reservations 0).used = false ∧
      (∀ j, j ≠ 0 → S2.reservations j = bookRKill.reservations j)) := by
  have hfind : bookRKill.find_reservation_by_hold_id 1 = some 0 := by decide
  have hchain : linkChain (sliceNextF bookRKill) POOL_SLICES
      ((bookRKill.reservations 0).slice_head) = some [0, 1] := by decide
  exact ⟨hfind, rfl, by decide, by decide, by decide, by decide, by decide, hchain,
    c3_kill_band bookRKill 1 0 0 (bookRKill.reservations 0) [0, 1] hfind rfl
      (by decide) (by decide) (by decide) (by decide) (by decide) hchain⟩

/-! ## Claim C7: reserve error atomicity -/

/-- The only error the reserve walk produces is `PoolFull`. -/
theorem walkAndReserveLoop_err (side : Side) (limit_px : Nat) :
    ∀ (fuel : Nat) (s : SlabState) (qr oi tq tn wp sh ps : Nat) (e : PercolatorError)
      (s2 : SlabState),
      walkAndReserveLoop side limit_px fuel s qr oi tq tn wp sh ps = some (.error e, s2) →
      e = .PoolFull := by
  intro fuel
  induction fuel with
  | zero => intro s qr oi tq tn wp sh ps e s2 h; cases h
  | succ fuel ih =>
    intro s qr oi tq tn wp sh ps e s2 h
    simp only [walkAndReserveLoop] at h
    split at h
    · exact absurd h (by simp)
    · split at h
      · exact absurd h (by simp)
      · split at h
        · exact absurd h (by simp)
        · split at h
          · exact ih _ _ _ _ _ _ _ _ _ _ h
          · split at h
            · cases h; rfl
            · exact ih _ _ _ _ _ _ _ _ _ _ h

/-- The only error `walk_and_reserve` produces is `PoolFull`. -/
theorem walk_and_reserve_err (s : SlabState) (ii : Nat) (side : Side) (q px : Nat)
    (e : PercolatorError) (s2 : SlabState)
    (h : walk_and_reserve s ii side q px = some (.error e, s2)) : e = .PoolFull := by
  unfold walk_and_reserve at h
  split at h
  · exact absurd h (by simp)
  · exact walkAndReserveLoop_err _ _ _ _ _ _ _ _ _ _ _ _ _ h

/-- The walk's total quantity only grows, and a walk that locked nothing
changed nothing. -/
theorem walkAndReserveLoop_qty (side : Side) (limit_px : Nat) :
    ∀ (fuel : Nat) (s : SlabState) (qr oi tq tn wp sh ps : Nat)
      (tq2 tn2 wp2 sh2 : Nat) (s2 : SlabState),
      walkAndReserveLoop side limit_px fuel s qr oi tq tn wp sh ps =
        some (.ok (tq2, tn2, wp2, sh2), s2) →
      tq ≤ tq2 ∧ (tq2 = tq → s2 = s) := by
  intro fuel
  induction fuel with
  | zero => intro s qr oi tq tn wp sh ps tq2 tn2 wp2 sh2 s2 h; cases h
  | succ fuel ih =>
    intro s qr oi tq tn wp sh ps tq2 tn2 wp2 sh2 s2 h
    simp only [walkAndReserveLoop] at h
    split at h
    · cases h; exact ⟨le_refl _, fun _ => rfl⟩
    · next hstop =>
      split at h
      · cases h; exact ⟨le_refl _, fun _ => rfl⟩
      · next order hord =>
        split at h
        · cases h; exact ⟨le_refl _, fun _ => rfl⟩
        · split at h
          · exact ih _ _ _ _ _ _ _ _ _ _ _ _ _ h
          · next hav =>
            split at h
            · exact absurd h (by simp)
            · next slice_idx s1 halloc =>
              have hrec := ih _ _ _ _ _ _ _ _ _ _ _ _ _ h
              have hqr : qr ≠ 0 := fun hq => hstop (Or.inl hq)
              have htake : 0 < min (order.qty - order.reserved_qty) qr :=
                Nat.lt_min.mpr ⟨Nat.pos_of_ne_zero hav, Nat.pos_of_ne_zero hqr⟩
              have h1 := hrec.1
              refine ⟨by omega, fun heq => ?_⟩
              exact absurd h1 (by omega)

/-- A `walk_and_reserve` that filled nothing left the state untouched. -/
theorem walk_and_reserve_zero (s : SlabState) (ii : Nat) (side : Side) (q px : Nat)
    (tn2 wp2 sh2 : Nat) (s2 : SlabState)
    (h : walk_and_reserve s ii side q px = some (.ok (0, tn2, wp2, sh2), s2)) : s2 = s := by
  unfold walk_and_reserve at h
  split at h
  · cases h; rfl
  · exact (walkAndReserveLoop_qty _ _ _ _ _ _ _ _ _ _ _ _ _ _ _ _ h).2 rfl

/-- Freeing an unused-before reservation record restores it exactly. -/
theorem reservation_free_restore (r : Reservation) (hu : r.used = false) :
    ({ r with used := false, index := r.index } : Reservation) = r := by
  cases r
  simp_all

/-- Full characterization of a successful reservation allocation. -/
theorem alloc_reservation_full (S : SlabState) (idx : Nat) (s1 : SlabState)
    (h : S.alloc_reservation = some (idx, s1)) :
    S.header.reservation_freelist_head ≠ INVALID ∧
    idx = S.header.reservation_freelist_head ∧
    s1 = { S with
      reservations := fun j => if j = idx then
          { S.reservations idx with used := true, index := idx }
        else S.reservations j,
      header := { S.header with
        reservation_freelist_head := (S.reservations idx).index,
        reservation_count := S.header.reservation_count + 1 } } := by
  simp only [SlabState.alloc_reservation] at h
  split at h
  · cases h
  · next hne =>
    cases h
    exact ⟨hne, rfl, rfl⟩

/-- Explicit form of `free_reservation` when the guards pass. -/
theorem free_reservation_eq (s : SlabState) (idx : Nat) (hlt : idx < POOL_RESERVATIONS)
    (hu : (s.reservations idx).used = true) :
    s.free_reservation idx = { s with
      reservations := fun j =>
        if j = idx then
          { s.reservations idx with
            used := false,
            index := s.header.reservation_freelist_head }
        else s.reservations j,
      header := { s.header with
        reservation_freelist_head := idx,
        reservation_count := s.header.reservation_count - 1 } } := by
  unfold SlabState.free_reservation
  rw [if_neg (show ¬ POOL_RESERVATIONS ≤ idx by omega), if_neg (not_not_intro hu)]

/-- Allocating a reservation, bumping the hold counter and freeing the
reservation restores the state up to the hold counter, provided the
popped freelist head was well formed. -/
theorem alloc_bump_free (S : SlabState) (nh : Nat) (idx : Nat) (s1 : SlabState)
    (halloc : S.alloc_reservation = some (idx, s1))
    (hwf : S.header.reservation_freelist_head = INVALID ∨
      (S.header.reservation_freelist_head < POOL_RESERVATIONS ∧
        (S.reservations S.header.reservation_freelist_head).used = false)) :
    ({ s1 with header := { s1.header with next_hold_id := nh } } : SlabState).free_reservation
      idx = { S with header := { S.header with next_hold_id := nh } } := by
  obtain ⟨hne, hidx, hs1⟩ := alloc_reservation_full S idx s1 halloc
  rcases hwf with hinv | ⟨hlt, hun⟩
  · exact absurd hinv hne
  · subst hs1
    subst hidx
    rw [free_reservation_eq _ _ hlt (by simp)]
    apply SlabState.ext <;> try rfl
    funext j
    by_cases hj : j = S.header.reservation_freelist_head
    · subst hj
      simp only [if_pos rfl]
      exact reservation_free_restore (S.reservations S.header.reservation_freelist_head) hun
    · simp [hj]

/-- Claim C7 (amended): single-shard reserve error atomicity holds for
every error except `PoolFull`: validation failures leave the state
untouched, and `InsufficientLiquidity` leaves every pool untouched with
only the hold counter advanced; a mid-walk `PoolFull` can leave the
reservation allocated (see the counterexample). -/
theorem c7_reserve_error_atomicity (S : SlabState) (a ii : Nat) (side : Side)
    (q px ttl rid : Nat) (e : PercolatorError) (S2 : SlabState)
    (hwf : S.header.reservation_freelist_head = INVALID ∨
      (S.header.reservation_freelist_head < POOL_RESERVATIONS ∧
        (S.reservations S.header.reservation_freelist_head).used = false))
    (h : process_reserve S a ii side q px ttl rid = some (.error e, S2))
    (hne : e ≠ .PoolFull) :
    S2 = S ∨ S2 = { S with header := { S.header with
      next_hold_id := (S.header.next_hold_id + 1) % U64MOD } } := by
  unfold process_reserve at h
  split at h
  · cases h; exact Or.inl rfl
  · split at h
    · cases h; exact Or.inl rfl
    · split at h
      · cases h; exact Or.inl rfl
      · split at h
        · cases h; exact absurd rfl hne
        · next resv_idx s1 halloc =>
          simp only [] at h
          split at h
          · cases h
          · next e2 s3 hwalk =>
            cases h
            exact absurd (walk_and_reserve_err _ _ _ _ _ _ _ hwalk) hne
          · next fq tn wp sh s3 hwalk =>
            split at h
            · next hfq =>
              cases h
              subst hfq
              have hs3 := walk_and_reserve_zero _ _ _ _ _ _ _ _ _ hwalk
              right
              obtain ⟨-, -, hs1⟩ := alloc_reservation_full S resv_idx s1 halloc
              have hnh : s1.header.next_hold_id = S.header.next_hold_id := by rw [hs1]
              rw [hs3, ← hnh]
              exact alloc_bump_free S ((s1.header.next_hold_id + 1) % U64MOD) resv_idx s1
                halloc hwf
            · exact absurd h (by simp)

set_option maxRecDepth 10000 in
/-- Counterexample to C7 as stated: with the slice pool exhausted the
walk fails with `PoolFull` after the reservation was already allocated;
the error state still holds the allocated reservation and the bumped
pool count, so the failing reserve did not leave the state untouched. -/
theorem c7_counterexample :
    process_reserve bookNoSlices 0 0 .Buy 25 102 1000 0 = some (.error .PoolFull, bookPF) ∧
    (bookPF.reservations 0).used = true ∧
    (bookNoSlices.reservations 0).used = false ∧
    bookPF.header.reservation_count = bookNoSlices.header.reservation_count + 1 :=
  ⟨by rfl, by decide, by decide, by decide⟩

set_option maxRecDepth 10000 in
/-- Witness for the amended C7: on the two-ask book a Sell reserve against
the empty bid side fails with `InsufficientLiquidity`, and the error
state is exactly the original with the hold counter advanced. -/
theorem c7_witness :
    (bookS.header.reservation_freelist_head = INVALID ∨
      (bookS.header.reservation_freelist_head < POOL_RESERVATIONS ∧
        (bookS.reservations bookS.header.reservation_freelist_head).used = false)) ∧
    (∃ S2, process_reserve bookS 0 0 .Sell 10 99 1000 0 =
        some (.error .InsufficientLiquidity, S2)) ∧
    PercolatorError.InsufficientLiquidity ≠ PercolatorError.PoolFull ∧
    (∀ S2, process_reserve bookS 0 0 .Sell 10 99 1000 0 =
        some (.error .InsufficientLiquidity, S2) →
      S2 = bookS ∨ S2 = { bookS with header := { bookS.header with
        next_hold_id := (bookS.header.next_hold_id + 1) % U64MOD } }) := by
  refine ⟨by decide, ⟨_, by rfl⟩, by decide, ?_⟩
  intro S2 h
  exact c7_reserve_error_atomicity bookS 0 0 .Sell 10 99 1000 0 .InsufficientLiquidity S2
    (by decide) h (by decide)

/-! ## Claim C8: funding update -/

/-- Instrument lookup characterization. -/
theorem get_instrument_some (s : SlabState) (x : Nat) (ins : Instrument) :
    s.get_instrument x = some ins →
    ins = s.instruments x ∧ x < POOL_INSTRUMENTS ∧ x < s.header.instrument_count := by
  unfold SlabState.get_instrument
  split
  · intro h; cases h
  · next hcond =>
    intro h
    cases h
    push_neg at hcond
    exact ⟨rfl, by omega, by omega⟩

/-- Account lookup characterization. -/
theorem get_account_some (s : SlabState) (x : Nat) (a : AccountState) :
    s.get_account x = some a →
    a = s.accounts x ∧ x < POOL_ACCOUNTS ∧ a.active = true := by
  unfold SlabState.get_account
  split
  · intro h; cases h
  · split
    · intro h
      cases h
      exact ⟨rfl, by omega, by assumption⟩
    · intro h; cases h

/-- `with_position` changes only the position pool: accounts. -/
theorem with_position_accounts (s : SlabState) (idx : Nat) (f : Position → Position) :
    (s.with_position idx f).accounts = s.accounts := by
  unfold SlabState.with_position
  repeat' split
  all_goals rfl

/-- `with_position` changes only the position pool: instruments. -/
theorem with_position_instruments (s : SlabState) (idx : Nat) (f : Position → Position) :
    (s.with_position idx f).instruments = s.instruments := by
  unfold SlabState.with_position
  repeat' split
  all_goals rfl

/-- `with_position` changes only the position pool: header. -/
theorem with_position_header (s : SlabState) (idx : Nat) (f : Position → Position) :
    (s.with_position idx f).header = s.header := by
  unfold SlabState.with_position
  repeat' split
  all_goals rfl

/-- `with_account` changes only the account pool: positions. -/
theorem with_account_positions (s : SlabState) (idx : Nat) (f : AccountState → AccountState) :
    (s.with_account idx f).positions = s.positions := by
  unfold SlabState.with_account
  repeat' split
  all_goals rfl

/-- `with_account` changes only the account pool: instruments. -/
theorem with_account_instruments (s : SlabState) (idx : Nat) (f : AccountState → AccountState) :
    (s.with_account idx f).instruments = s.instruments := by
  unfold SlabState.with_account
  repeat' split
  all_goals rfl

/-- `with_account` changes only the account pool: header. -/
theorem with_account_header (s : SlabState) (idx : Nat) (f : AccountState → AccountState) :
    (s.with_account idx f).header = s.header := by
  unfold SlabState.with_account
  repeat' split
  all_goals rfl

/-- `with_account` leaves every other account unchanged. -/
theorem with_account_at_ne (s : SlabState) (c idx : Nat) (f : AccountState → AccountState)
    (hne : c ≠ idx) : (s.with_account idx f).accounts c = s.accounts c := by
  unfold SlabState.with_account
  repeat' split
  all_goals simp [hne]

/-- `with_instrument` changes only the instrument pool: positions. -/
theorem with_instrument_positions (s : SlabState) (idx : Nat) (f : Instrument → Instrument) :
    (s.with_instrument idx f).positions = s.positions := by
  unfold SlabState.with_instrument
  repeat' split
  all_goals rfl

/-- `with_instrument` changes only the instrument pool: accounts. -/
theorem with_instrument_accounts (s : SlabState) (idx : Nat) (f : Instrument → Instrument) :
    (s.with_instrument idx f).accounts = s.accounts := by
  unfold SlabState.with_instrument
  repeat' split
  all_goals rfl

/-- `with_instrument` changes only the instrument pool: header. -/
theorem with_instrument_header (s : SlabState) (idx : Nat) (f : Instrument → Instrument) :
    (s.with_instrument idx f).header = s.header := by
  unfold SlabState.with_instrument
  repeat' split
  all_goals rfl

/-- Value of `with_instrument` at its own index when the guards pass. -/
theorem with_instrument_at (s : SlabState) (idx : Nat) (f : Instrument → Instrument)
    (hlt : idx < POOL_INSTRUMENTS) (hcnt : idx < s.header.instrument_count) :
    (s.with_instrument idx f).instruments idx = f (s.instruments idx) := by
  unfold SlabState.with_instrument
  rw [if_neg (by omega : ¬ (POOL_INSTRUMENTS ≤ idx ∨ s.header.instrument_count ≤ idx))]
  simp

/-- The shape relation is reflexive. -/
theorem FundingShape_refl (x : SlabState) : FundingShape x x :=
  ⟨fun _ => ⟨rfl, rfl, rfl, rfl⟩, fun _ => ⟨rfl, rfl⟩⟩

/-- The shape relation is transitive. -/
theorem FundingShape_trans (x y z : SlabState) (h1 : FundingShape x y)
    (h2 : FundingShape y z) : FundingShape x z := by
  obtain ⟨hp1, ha1⟩ := h1
  obtain ⟨hp2, ha2⟩ := h2
  refine ⟨fun i => ?_, fun b => ?_⟩
  · obtain ⟨a1, a2, a3, a4⟩ := hp1 i
    obtain ⟨b1, b2, b3, b4⟩ := hp2 i
    exact ⟨b1.trans a1, b2.trans a2, b3.trans a3, b4.trans a4⟩
  · obtain ⟨a1, a2⟩ := ha1 b
    obtain ⟨b1, b2⟩ := ha2 b
    exact ⟨b1.trans a1, b2.trans a2⟩

/-- States with equal position and account pools are shape related. -/
theorem FundingShape_of_eq (x y : SlabState) (hp : y.positions = x.positions)
    (ha : y.accounts = x.accounts) : FundingShape x y :=
  ⟨fun i => by rw [hp]; exact ⟨rfl, rfl, rfl, rfl⟩,
   fun b => by rw [ha]; exact ⟨rfl, rfl⟩⟩

/-- The position chain link reads only shape-preserved fields. -/
theorem posNextF_shape (S st : SlabState) (hsh : FundingShape S st) (i : Nat) :
    posNextF st i = posNextF S i := by
  obtain ⟨hp, -⟩ := hsh
  obtain ⟨-, -, hnx, hus⟩ := hp i
  unfold posNextF SlabState.get_position
  by_cases h1 : POOL_POSITIONS ≤ i
  · simp [h1]
  · by_cases h2 : (S.positions i).used
    · simp [h1, hus, h2, hnx]
    · simp [h1, hus, h2]

/-- Stamping one position's `last_funding` preserves the shape. -/
theorem stamp_shape (st : SlabState) (j : Nat) (nc : Int) :
    FundingShape st (st.with_position j (fun p => { p with last_funding := nc })) := by
  refine ⟨fun i => ?_, fun b => by rw [with_position_accounts]; exact ⟨rfl, rfl⟩⟩
  unfold SlabState.with_position
  by_cases h1 : POOL_POSITIONS ≤ j
  · simp [h1]
  · by_cases h2 : (st.positions j).used
    · by_cases h3 : i = j
      · subst h3; simp [h1, h2]
      · simp [h1, h2, h3]
    · simp [h1, h2]

/-- A position already stamped stays stamped through further stamps. -/
theorem stamp_keep (st : SlabState) (i j : Nat) (nc : Int)
    (h : (st.positions i).last_funding = nc) :
    ((st.with_position j (fun p => { p with last_funding := nc })).positions i).last_funding
      = nc := by
  unfold SlabState.with_position
  by_cases h1 : POOL_POSITIONS ≤ j
  · simp [h1, h]
  · by_cases h2 : (st.positions j).used
    · by_cases h3 : i = j
      · subst h3; simp [h1, h2]
      · simp [h1, h2, h3, h]
    · simp [h1, h2, h]

/-- Stamping an in-range used position sets its `last_funding`. -/
theorem stamp_set (st : SlabState) (j : Nat) (nc : Int) (hlt : j < POOL_POSITIONS)
    (hus : (st.positions j).used = true) :
    ((st.with_position j (fun p => { p with last_funding := nc })).positions j).last_funding
      = nc := by
  unfold SlabState.with_position
  rw [if_neg (by omega : ¬ POOL_POSITIONS ≤ j), if_pos hus]
  simp

/-- Facts about the stamping fold of `apply_funding_to_positions`. -/
theorem stampFold_facts (nc : Int) :
    ∀ (L : List Nat) (st : SlabState),
      FundingShape st (L.foldl (fun s i => s.with_position i
        (fun p => { p with last_funding := nc })) st) ∧
      (∀ i, (st.positions i).last_funding = nc →
        ((L.foldl (fun s i => s.with_position i
          (fun p => { p with last_funding := nc })) st).positions i).last_funding = nc) ∧
      (L.foldl (fun s i => s.with_position i
        (fun p => { p with last_funding := nc })) st).accounts = st.accounts ∧
      (L.foldl (fun s i => s.with_position i
        (fun p => { p with last_funding := nc })) st).instruments = st.instruments ∧
      (L.foldl (fun s i => s.with_position i
        (fun p => { p with last_funding := nc })) st).header = st.header ∧
      (∀ i ∈ L, i < POOL_POSITIONS → (st.positions i).used = true →
        ((L.foldl (fun s i => s.with_position i
          (fun p => { p with last_funding := nc })) st).positions i).last_funding = nc) := by
  intro L
  induction L with
  | nil =>
    intro st
    exact ⟨FundingShape_refl st, fun i h => h, rfl, rfl, rfl, fun i hi => absurd hi (by simp)⟩
  | cons j L ih =>
    intro st
    simp only [List.foldl_cons]
    obtain ⟨ihsh, ihkeep, ihacc, ihins, ihhd, ihset⟩ :=
      ih (st.with_position j (fun p => { p with last_funding := nc }))
    refine ⟨FundingShape_trans _ _ _ (stamp_shape st j nc) ihsh, ?_, ?_, ?_, ?_, ?_⟩
    · intro i h
      exact ihkeep i (stamp_keep st i j nc h)
    · rw [ihacc, with_position_accounts]
    · rw [ihins, with_position_instruments]
    · rw [ihhd, with_position_header]
    · intro i hi hlt hus
      rcases List.mem_cons.mp hi with rfl | hi1
      · exact ihkeep i (stamp_set st i nc hlt hus)
      · refine ihset i hi1 hlt ?_
        obtain ⟨-, -, -, hu⟩ := (stamp_shape st j nc).1 i
        rw [hu]
        exact hus

/-- Value of `with_account` at its own index when the guards pass. -/
theorem with_account_at (s : SlabState) (b : Nat) (f : AccountState → AccountState)
    (hlt : b < POOL_ACCOUNTS) (hact : (s.accounts b).active = true) :
    (s.with_account b f).accounts b = f (s.accounts b) := by
  unfold SlabState.with_account
  rw [if_neg (by omega : ¬ POOL_ACCOUNTS ≤ b), if_pos hact]
  simp

/-- `with_account` with a cash-only update preserves the shape. -/
theorem with_account_shape (s : SlabState) (b : Nat) (f : AccountState → AccountState)
    (hf : ∀ a, (f a).active = a.active ∧ (f a).position_head = a.position_head) :
    FundingShape s (s.with_account b f) := by
  refine ⟨fun i => by rw [with_account_positions]; exact ⟨rfl, rfl, rfl, rfl⟩, fun c => ?_⟩
  unfold SlabState.with_account
  by_cases h1 : POOL_ACCOUNTS ≤ b
  · simp [h1]
  · by_cases h2 : (s.accounts b).active
    · by_cases h3 : c = b
      · subst h3
        simp only [h1, if_false, h2, if_true]
        exact ⟨(hf (s.accounts c)).1.trans h2, (hf (s.accounts c)).2⟩
      · rw [if_neg h1, if_pos h2]
        simp [h3]
    · rw [if_neg h1, if_neg h2]
      exact ⟨rfl, rfl⟩

/-- One unfolding step of the funding scan loop. -/
theorem fundingScanLoop_succ (s : SlabState) (ii : Nat) (δ : Int) (fuel pos_idx : Nat)
    (collected : List Nat) (payment : Int) :
    fundingScanLoop s ii δ (fuel + 1) pos_idx collected payment =
      if pos_idx = INVALID ∨ 32 ≤ collected.length then some (collected, payment)
      else
        match s.get_position pos_idx with
        | none => some (collected, payment)
        | some p =>
          if p.instrument_idx = ii then
            fundingScanLoop s ii δ fuel p.next_in_account (collected ++ [pos_idx])
              (payment + calculate_funding_payment p.qty δ 0)
          else
            fundingScanLoop s ii δ fuel p.next_in_account collected payment := rfl

/-- The first pass of `apply_funding_to_positions` on a valid position
chain whose matching positions fit the 32-slot buffer collects exactly
the matching positions with their total funding payment. -/
theorem fundingScanLoop_spec (s : SlabState) (ii : Nat) (δ : Int) :
    ∀ (fuel head : Nat) (PL acc : List Nat) (pay : Int),
      linkChain (posNextF s) fuel head = some PL →
      acc.length + (PL.filter (fun i => (s.positions i).instrument_idx = ii)).length ≤ 32 →
      fundingScanLoop s ii δ (fuel + 1) head acc pay =
        some (acc ++ PL.filter (fun i => (s.positions i).instrument_idx = ii),
          pay + ((PL.filter (fun i => (s.positions i).instrument_idx = ii)).map
            (fun i => calculate_funding_payment (s.positions i).qty δ 0)).sum) := by
  intro fuel
  induction fuel with
  | zero =>
    intro head PL acc pay hc hcap
    simp only [linkChain] at hc
    split at hc
    · next hinv =>
      cases hc
      rw [fundingScanLoop_succ, if_pos (Or.inl hinv)]
      simp
    · cases hc
  | succ fuel ih =>
    intro head PL acc pay hc hcap
    simp only [linkChain] at hc
    by_cases hinv : head = INVALID
    · rw [if_pos hinv] at hc
      cases hc
      rw [fundingScanLoop_succ, if_pos (Or.inl hinv)]
      simp
    · rw [if_neg hinv] at hc
      split at hc
      · cases hc
      · next nxt hf =>
        obtain ⟨L1, hL1, rfl⟩ := Option.map_eq_some'.mp hc
        obtain ⟨p, hgp, hnxt⟩ : ∃ p, s.get_position head = some p ∧ p.next_in_account = nxt := by
          unfold posNextF at hf
          cases hg : s.get_position head with
          | none => rw [hg] at hf; cases hf
          | some p0 => rw [hg] at hf; cases hf; exact ⟨p0, rfl, rfl⟩
        obtain ⟨hval, hplt, hpus⟩ := get_position_some s head p hgp
        by_cases hcapnow : 32 ≤ acc.length
        · have hfe : ((head :: L1).filter
              (fun i => (s.positions i).instrument_idx = ii)).length = 0 := by omega
          rw [List.length_eq_zero] at hfe
          rw [fundingScanLoop_succ, if_pos (Or.inr hcapnow), hfe]
          simp
        · rw [fundingScanLoop_succ, if_neg (not_or.mpr ⟨hinv, hcapnow⟩)]
          simp only [hgp]
          by_cases hmatch : p.instrument_idx = ii
          · have hmatch2 : (s.positions head).instrument_idx = ii := by
              rw [← hval]; exact hmatch
            have hfc : (head :: L1).filter (fun i => (s.positions i).instrument_idx = ii)
                = head :: L1.filter (fun i => (s.positions i).instrument_idx = ii) :=
              List.filter_cons_of_pos (by simp [hmatch2])
            rw [hfc] at hcap
            simp only [List.length_cons] at hcap
            have hrec := ih nxt L1 (acc ++ [head])
              (pay + calculate_funding_payment p.qty δ 0) hL1
              (by simp only [List.length_append, List.length_cons, List.length_nil]; omega)
            rw [if_pos hmatch, hnxt, hrec, hfc]
            simp only [List.map_cons, List.sum_cons, List.append_assoc, List.cons_append,
              List.nil_append, ← hval, add_assoc]
          · have hmatch2 : ¬ (s.positions head).instrument_idx = ii := by
              rw [← hval]; exact hmatch
            have hfc : (head :: L1).filter (fun i => (s.positions i).instrument_idx = ii)
                = L1.filter (fun i => (s.positions i).instrument_idx = ii) :=
              List.filter_cons_of_neg (by simp [hmatch2])
            rw [hfc] at hcap
            have hrec := ih nxt L1 acc pay hL1 hcap
            rw [if_neg hmatch, hnxt, hrec, hfc]

/-- Every step of a funding settlement keeps the shape, keeps already
stamped positions stamped, touches no other account and no instrument. -/
theorem applyFundingAccount_pres (ii b : Nat) (δ nc : Int) (st st2 : SlabState)
    (h : applyFundingAccount ii δ nc st b = some st2) :
    FundingShape st st2 ∧
    (∀ i, (st.positions i).last_funding = nc → (st2.positions i).last_funding = nc) ∧
    (∀ c, c ≠ b → st2.accounts c = st.accounts c) ∧
    st2.instruments = st.instruments ∧
    st2.header = st.header := by
  unfold applyFundingAccount at h
  split at h
  · cases h
    exact ⟨FundingShape_refl _, fun i hh => hh, fun c _ => rfl, rfl, rfl⟩
  · next acc hacc =>
    split at h
    · cases h
    · next collected payment hscan =>
      simp only [] at h
      obtain ⟨fsh, fkeep, facc, fins, fhd, -⟩ := stampFold_facts nc collected st
      split at h
      · cases h
        refine ⟨FundingShape_trans _ _ _ fsh
            (with_account_shape _ _ _ (fun a => ⟨rfl, rfl⟩)), ?_, ?_, ?_, ?_⟩
        · intro i hh
          rw [with_account_positions]
          exact fkeep i hh
        · intro c hc
          rw [with_account_at_ne _ _ _ _ hc]
          exact congrFun facc c
        · rw [with_account_instruments]
          exact fins
        · rw [with_account_header]
          exact fhd
      · cases h
        exact ⟨fsh, fkeep, fun c _ => congrFun facc c, fins, fhd⟩

/-- The funding settlement of the target account: the matching positions
of its chain are stamped with the new cumulative funding and its cash is
debited by the chain's total payment (when that payment is nonzero). -/
theorem applyFundingAccount_target (S st : SlabState) (hsh : FundingShape S st)
    (ii b : Nat) (δ nc : Int) (PL : List Nat)
    (haccb : st.accounts b = S.accounts b)
    (hblt : b < POOL_ACCOUNTS)
    (hact : (S.accounts b).active = true)
    (hchain : linkChain (posNextF S) POOL_POSITIONS ((S.accounts b).position_head) = some PL)
    (hcap : (PL.filter (fun i => (S.positions i).instrument_idx = ii)).length ≤ 32) :
    ∃ st2, applyFundingAccount ii δ nc st b = some st2 ∧
      (∀ i ∈ PL, (S.positions i).instrument_idx = ii →
        (st2.positions i).last_funding = nc) ∧
      ((st2.accounts b).cash = if chainFundingPayment S ii δ PL = 0 then (S.accounts b).cash
        else satSubI128 ((S.accounts b).cash) (chainFundingPayment S ii δ PL)) := by
  have hga : st.get_account b = some (st.accounts b) := by
    unfold SlabState.get_account
    rw [if_neg (by omega : ¬ POOL_ACCOUNTS ≤ b),
      if_pos (show (st.accounts b).active = true from by rw [haccb]; exact hact)]
  have hchain_st : linkChain (posNextF st) POOL_POSITIONS ((st.accounts b).position_head)
      = some PL := by
    rw [haccb]
    exact linkChain_congr _ _ _ _ _ hchain (fun v _ => posNextF_shape S st hsh v)
  have hfeq : PL.filter (fun i => (st.positions i).instrument_idx = ii)
      = PL.filter (fun i => (S.positions i).instrument_idx = ii) :=
    List.filter_congr (fun i _ => by rw [(hsh.1 i).2.1])
  have hpay : ((PL.filter (fun i => (st.positions i).instrument_idx = ii)).map
      (fun i => calculate_funding_payment (st.positions i).qty δ 0)).sum
      = chainFundingPayment S ii δ PL := by
    rw [hfeq]
    unfold chainFundingPayment
    refine congrArg List.sum (List.map_congr_left ?_)
    intro i _
    rw [(hsh.1 i).1]
  have hscan := fundingScanLoop_spec st ii δ POOL_POSITIONS ((st.accounts b).position_head)
    PL [] 0 hchain_st (by rw [hfeq]; simpa using hcap)
  have hscan2 : fundingScanLoop st ii δ (POOL_POSITIONS + 1) ((st.accounts b).position_head)
      [] 0 = some (PL.filter (fun i => (S.positions i).instrument_idx = ii),
        chainFundingPayment S ii δ PL) := by
    rw [hscan, hfeq]
    rw [hfeq] at hpay
    simp [hpay]
  have hmemuse : ∀ i ∈ PL, i < POOL_POSITIONS ∧ (st.positions i).used = true := by
    intro i hi
    obtain ⟨y, hy⟩ := linkChain_mem_dom _ _ _ _ hchain i hi
    unfold posNextF at hy
    cases hg : S.get_position i with
    | none => rw [hg] at hy; cases hy
    | some p0 =>
      obtain ⟨hv, hl, hu⟩ := get_position_some S i p0 hg
      refine ⟨hl, ?_⟩
      rw [(hsh.1 i).2.2.2, ← hv]
      exact hu
  obtain ⟨-, -, facc, -, -, fset⟩ := stampFold_facts nc
    (PL.filter (fun i => (S.positions i).instrument_idx = ii)) st
  by_cases hpz : chainFundingPayment S ii δ PL = 0
  · refine ⟨(PL.filter (fun i => (S.positions i).instrument_idx = ii)).foldl
      (fun s i => s.with_position i (fun p => { p with last_funding := nc })) st,
      ?_, ?_, ?_⟩
    · unfold applyFundingAccount
      simp only [hga, hscan2]
      simp [hpz]
    · intro i hi hm
      exact fset i (List.mem_filter.mpr ⟨hi, by simp [hm]⟩) (hmemuse i hi).1
        (hmemuse i hi).2
    · rw [congrFun facc b, haccb, if_pos hpz]
  · refine ⟨((PL.filter (fun i => (S.positions i).instrument_idx = ii)).foldl
      (fun s i => s.with_position i (fun p => { p with last_funding := nc })) st).with_account
        b (fun a => { a with cash := satSubI128 a.cash (chainFundingPayment S ii δ PL) }),
      ?_, ?_, ?_⟩
    · unfold applyFundingAccount
      simp only [hga, hscan2]
      simp [hpz]
    · intro i hi hm
      rw [with_account_positions]
      exact fset i (List.mem_filter.mpr ⟨hi, by simp [hm]⟩) (hmemuse i hi).1 (hmemuse i hi).2
    · rw [with_account_at _ _ _ hblt (by rw [congrFun facc b, haccb]; exact hact)]
      rw [if_neg hpz]
      simp only []
      rw [congrFun facc b, haccb]

/-- The account fold of `apply_funding_to_positions` propagates `none`. -/
theorem funding_fold_none (ii : Nat) (δ nc : Int) :
    ∀ L : List Nat, L.foldl (fun acc a => match acc with
      | none => none
      | some st => applyFundingAccount ii δ nc st a) none = none := by
  intro L
  induction L with
  | nil => rfl
  | cons a L ih =>
    simp only [List.foldl_cons]
    exact ih

/-- The account fold keeps the shape, keeps stamped positions stamped and
touches no account outside the processed list. -/
theorem funding_fold_pres (ii : Nat) (δ nc : Int) :
    ∀ (L : List Nat) (st S2 : SlabState),
      L.foldl (fun acc a => match acc with
        | none => none
        | some st => applyFundingAccount ii δ nc st a) (some st) = some S2 →
      FundingShape st S2 ∧
      (∀ i, (st.positions i).last_funding = nc → (S2.positions i).last_funding = nc) ∧
      (∀ c, c ∉ L → S2.accounts c = st.accounts c) ∧
      S2.instruments = st.instruments ∧
      S2.header = st.header := by
  intro L
  induction L with
  | nil =>
    intro st S2 h
    cases h
    exact ⟨FundingShape_refl _, fun i hh => hh, fun c _ => rfl, rfl, rfl⟩
  | cons a L ih =>
    intro st S2 h
    simp only [List.foldl_cons] at h
    cases happ : applyFundingAccount ii δ nc st a with
    | none =>
      rw [happ, funding_fold_none] at h
      cases h
    | some st1 =>
      rw [happ] at h
      obtain ⟨p1, p2, p3, p4, p5⟩ := applyFundingAccount_pres ii a δ nc st st1 happ
      obtain ⟨q1, q2, q3, q4, q5⟩ := ih st1 S2 h
      refine ⟨FundingShape_trans _ _ _ p1 q1, fun i hh => q2 i (p2 i hh), ?_,
        q4.trans p4, q5.trans p5⟩
      intro c hc
      rw [q3 c (fun hm => hc (List.mem_cons_of_mem _ hm)),
        p3 c (fun he => hc (he ▸ List.mem_cons_self _ _))]

/-- The account fold settles the target account exactly once: its chain's
matching positions are stamped and its cash debited by the chain
payment. -/
theorem funding_fold_target (S : SlabState) (ii b : Nat) (δ nc : Int) (PL : List Nat)
    (hblt : b < POOL_ACCOUNTS)
    (hact : (S.accounts b).active = true)
    (hchain : linkChain (posNextF S) POOL_POSITIONS ((S.accounts b).position_head) = some PL)
    (hcap : (PL.filter (fun i => (S.positions i).instrument_idx = ii)).length ≤ 32) :
    ∀ (L : List Nat) (st : SlabState), L.Nodup → b ∈ L →
      FundingShape S st → st.accounts b = S.accounts b →
      ∀ S2, L.foldl (fun acc a => match acc with
        | none => none
        | some st => applyFundingAccount ii δ nc st a) (some st) = some S2 →
      (∀ i ∈ PL, (S.positions i).instrument_idx = ii →
        (S2.positions i).last_funding = nc) ∧
      ((S2.accounts b).cash = if chainFundingPayment S ii δ PL = 0 then (S.accounts b).cash
        else satSubI128 ((S.accounts b).cash) (chainFundingPayment S ii δ PL)) := by
  intro L
  induction L with
  | nil =>
    intro st _ hb
    cases hb
  | cons a L ih =>
    intro st hnd hb hsh haccb S2 h
    simp only [List.foldl_cons] at h
    by_cases hab : b = a
    · subst hab
      obtain ⟨st2, happ, hstamps, hcash⟩ :=
        applyFundingAccount_target S st hsh ii b δ nc PL haccb hblt hact hchain hcap
      rw [happ] at h
      obtain ⟨-, q2, q3, -, -⟩ := funding_fold_pres ii δ nc L st2 S2 h
      refine ⟨fun i hi hm => q2 i (hstamps i hi hm), ?_⟩
      rw [q3 b (List.nodup_cons.mp hnd).1, hcash]
    · cases happ : applyFundingAccount ii δ nc st a with
      | none =>
        rw [happ, funding_fold_none] at h
        cases h
      | some st1 =>
        rw [happ] at h
        obtain ⟨p1, -, p3, -, -⟩ := applyFundingAccount_pres ii a δ nc st st1 happ
        exact ih st1 (List.nodup_cons.mp hnd).2 ((List.mem_cons.mp hb).resolve_left hab)
          (FundingShape_trans _ _ _ hsh p1) (by rw [p3 b hab]; exact haccb) S2 h

/-- The computed funding rate is nonnegative when the mark is at or above
the index. -/
theorem calculate_funding_rate_nonneg (mark index dt : Nat) (hmi : index ≤ mark) :
    0 ≤ calculate_funding_rate mark index dt := by
  simp only [calculate_funding_rate]
  split
  · exact le_refl 0
  · refine Int.tdiv_nonneg (mul_nonneg (Int.tdiv_nonneg (Int.tdiv_nonneg
      (mul_nonneg ?_ (by norm_num)) (by positivity)) (by norm_num))
      (Int.tdiv_nonneg (by positivity) (by norm_num))) (by norm_num)
    exact Int.sub_nonneg.mpr (by exact_mod_cast hmi)

/-- A chain of long positions pays nonnegative funding when the delta is
nonnegative (longs are debited). -/
theorem chainFundingPayment_nonneg (s : SlabState) (ii : Nat) (δ : Int) (PL : List Nat)
    (hδ : 0 ≤ δ) (hq : ∀ i ∈ PL, 0 ≤ (s.positions i).qty) :
    0 ≤ chainFundingPayment s ii δ PL := by
  unfold chainFundingPayment
  refine List.sum_nonneg ?_
  intro x hx
  obtain ⟨i, hi, rfl⟩ := List.mem_map.mp hx
  have hiq : 0 ≤ (s.positions i).qty := hq i (List.mem_filter.mp hi).1
  simp only [calculate_funding_payment, sub_zero]
  exact Int.tdiv_nonneg (Int.tdiv_nonneg (mul_nonneg hiq hδ) (by norm_num)) (by norm_num)

/-- The sum of a list of nonpositive integers is nonpositive. -/
theorem list_sum_nonpos {l : List Int} (h : ∀ x ∈ l, x ≤ 0) : l.sum ≤ 0 := by
  induction l with
  | nil => simp
  | cons a l ih =>
    simp only [List.sum_cons]
    have h1 := h a (List.mem_cons_self _ _)
    have h2 := ih (fun x hx => h x (List.mem_cons_of_mem _ hx))
    omega

/-- Truncated division of a nonpositive value by a nonnegative one is
nonpositive. -/
theorem int_tdiv_nonpos (a b : Int) (ha : a ≤ 0) (hb : 0 ≤ b) : a.tdiv b ≤ 0 := by
  have h := Int.tdiv_nonneg (show (0:Int) ≤ -a by omega) hb
  rw [Int.neg_tdiv] at h
  omega

/-- A chain of short positions pays nonpositive funding when the delta is
nonnegative (shorts are credited). -/
theorem chainFundingPayment_nonpos (s : SlabState) (ii : Nat) (δ : Int) (PL : List Nat)
    (hδ : 0 ≤ δ) (hq : ∀ i ∈ PL, (s.positions i).qty ≤ 0) :
    chainFundingPayment s ii δ PL ≤ 0 := by
  unfold chainFundingPayment
  refine list_sum_nonpos ?_
  intro x hx
  obtain ⟨i, hi, rfl⟩ := List.mem_map.mp hx
  have hiq : (s.positions i).qty ≤ 0 := hq i (List.mem_filter.mp hi).1
  simp only [calculate_funding_payment, sub_zero]
  exact int_tdiv_nonpos _ _ (int_tdiv_nonpos _ _
    (mul_nonpos_of_nonpos_of_nonneg hiq hδ) (by norm_num)) (by norm_num)

/-- Claim C8 (amended): the funding update errors before one hour has
elapsed; on success the instrument's cumulative funding advances by the
computed rate, which is nonnegative (but possibly zero) when the mark is
at or above the index; the matching positions of every active account
whose chain holds at most 32 matching positions are stamped with the new
cumulative funding and the account's cash is debited by the chain's
total payment; that payment is nonnegative over long positions (a debit)
and nonpositive over short positions (a credit). -/
theorem c8_funding (S : SlabState) (ii index_price ts : Nat) (instr : Instrument)
    (hget : S.get_instrument ii = some instr) :
    (ts - instr.last_funding_ts < FUNDING_INTERVAL_MS →
      process_update_funding S ii index_price ts = some (.error .InvalidInstruction, S)) ∧
    (∀ S2, process_update_funding S ii index_price ts = some (.ok (), S2) →
      ((S2.instruments ii).cum_funding = instr.cum_funding +
        calculate_funding_rate ((S.header.mark_px % (U64MOD : Int)).toNat) index_price
          (ts - instr.last_funding_ts)) ∧
      (index_price ≤ (S.header.mark_px % (U64MOD : Int)).toNat →
        instr.cum_funding ≤ (S2.instruments ii).cum_funding) ∧
      (∀ b PL, b < S.header.account_count → b < POOL_ACCOUNTS →
        (S.accounts b).active = true →
        linkChain (posNextF S) POOL_POSITIONS ((S.accounts b).position_head) = some PL →
        (PL.filter (fun i => (S.positions i).instrument_idx = ii)).length ≤ 32 →
        (∀ i ∈ PL, (S.positions i).instrument_idx = ii →
          (S2.positions i).last_funding = instr.cum_funding +
            calculate_funding_rate ((S.header.mark_px % (U64MOD : Int)).toNat) index_price
              (ts - instr.last_funding_ts)) ∧
        ((S2.accounts b).cash =
          if chainFundingPayment S ii (calculate_funding_rate
              ((S.header.mark_px % (U64MOD : Int)).toNat) index_price
              (ts - instr.last_funding_ts)) PL = 0
          then (S.accounts b).cash
          else satSubI128 ((S.accounts b).cash)
            (chainFundingPayment S ii (calculate_funding_rate
              ((S.header.mark_px % (U64MOD : Int)).toNat) index_price
              (ts - instr.last_funding_ts)) PL)))) ∧
    (∀ δ PL, 0 ≤ δ → (∀ i ∈ PL, 0 ≤ (S.positions i).qty) →
      0 ≤ chainFundingPayment S ii δ PL) ∧
    (∀ δ PL, 0 ≤ δ → (∀ i ∈ PL, (S.positions i).qty ≤ 0) →
      chainFundingPayment S ii δ PL ≤ 0) := by
  obtain ⟨hival, hpool, hcnt⟩ := get_instrument_some S ii instr hget
  refine ⟨?_, ?_, fun δ PL hδ hq => chainFundingPayment_nonneg S ii δ PL hδ hq,
    fun δ PL hδ hq => chainFundingPayment_nonpos S ii δ PL hδ hq⟩
  · intro hlt
    unfold process_update_funding
    simp only [hget]
    rw [if_pos hlt]
  · intro S2 hsucc
    unfold process_update_funding at hsucc
    simp only [hget] at hsucc
    split at hsucc
    · exact absurd hsucc (by simp)
    · split at hsucc
      · exact absurd hsucc (by simp)
      · split at hsucc
        · cases hsucc
        · next s2 happ =>
          cases hsucc
          unfold apply_funding_to_positions at happ
          simp only [] at happ
          rw [with_instrument_header] at happ
          have hδeq : instr.cum_funding +
              calculate_funding_rate ((S.header.mark_px % (U64MOD : Int)).toNat) index_price
                (ts - instr.last_funding_ts) - instr.cum_funding =
              calculate_funding_rate ((S.header.mark_px % (U64MOD : Int)).toNat) index_price
                (ts - instr.last_funding_ts) := by ring
          rw [hδeq] at happ
          have hsh1 : FundingShape S (S.with_instrument ii (fun ins =>
              { ins with
                funding_rate := wrapI64 (calculate_funding_rate
                  ((S.header.mark_px % (U64MOD : Int)).toNat) index_price
                  (ts - instr.last_funding_ts)),
                cum_funding := instr.cum_funding + calculate_funding_rate
                  ((S.header.mark_px % (U64MOD : Int)).toNat) index_price
                  (ts - instr.last_funding_ts),
                index_price := index_price, last_funding_ts := ts })) :=
            FundingShape_of_eq _ _ (with_instrument_positions _ _ _)
              (with_instrument_accounts _ _ _)
          obtain ⟨-, -, -, hins2, -⟩ := funding_fold_pres _ _ _ _ _ _ happ
          have hcum : (s2.instruments ii).cum_funding = instr.cum_funding +
              calculate_funding_rate ((S.header.mark_px % (U64MOD : Int)).toNat) index_price
                (ts - instr.last_funding_ts) := by
            rw [hins2, with_instrument_at _ _ _ hpool hcnt]
          refine ⟨hcum, ?_, ?_⟩
          · intro hmi
            have hr := calculate_funding_rate_nonneg
              ((S.header.mark_px % (U64MOD : Int)).toNat) index_price
              (ts - instr.last_funding_ts) hmi
            show instr.cum_funding ≤ (s2.instruments ii).cum_funding
            rw [hcum]
            omega
          · intro b PL hbcnt hblt hact hchain hcap
            have htgt := funding_fold_target S ii b
              (calculate_funding_rate ((S.header.mark_px % (U64MOD : Int)).toNat) index_price
                (ts - instr.last_funding_ts))
              (instr.cum_funding + calculate_funding_rate
                ((S.header.mark_px % (U64MOD : Int)).toNat) index_price
                (ts - instr.last_funding_ts))
              PL hblt hact hchain hcap
              (List.range S.header.account_count) _ (List.nodup_range _)
              (List.mem_range.mpr hbcnt) hsh1
              (congrFun (with_instrument_accounts _ _ _) b) s2 happ
            exact ⟨fun i hi hm => htgt.1 i hi hm, htgt.2⟩

set_option maxRecDepth 10000 in
/-- Counterexample to C8 as stated: with the mark one tick above the
index the premium rounds to zero, the funding update succeeds but the
delta is zero and the cumulative funding does not strictly increase. -/
theorem c8_counterexample :
    (50000000000 : Nat) < (fundSTiny.header.mark_px % (U64MOD : Int)).toNat ∧
    calculate_funding_rate ((fundSTiny.header.mark_px % (U64MOD : Int)).toNat)
      50000000000 3600000 = 0 ∧
    process_update_funding fundSTiny 0 50000000000 3600000 = some (.ok (), fundCTiny) ∧
    (fundCTiny.instruments 0).cum_funding = (fundSTiny.instruments 0).cum_funding :=
  ⟨by decide, by decide, by rfl, by rfl⟩

set_option maxRecDepth 10000 in
/-- Witness for the amended C8 on the one-position funding book: the
early update errors, the one-hour update succeeds, advances the
cumulative funding by the computed rate 25, stamps the position, and the
cash debit rounds to zero. -/
theorem c8_witness :
    process_update_funding fundS 0 50000000000 100 =
      some (.error .InvalidInstruction, fundS) ∧
    process_update_funding fundS 0 50000000000 3600000 = some (.ok (), fundC) ∧
    (fundC.instruments 0).cum_funding = 25 ∧
    (fundC.positions 0).last_funding = 25 ∧
    (fundC.accounts 0).cash = (fundS.accounts 0).cash ∧
    calculate_funding_rate ((fundS.header.mark_px % (U64MOD : Int)).toNat)
      50000000000 3600000 = 25 := by
  have hgate := c8_funding fundS 0 50000000000 100 (fundS.instruments 0) (by rfl)
  have hmain := c8_funding fundS 0 50000000000 3600000 (fundS.instruments 0) (by rfl)
  have hsucc : process_update_funding fundS 0 50000000000 3600000 = some (.ok (), fundC) :=
    by rfl
  have hconj := hmain.2.1 fundC hsucc
  have hper := hconj.2.2 0 [0] (by decide) (by decide) (by decide) (by decide) (by decide)
  refine ⟨hgate.1 (by decide), hsucc, ?_, ?_, ?_, by decide⟩
  · rw [hconj.1]
    decide
  · rw [hper.1 0 (by decide) (by decide)]
    decide
  · rw [hper.2, if_pos (by decide)]

/-! ## Explicit forms of the slice and order mutators -/

/-- `with_slice` written as a record update when the guards pass. -/
theorem with_slice_eq (s : SlabState) (idx : Nat) (f : Slice → Slice)
    (hlt : idx < POOL_SLICES) (hu : (s.slices idx).used = true) :
    s.with_slice idx f =
      { s with slices := fun j => if j = idx then f (s.slices idx) else s.slices j } := by
  unfold SlabState.with_slice
  rw [if_neg (show ¬ POOL_SLICES ≤ idx by omega), if_pos hu]

/-- `with_order` written as a record update when the guards pass. -/
theorem with_order_eq (s : SlabState) (idx : Nat) (f : Order → Order)
    (hlt : idx < POOL_ORDERS) (hu : (s.orders idx).used = true) :
    s.with_order idx f =
      { s with orders := fun j => if j = idx then f (s.orders idx) else s.orders j } := by
  unfold SlabState.with_order
  rw [if_neg (show ¬ POOL_ORDERS ≤ idx by omega), if_pos hu]

/-- `with_reservation` written as a record update when the guards pass. -/
theorem with_reservation_eq (s : SlabState) (idx : Nat) (f : Reservation → Reservation)
    (hlt : idx < POOL_RESERVATIONS) (hu : (s.reservations idx).used = true) :
    s.with_reservation idx f =
      { s with reservations :=
          fun j => if j = idx then f (s.reservations idx) else s.reservations j } := by
  unfold SlabState.with_reservation
  rw [if_neg (show ¬ POOL_RESERVATIONS ≤ idx by omega), if_pos hu]

/-- Full characterization of a successful slice allocation. -/
theorem alloc_slice_full (S : SlabState) (idx : Nat) (s1 : SlabState)
    (h : S.alloc_slice = some (idx, s1)) :
    S.header.slice_freelist_head ≠ INVALID ∧
    idx = S.header.slice_freelist_head ∧
    s1 = { S with
      slices := fun j => if j = idx then
          { S.slices idx with used := true, index := idx }
        else S.slices j,
      header := { S.header with
        slice_freelist_head := (S.slices idx).index,
        slice_count := S.header.slice_count + 1 } } := by
  simp only [SlabState.alloc_slice] at h
  split at h
  · cases h
  · next hne =>
    cases h
    exact ⟨hne, rfl, rfl⟩

/-- The slice freelist step only reads the slice record of its node. -/
theorem sliceFreeF_congr_at (s s2 : SlabState) (v : Nat)
    (hsl : s2.slices v = s.slices v) : sliceFreeF s2 v = sliceFreeF s v := by
  unfold sliceFreeF
  rw [hsl]

/-- The order book step only reads the used flag and next link of its
node. -/
theorem orderNextF_congr_at (s s2 : SlabState) (v : Nat)
    (hu : (s2.orders v).used = (s.orders v).used)
    (hn : (s2.orders v).next = (s.orders v).next) :
    orderNextF s2 v = orderNextF s v := by
  unfold orderNextF SlabState.get_order
  by_cases h1 : POOL_ORDERS ≤ v
  · rw [if_pos h1, if_pos h1]
  · rw [if_neg h1, if_neg h1, hu]
    by_cases h2 : (s.orders v).used
    · rw [if_pos h2, if_pos h2]
      simp only [Option.map_some']
      rw [hn]
    · rw [if_neg h2, if_neg h2]

/-- A duplicate-free list of naturals below `n` has at most `n`
elements. -/
theorem nodup_lt_length_le (l : List Nat) (n : Nat) (hnd : l.Nodup)
    (hlt : ∀ x ∈ l, x < n) : l.length ≤ n := by
  have h1 : l.toFinset.card = l.length := List.toFinset_card_of_nodup hnd
  have h2 : l.toFinset ⊆ Finset.range n := by
    intro x hx
    exact Finset.mem_range.mpr (hlt x (List.mem_toFinset.mp hx))
  have h3 := Finset.card_le_card h2
  rw [h1, Finset.card_range] at h3
  exact h3

/-- The linear scan of `range'` resolves to the first index satisfying
the predicate. -/
theorem find_range'_eq :
    ∀ (len start x : Nat) (p : Nat → Bool), start ≤ x → x < start + len → p x = true →
      (∀ j, start ≤ j → j < x → p j = false) →
      (List.range' start len).find? p = some x := by
  intro len
  induction len with
  | zero => intro start x p h1 h2 _ _; exact absurd h2 (by omega)
  | succ n ih =>
    intro start x p h1 h2 h3 h4
    rw [List.range'_succ]
    by_cases hx : start = x
    · subst hx
      rw [List.find?_cons_of_pos _ h3]
    · have hps : p start = false := h4 start (le_refl _) (by omega)
      rw [List.find?_cons_of_neg _ (by simp [hps])]
      exact ih (start + 1) x p (by omega) (by omega) h3
        (fun j hj1 hj2 => h4 j (by omega) hj2)

/-- The linear scan of `range` resolves to the first index satisfying the
predicate. -/
theorem find_range_eq (N x : Nat) (p : Nat → Bool) (hx : x < N) (hpx : p x = true)
    (hbelow : ∀ j, j < x → p j = false) : (List.range N).find? p = some x := by
  rw [List.range_eq_range']
  exact find_range'_eq N 0 x p (Nat.zero_le _) (by omega) hpx
    (fun j _ hj => hbelow j hj)

/-- A pointwise description of slice records that link successive trace
slices reads back as that chain. -/
theorem chain_of_records (s : SlabState) :
    ∀ (tr : List WalkStep),
      (∀ k (hk : k < tr.length),
        (tr.get ⟨k, hk⟩).sidx < POOL_SLICES ∧
        (s.slices (tr.get ⟨k, hk⟩).sidx).used = true ∧
        (s.slices (tr.get ⟨k, hk⟩).sidx).next =
          ((tr.map (fun e => e.sidx)).drop (k + 1)).headD INVALID) →
      ∀ fuel, tr.length ≤ fuel →
        linkChain (sliceNextF s) fuel ((tr.map (fun e => e.sidx)).headD INVALID) =
          some (tr.map (fun e => e.sidx)) := by
  intro tr
  induction tr with
  | nil =>
    intro _ fuel _
    cases fuel with
    | zero => simp [linkChain]
    | succ n => simp [linkChain]
  | cons e tr ih =>
    intro hrec fuel hlen
    obtain ⟨f, rfl⟩ : ∃ f, fuel = f + 1 := ⟨fuel - 1, by simp at hlen; omega⟩
    obtain ⟨hlt0, hused0, hnext0⟩ := hrec 0 (by simp)
    have hlt0' : e.sidx < POOL_SLICES := hlt0
    have hused0' : (s.slices e.sidx).used = true := hused0
    have hnext0' : (s.slices e.sidx).next = (tr.map (fun e => e.sidx)).headD INVALID :=
      hnext0
    have hne : e.sidx ≠ INVALID := by
      intro hc
      rw [hc] at hlt0'
      exact absurd hlt0' (by decide)
    have hstep : sliceNextF s e.sidx = some ((s.slices e.sidx).next) := by
      unfold sliceNextF SlabState.get_slice
      rw [if_neg (show ¬ POOL_SLICES ≤ e.sidx from by omega)]
      rw [if_pos hused0']
      rfl
    simp only [List.map_cons, List.headD_cons, linkChain]
    rw [if_neg hne]
    simp only [hstep]
    cases tr with
    | nil =>
      have hnx : (s.slices e.sidx).next = INVALID := hnext0'
      rw [hnx]
      cases f with
      | zero => simp [linkChain]
      | succ f2 => simp [linkChain]
    | cons e2 tr2 =>
      have hnx : (s.slices e.sidx).next = e2.sidx := by
        rw [hnext0']
        simp
      rw [hnx]
      have hrec2 : ∀ k (hk : k < (e2 :: tr2).length),
          ((e2 :: tr2).get ⟨k, hk⟩).sidx < POOL_SLICES ∧
          (s.slices ((e2 :: tr2).get ⟨k, hk⟩).sidx).used = true ∧
          (s.slices ((e2 :: tr2).get ⟨k, hk⟩).sidx).next =
            (((e2 :: tr2).map (fun e => e.sidx)).drop (k + 1)).headD INVALID := by
        intro k hk
        exact hrec (k + 1) (by simp at hk ⊢; omega)
      have hih := ih hrec2 f (by simp at hlen ⊢; omega)
      simp only [List.map_cons, List.headD_cons] at hih
      rw [hih]
      rfl

/-- The release loop touches only the slice freelist head and the slice
count of the header. -/
theorem releaseSlicesLoop_header :
    ∀ (fuel : Nat) (s : SlabState) (idx : Nat) (s2 : SlabState),
      releaseSlicesLoop fuel s idx = some s2 →
      s2.header = { s.header with
        slice_freelist_head := s2.header.slice_freelist_head,
        slice_count := s2.header.slice_count } := by
  intro fuel
  induction fuel with
  | zero => intro s idx s2 h; cases h
  | succ fuel ih =>
    intro s idx s2 h
    simp only [releaseSlicesLoop] at h
    split at h
    · cases h; rfl
    · split at h
      · cases h; rfl
      · next sl hget =>
        have hrec := ih _ _ _ h
        have hstep : ∃ X Y, ((s.with_order sl.order_idx
            (fun o => { o with reserved_qty := o.reserved_qty - sl.qty })).free_slice
              idx).header
            = { s.header with slice_freelist_head := X, slice_count := Y } := by
          unfold SlabState.free_slice
          split
          · refine ⟨s.header.slice_freelist_head, s.header.slice_count, ?_⟩
            rw [with_order_header]
          · split
            · refine ⟨s.header.slice_freelist_head, s.header.slice_count, ?_⟩
              rw [with_order_header]
            · refine ⟨idx, s.header.slice_count - 1, ?_⟩
              rw [show ({ (s.with_order sl.order_idx
                  (fun o => { o with reserved_qty := o.reserved_qty - sl.qty })) with
                  slices := fun j => if j = idx then
                      { (s.with_order sl.order_idx
                        (fun o => { o with
                          reserved_qty := o.reserved_qty - sl.qty })).slices idx with
                        used := false,
                        index := (s.with_order sl.order_idx
                          (fun o => { o with
                            reserved_qty := o.reserved_qty - sl.qty })).header.slice_freelist_head }
                    else (s.with_order sl.order_idx
                      (fun o => { o with reserved_qty := o.reserved_qty - sl.qty })).slices j,
                  header := { (s.with_order sl.order_idx
                    (fun o => { o with
                      reserved_qty := o.reserved_qty - sl.qty })).header with
                    slice_freelist_head := idx,
                    slice_count := (s.with_order sl.order_idx
                      (fun o => { o with
                        reserved_qty := o.reserved_qty - sl.qty })).header.slice_count - 1 } }
                  : SlabState).header
                = { (s.with_order sl.order_idx
                    (fun o => { o with
                      reserved_qty := o.reserved_qty - sl.qty })).header with
                    slice_freelist_head := idx,
                    slice_count := (s.with_order sl.order_idx
                      (fun o => { o with
                        reserved_qty := o.reserved_qty - sl.qty })).header.slice_count - 1 }
                from rfl]
              rw [with_order_header]
        obtain ⟨X, Y, hXY⟩ := hstep
        rw [hXY] at hrec
        exact hrec

/-- `release_slices` touches only the slice freelist head and the slice
count of the header. -/
theorem release_slices_header (s : SlabState) (head : Nat) (s2 : SlabState)
    (h : release_slices s head = some s2) :
    s2.header = { s.header with
      slice_freelist_head := s2.header.slice_freelist_head,
      slice_count := s2.header.slice_count } := by
  unfold release_slices at h
  exact releaseSlicesLoop_header _ _ _ _ h

/-- `subRes` on an in-range used order: the record changes only in
`reserved_qty`, by exactly the chain's reserved quantity. -/
theorem subRes_eq_update (s : SlabState) :
    ∀ (RL : List Nat) (od : Nat → Order) (j : Nat), j < POOL_ORDERS → (od j).used = true →
      subRes s RL od j =
        { od j with reserved_qty := (od j).reserved_qty - chainReservedSum s RL j } := by
  intro RL
  induction RL with
  | nil =>
    intro od j _ _
    show od j = _
    rw [show chainReservedSum s [] j = 0 from rfl, Nat.sub_zero]
  | cons i RL ih =>
    intro od j hj hu
    obtain ⟨-, hu1⟩ := subResStep_qty_used s od i j
    have hstep := ih (subResStep s od i) j hj (by rw [hu1]; exact hu)
    rw [show subRes s (i :: RL) od = subRes s RL (subResStep s od i) from rfl, hstep]
    by_cases htar : (s.slices i).order_idx = j
    · have hso : subResStep s od i j =
          { od j with reserved_qty := (od j).reserved_qty - (s.slices i).qty } := by
        simp only [subResStep]
        rw [htar]
        simp [show ¬ POOL_ORDERS ≤ j by omega, hu]
      have hsum : chainReservedSum s (i :: RL) j =
          (s.slices i).qty + chainReservedSum s RL j := by
        simp [chainReservedSum, htar]
      rw [hso, hsum]
      show ({ od j with
        reserved_qty := ((od j).reserved_qty - (s.slices i).qty) - chainReservedSum s RL j }
          : Order) = _
      rw [Nat.sub_sub]
    · have hso : subResStep s od i j = od j := by
        simp only [subResStep]
        by_cases h1 : POOL_ORDERS ≤ (s.slices i).order_idx
        · simp [h1]
        · by_cases h2 : (od (s.slices i).order_idx).used
          · simp [h1, h2]
            intro hc
            exact absurd hc.symm htar
          · simp [h1, h2]
      have hsum : chainReservedSum s (i :: RL) j = chainReservedSum s RL j := by
        simp [chainReservedSum, htar]
      rw [hso, hsum]

/-- `subRes` leaves unused and out-of-range order slots untouched. -/
theorem subRes_unused (s : SlabState) :
    ∀ (RL : List Nat) (od : Nat → Order) (j : Nat),
      (od j).used = false ∨ POOL_ORDERS ≤ j → subRes s RL od j = od j := by
  intro RL
  induction RL with
  | nil => intro od j _; rfl
  | cons i RL ih =>
    intro od j hj
    have hso : subResStep s od i j = od j := by
      simp only [subResStep]
      by_cases h1 : POOL_ORDERS ≤ (s.slices i).order_idx
      · simp [h1]
      · by_cases h2 : (od (s.slices i).order_idx).used
        · have hne : j ≠ (s.slices i).order_idx := by
            intro hc
            rcases hj with hju | hjp
            · rw [← hc] at h2
              rw [hju] at h2
              cases h2
            · exact h1 (hc ▸ hjp)
          simp [h1, h2]
          intro hc
          exact absurd hc hne
        · simp [h1, h2]
    have hrec := ih (subResStep s od i) j (by
      rcases hj with hju | hjp
      · exact Or.inl (by rw [hso]; exact hju)
      · exact Or.inr hjp)
    rw [show subRes s (i :: RL) od = subRes s RL (subResStep s od i) from rfl, hrec, hso]

/-- Under a pointwise description of the chain's slice records, the
chain's reserved quantity against an order equals the trace's. -/
theorem chainReservedSum_of_records (s2 : SlabState) :
    ∀ (tr : List WalkStep),
      (∀ e ∈ tr, (s2.slices e.sidx).order_idx = e.oidx ∧ (s2.slices e.sidx).qty = e.take) →
      ∀ j, chainReservedSum s2 (tr.map (fun e => e.sidx)) j = stepsReservedAt tr j := by
  intro tr
  induction tr with
  | nil => intro _ j; rfl
  | cons e tr ih =>
    intro hrec j
    obtain ⟨ho, hq⟩ := hrec e (List.mem_cons_self _ _)
    have htail := ih (fun x hx => hrec x (List.mem_cons_of_mem _ hx)) j
    simp only [chainReservedSum, stepsReservedAt] at htail ⊢
    simp only [List.map_cons]
    by_cases hj : e.oidx = j
    · rw [List.filter_cons_of_pos (by simp [ho, hj]),
        List.filter_cons_of_pos (by simp [hj])]
      simp only [List.map_cons, List.sum_cons]
      rw [hq]
      omega
    · rw [List.filter_cons_of_neg (by simp [ho, hj]),
        List.filter_cons_of_neg (by simp [hj])]
      exact htail

/-- A trace that never touches order `j` reserves nothing against it. -/
theorem stepsReservedAt_zero (tr : List WalkStep) (j : Nat)
    (h : ∀ e ∈ tr, e.oidx ≠ j) : stepsReservedAt tr j = 0 := by
  induction tr with
  | nil => rfl
  | cons e tr ih =>
    have hne := h e (List.mem_cons_self _ _)
    simp only [stepsReservedAt] at ih ⊢
    rw [List.filter_cons_of_neg (by simp [hne])]
    exact ih (fun x hx => h x (List.mem_cons_of_mem _ hx))

/-- `with_slice` changes only the slice pool: orders. -/
theorem with_slice_orders (s : SlabState) (idx : Nat) (f : Slice → Slice) :
    (s.with_slice idx f).orders = s.orders := by
  unfold SlabState.with_slice
  repeat' split
  all_goals rfl

/-- `with_slice` changes only the slice pool: positions. -/
theorem with_slice_positions (s : SlabState) (idx : Nat) (f : Slice → Slice) :
    (s.with_slice idx f).positions = s.positions := by
  unfold SlabState.with_slice
  repeat' split
  all_goals rfl

/-- `with_slice` changes only the slice pool: accounts. -/
theorem with_slice_accounts (s : SlabState) (idx : Nat) (f : Slice → Slice) :
    (s.with_slice idx f).accounts = s.accounts := by
  unfold SlabState.with_slice
  repeat' split
  all_goals rfl

/-- `with_slice` changes only the slice pool: instruments. -/
theorem with_slice_instruments (s : SlabState) (idx : Nat) (f : Slice → Slice) :
    (s.with_slice idx f).instruments = s.instruments := by
  unfold SlabState.with_slice
  repeat' split
  all_goals rfl

/-- `with_slice` changes only the slice pool: header. -/
theorem with_slice_header (s : SlabState) (idx : Nat) (f : Slice → Slice) :
    (s.with_slice idx f).header = s.header := by
  unfold SlabState.with_slice
  repeat' split
  all_goals rfl

/-- `with_slice` at the written index when the guards pass. -/
theorem with_slice_at (s : SlabState) (idx : Nat) (f : Slice → Slice)
    (hlt : idx < POOL_SLICES) (hu : (s.slices idx).used = true) :
    (s.with_slice idx f).slices idx = f (s.slices idx) := by
  rw [with_slice_eq s idx f hlt hu]
  simp

/-- `with_slice` leaves every other slice record untouched. -/
theorem with_slice_at_ne (s : SlabState) (idx : Nat) (f : Slice → Slice) (v : Nat)
    (hne : v ≠ idx) : (s.with_slice idx f).slices v = s.slices v := by
  unfold SlabState.with_slice
  split
  · rfl
  · split
    · simp [hne]
    · rfl

/-- `with_order` at the written index when the guards pass. -/
theorem with_order_at (s : SlabState) (idx : Nat) (f : Order → Order)
    (hlt : idx < POOL_ORDERS) (hu : (s.orders idx).used = true) :
    (s.with_order idx f).orders idx = f (s.orders idx) := by
  rw [with_order_eq s idx f hlt hu]
  simp

/-- `with_order` leaves every other order record untouched. -/
theorem with_order_at_ne (s : SlabState) (idx : Nat) (f : Order → Order) (v : Nat)
    (hne : v ≠ idx) : (s.with_order idx f).orders v = s.orders v := by
  unfold SlabState.with_order
  split
  · rfl
  · split
    · simp [hne]
    · rfl

/-- One-step unfolding of a trace's total quantity. -/
theorem stepsQty_cons (a b c d : Nat) (tr : List WalkStep) :
    stepsQty (({ sidx := a, oidx := b, take := c, price := d } : WalkStep) :: tr) =
      c + stepsQty tr := by
  simp [stepsQty]

/-- One-step unfolding of a trace's total notional. -/
theorem stepsNotional_cons (a b c d : Nat) (tr : List WalkStep) :
    stepsNotional (({ sidx := a, oidx := b, take := c, price := d } : WalkStep) :: tr) =
      c * d + stepsNotional tr := by
  simp [stepsNotional]

/-- One-step unfolding of a trace's reserved quantity against an
order. -/
theorem stepsReservedAt_cons (a b c d : Nat) (tr : List WalkStep) (j : Nat) :
    stepsReservedAt (({ sidx := a, oidx := b, take := c, price := d } : WalkStep) :: tr) j =
      (if b = j then c else 0) + stepsReservedAt tr j := by
  simp only [stepsReservedAt]
  by_cases hj : b = j
  · rw [List.filter_cons_of_pos (by simp [hj])]
    simp [hj]
  · rw [List.filter_cons_of_neg (by simp [hj])]
    simp [hj]

/-- Full characterization of one locking step of the reserve walk:
allocate a slice, write its record, link the previous slice when the
chain already has a head, and bump the maker's reserved quantity. -/
theorem walk_step_facts (s s1 : SlabState) (w oi ps sh tk : Nat) (order : Order)
    (hord : s.get_order oi = some order)
    (halloc : s.alloc_slice = some (w, s1))
    (hwlt : w < POOL_SLICES)
    (hpslt : sh ≠ INVALID → ps < POOL_SLICES ∧ (s.slices ps).used = true ∧ ps ≠ w)
    (s4 : SlabState)
    (hs4 : s4 = (if sh = INVALID then
        s1.with_slice w (fun sl => { sl with order_idx := oi, qty := tk, next := INVALID })
      else (s1.with_slice w
          (fun sl =>
            { sl with order_idx := oi, qty := tk, next := INVALID })).with_slice ps
          (fun sl => { sl with next := w })).with_order oi
        (fun o => { o with reserved_qty := o.reserved_qty + tk })) :
    (s4.orders oi = { s.orders oi with
        reserved_qty := (s.orders oi).reserved_qty + tk }) ∧
    (∀ j, j ≠ oi → s4.orders j = s.orders j) ∧
    s4.slices w = { order_idx := oi, qty := tk, next := INVALID, index := w, used := true } ∧
    (∀ v, v ≠ w → v ≠ ps → s4.slices v = s.slices v) ∧
    (sh = INVALID → ∀ v, v ≠ w → s4.slices v = s.slices v) ∧
    (sh ≠ INVALID → s4.slices ps = { s.slices ps with next := w }) ∧
    s4.header = { s.header with
      slice_freelist_head := (s.slices w).index,
      slice_count := s.header.slice_count + 1 } ∧
    s4.positions = s.positions ∧ s4.accounts = s.accounts ∧
    s4.instruments = s.instruments ∧ s4.reservations = s.reservations ∧
    s4.get_order oi = some { order with reserved_qty := order.reserved_qty + tk } := by
  obtain ⟨hfne, hwid, hs1⟩ := alloc_slice_full s w s1 halloc
  obtain ⟨ho_eq, hoi_lt, hou⟩ := get_order_some s oi order hord
  have h1sl : s1.slices w = { s.slices w with used := true, index := w } := by
    rw [hs1]
    simp
  have h1sl' : ∀ v, v ≠ w → s1.slices v = s.slices v := by
    intro v hv
    rw [hs1]
    simp [hv]
  have h1or : s1.orders = s.orders := by rw [hs1]
  have h1hd : s1.header = { s.header with
      slice_freelist_head := (s.slices w).index,
      slice_count := s.header.slice_count + 1 } := by rw [hs1]
  have h1pos : s1.positions = s.positions := by rw [hs1]
  have h1acc : s1.accounts = s.accounts := by rw [hs1]
  have h1ins : s1.instruments = s.instruments := by rw [hs1]
  have h1res : s1.reservations = s.reservations := by rw [hs1]
  have hu1 : (s1.slices w).used = true := by rw [h1sl]
  subst hs4
  by_cases hsh : sh = INVALID
  · rw [if_pos hsh]
    have huA : ((s1.with_slice w (fun sl =>
        { sl with order_idx := oi, qty := tk, next := INVALID })).orders oi).used = true := by
      rw [with_slice_orders, h1or, ← ho_eq]
      exact hou
    refine ⟨?_, ?_, ?_, ?_, ?_, ?_, ?_, ?_, ?_, ?_, ?_, ?_⟩
    · rw [with_order_at _ _ _ hoi_lt huA, with_slice_orders, h1or]
    · intro j hj
      rw [with_order_at_ne _ _ _ _ hj, with_slice_orders, h1or]
    · rw [with_order_slices, with_slice_at _ _ _ hwlt hu1, h1sl]
    · intro v hv _
      rw [with_order_slices, with_slice_at_ne _ _ _ _ hv, h1sl' v hv]
    · intro _ v hv
      rw [with_order_slices, with_slice_at_ne _ _ _ _ hv, h1sl' v hv]
    · intro hc
      exact absurd hsh hc
    · rw [with_order_header, with_slice_header, h1hd]
    · rw [with_order_positions, with_slice_positions, h1pos]
    · rw [with_order_accounts, with_slice_accounts, h1acc]
    · rw [with_order_instruments, with_slice_instruments, h1ins]
    · rw [with_order_reservations, with_slice_reservations, h1res]
    · have hoo : ((s1.with_slice w (fun sl =>
          { sl with order_idx := oi, qty := tk, next := INVALID })).with_order oi
          (fun o => { o with reserved_qty := o.reserved_qty + tk })).orders oi
          = { s.orders oi with reserved_qty := (s.orders oi).reserved_qty + tk } := by
        rw [with_order_at _ _ _ hoi_lt huA, with_slice_orders, h1or]
      unfold SlabState.get_order
      rw [if_neg (show ¬ POOL_ORDERS ≤ oi by omega), hoo]
      rw [if_pos (show ({ s.orders oi with
          reserved_qty := (s.orders oi).reserved_qty + tk } : Order).used = true from by
        rw [show ({ s.orders oi with
            reserved_qty := (s.orders oi).reserved_qty + tk } : Order).used
          = (s.orders oi).used from rfl, ← ho_eq]
        exact hou)]
      rw [← ho_eq]
  · rw [if_neg hsh]
    obtain ⟨hpl, hpu, hpw⟩ := hpslt hsh
    have hwps : w ≠ ps := fun hc => hpw hc.symm
    have huB : (((s1.with_slice w (fun sl =>
        { sl with order_idx := oi, qty := tk, next := INVALID })).with_slice ps
        (fun sl => { sl with next := w })).orders oi).used = true := by
      rw [with_slice_orders, with_slice_orders, h1or, ← ho_eq]
      exact hou
    have hpsu : ((s1.with_slice w (fun sl =>
        { sl with order_idx := oi, qty := tk, next := INVALID })).slices ps).used = true := by
      rw [with_slice_at_ne _ _ _ _ hpw, h1sl' ps hpw]
      exact hpu
    refine ⟨?_, ?_, ?_, ?_, ?_, ?_, ?_, ?_, ?_, ?_, ?_, ?_⟩
    · rw [with_order_at _ _ _ hoi_lt huB, with_slice_orders, with_slice_orders, h1or]
    · intro j hj
      rw [with_order_at_ne _ _ _ _ hj, with_slice_orders, with_slice_orders, h1or]
    · rw [with_order_slices, with_slice_at_ne _ _ _ _ hwps, with_slice_at _ _ _ hwlt hu1,
        h1sl]
    · intro v hv hvps
      rw [with_order_slices, with_slice_at_ne _ _ _ _ hvps, with_slice_at_ne _ _ _ _ hv,
        h1sl' v hv]
    · intro hc
      exact absurd hc hsh
    · intro _
      rw [with_order_slices, with_slice_at _ _ _ hpl hpsu, with_slice_at_ne _ _ _ _ hpw,
        h1sl' ps hpw]
    · rw [with_order_header, with_slice_header, with_slice_header, h1hd]
    · rw [with_order_positions, with_slice_positions, with_slice_positions, h1pos]
    · rw [with_order_accounts, with_slice_accounts, with_slice_accounts, h1acc]
    · rw [with_order_instruments, with_slice_instruments, with_slice_instruments, h1ins]
    · rw [with_order_reservations, with_slice_reservations, with_slice_reservations, h1res]
    · have hoo : (((s1.with_slice w (fun sl =>
          { sl with order_idx := oi, qty := tk, next := INVALID })).with_slice ps
          (fun sl => { sl with next := w })).with_order oi
          (fun o => { o with reserved_qty := o.reserved_qty + tk })).orders oi
          = { s.orders oi with reserved_qty := (s.orders oi).reserved_qty + tk } := by
        rw [with_order_at _ _ _ hoi_lt huB, with_slice_orders, with_slice_orders, h1or]
      unfold SlabState.get_order
      rw [if_neg (show ¬ POOL_ORDERS ≤ oi by omega), hoo]
      rw [if_pos (show ({ s.orders oi with
          reserved_qty := (s.orders oi).reserved_qty + tk } : Order).used = true from by
        rw [show ({ s.orders oi with
            reserved_qty := (s.orders oi).reserved_qty + tk } : Order).used
          = (s.orders oi).used from rfl, ← ho_eq]
        exact hou)]
      rw [← ho_eq]

/-- The empty-trace instance of the walk postcondition, used by every
non-locking exit of the loop. -/
theorem walk_spec_nil (side : Side) (limit_px : Nat) (s : SlabState)
    (qr tq tn sh ps : Nat) (FL OL : List Nat) :
    ∃ tr : List WalkStep,
      tq = tq + stepsQty tr ∧
      stepsQty tr ≤ qr ∧
      tn = tn + stepsNotional tr ∧
      (∀ e ∈ tr, e.oidx ∈ OL ∧ e.oidx < POOL_ORDERS ∧
        (s.orders e.oidx).used = true ∧ e.price = (s.orders e.oidx).price ∧
        price_ok side limit_px e.price = true ∧ 0 < e.take) ∧
      (∃ t, FL = tr.map (fun e => e.sidx) ++ t) ∧
      (∀ j, s.orders j =
        { s.orders j with
          reserved_qty := (s.orders j).reserved_qty + stepsReservedAt tr j }) ∧
      (∀ w, w ∉ tr.map (fun e => e.sidx) → w ≠ ps → s.slices w = s.slices w) ∧
      (sh = INVALID → ∀ w, w ∉ tr.map (fun e => e.sidx) → s.slices w = s.slices w) ∧
      sh = (if sh = INVALID then (tr.map (fun e => e.sidx)).headD INVALID else sh) ∧
      (tr = [] → s = s) ∧
      (sh ≠ INVALID → tr ≠ [] →
        s.slices ps =
          { s.slices ps with next := (tr.map (fun e => e.sidx)).headD INVALID }) ∧
      (∀ k (hk : k < tr.length),
        s.slices (tr.get ⟨k, hk⟩).sidx =
          { order_idx := (tr.get ⟨k, hk⟩).oidx, qty := (tr.get ⟨k, hk⟩).take,
            next := ((tr.map (fun e => e.sidx)).drop (k + 1)).headD INVALID,
            index := (tr.get ⟨k, hk⟩).sidx, used := true }) ∧
      s.header.slice_count = s.header.slice_count + tr.length ∧
      s.header = { s.header with
        slice_freelist_head := s.header.slice_freelist_head,
        slice_count := s.header.slice_count } ∧
      s.positions = s.positions ∧ s.accounts = s.accounts ∧
      s.instruments = s.instruments ∧ s.reservations = s.reservations := by
  refine ⟨[], by simp [stepsQty], by simp [stepsQty], by simp [stepsNotional],
    (by intro e he; cases he), ⟨FL, rfl⟩, ?_, (fun w _ _ => rfl), (fun _ w _ => rfl),
    (by by_cases hsh : sh = INVALID <;> simp [hsh]), (fun _ => rfl),
    (fun _ hne => absurd rfl hne), (by intro k hk; simp at hk), (by simp), rfl, rfl, rfl,
    rfl, rfl⟩
  intro j
  rw [show stepsReservedAt ([] : List WalkStep) j = 0 from rfl, Nat.add_zero]

/-- Master characterization of the reserve walk on a well-formed slice
freelist and book list: a successful walk is described by a trace of
locking steps giving the totals, the price-gated contra-book makers, the
exact reserved-quantity bumps, the slice records written, the chain
head, and the header and pool frames. -/
theorem walkAndReserveLoop_spec (side : Side) (limit_px : Nat) :
    ∀ (fuel : Nat) (s : SlabState) (qr oi tq tn wp sh ps fFL fOL : Nat)
      (FL OL : List Nat) (tq2 tn2 wp2 sh2 : Nat) (s2 : SlabState),
      walkAndReserveLoop side limit_px fuel s qr oi tq tn wp sh ps =
        some (.ok (tq2, tn2, wp2, sh2), s2) →
      linkChain (sliceFreeF s) fFL s.header.slice_freelist_head = some FL →
      linkChain (orderNextF s) fOL oi = some OL →
      (sh ≠ INVALID → ps < POOL_SLICES ∧ (s.slices ps).used = true ∧ ps ∉ FL) →
      ∃ tr : List WalkStep,
        tq2 = tq + stepsQty tr ∧
        stepsQty tr ≤ qr ∧
        tn2 = tn + stepsNotional tr ∧
        (∀ e ∈ tr, e.oidx ∈ OL ∧ e.oidx < POOL_ORDERS ∧
          (s.orders e.oidx).used = true ∧ e.price = (s.orders e.oidx).price ∧
          price_ok side limit_px e.price = true ∧ 0 < e.take) ∧
        (∃ t, FL = tr.map (fun e => e.sidx) ++ t) ∧
        (∀ j, s2.orders j =
          { s.orders j with
            reserved_qty := (s.orders j).reserved_qty + stepsReservedAt tr j }) ∧
        (∀ w, w ∉ tr.map (fun e => e.sidx) → w ≠ ps → s2.slices w = s.slices w) ∧
        (sh = INVALID → ∀ w, w ∉ tr.map (fun e => e.sidx) → s2.slices w = s.slices w) ∧
        sh2 = (if sh = INVALID then (tr.map (fun e => e.sidx)).headD INVALID else sh) ∧
        (tr = [] → s2 = s) ∧
        (sh ≠ INVALID → tr ≠ [] →
          s2.slices ps =
            { s.slices ps with next := (tr.map (fun e => e.sidx)).headD INVALID }) ∧
        (∀ k (hk : k < tr.length),
          s2.slices (tr.get ⟨k, hk⟩).sidx =
            { order_idx := (tr.get ⟨k, hk⟩).oidx, qty := (tr.get ⟨k, hk⟩).take,
              next := ((tr.map (fun e => e.sidx)).drop (k + 1)).headD INVALID,
              index := (tr.get ⟨k, hk⟩).sidx, used := true }) ∧
        s2.header.slice_count = s.header.slice_count + tr.length ∧
        s2.header = { s.header with
          slice_freelist_head := s2.header.slice_freelist_head,
          slice_count := s2.header.slice_count } ∧
        s2.positions = s.positions ∧ s2.accounts = s.accounts ∧
        s2.instruments = s.instruments ∧ s2.reservations = s.reservations := by
  intro fuel
  induction fuel with
  | zero =>
    intro s qr oi tq tn wp sh ps fFL fOL FL OL tq2 tn2 wp2 sh2 s2 h _ _ _
    cases h
  | succ fuel ih =>
    intro s qr oi tq tn wp sh ps fFL fOL FL OL tq2 tn2 wp2 sh2 s2 h hFL hOL hps
    simp only [walkAndReserveLoop] at h
    split at h
    · cases h
      exact walk_spec_nil side limit_px s qr tq tn sh ps FL OL
    · next hstop =>
      have hqr : qr ≠ 0 := fun hq => hstop (Or.inl hq)
      have hoi : oi ≠ INVALID := fun hq => hstop (Or.inr hq)
      split at h
      · cases h
        exact walk_spec_nil side limit_px s qr tq tn sh ps FL OL
      · next order hord =>
        split at h
        · cases h
          exact walk_spec_nil side limit_px s qr tq tn sh ps FL OL
        · next hpo =>
          obtain ⟨fOLp, rfl⟩ : ∃ k, fOL = k + 1 := by
            cases fOL with
            | zero =>
              simp only [linkChain] at hOL
              rw [if_neg hoi] at hOL
              cases hOL
            | succ k => exact ⟨k, rfl⟩
          have hnextO : orderNextF s oi = some order.next := by
            unfold orderNextF
            rw [hord]
            rfl
          simp only [linkChain] at hOL
          rw [if_neg hoi] at hOL
          simp only [hnextO] at hOL
          obtain ⟨OL1, hOL1, hOLeq⟩ := Option.map_eq_some'.mp hOL
          split at h
          · -- zero available: skip to the next order in the book list
            obtain ⟨tr, H1, H2, H3, H4, H5, H6, H7, H8, H9, H10, H11, H12, H13, H14,
              H15, H16, H17, H18⟩ :=
              ih s qr order.next tq tn wp sh ps fFL fOLp FL OL1 tq2 tn2 wp2 sh2 s2 h
                hFL hOL1 hps
            refine ⟨tr, H1, H2, H3, ?_, H5, H6, H7, H8, H9, H10, H11, H12, H13, H14,
              H15, H16, H17, H18⟩
            intro e he
            obtain ⟨hmem, hrest⟩ := H4 e he
            exact ⟨hOLeq ▸ List.mem_cons_of_mem _ hmem, hrest⟩
          · next hav =>
            split at h
            · exact absurd h (by simp)
            · next slice_idx s1 halloc =>
              obtain ⟨ho_eq, hoi_lt, hou⟩ := get_order_some s oi order hord
              obtain ⟨hfne, hsid, -⟩ := alloc_slice_full s slice_idx s1 halloc
              subst hsid
              obtain ⟨fFLp, rfl⟩ : ∃ k, fFL = k + 1 := by
                cases fFL with
                | zero =>
                  simp only [linkChain] at hFL
                  rw [if_neg hfne] at hFL
                  cases hFL
                | succ k => exact ⟨k, rfl⟩
              simp only [linkChain] at hFL
              rw [if_neg hfne] at hFL
              cases hsf : sliceFreeF s s.header.slice_freelist_head with
              | none =>
                simp only [hsf] at hFL
                cases hFL
              | some fnxt =>
                simp only [hsf] at hFL
                obtain ⟨FL1, hFL1, hFLeq⟩ := Option.map_eq_some'.mp hFL
                obtain ⟨hwlt, hwunused, hfnxt⟩ :
                    s.header.slice_freelist_head < POOL_SLICES ∧
                    (s.slices s.header.slice_freelist_head).used = false ∧
                    fnxt = (s.slices s.header.slice_freelist_head).index := by
                  unfold sliceFreeF at hsf
                  split at hsf
                  · cases hsf
                  · next hle =>
                    split at hsf
                    · cases hsf
                    · next hus =>
                      cases hsf
                      exact ⟨by omega, by simpa using hus, rfl⟩
                subst hfnxt
                have hFLfull : linkChain (sliceFreeF s) (fFLp + 1)
                    s.header.slice_freelist_head
                    = some (s.header.slice_freelist_head :: FL1) := by
                  simp only [linkChain]
                  rw [if_neg hfne]
                  simp only [hsf, hFL1, Option.map_some']
                have hnodup := linkChain_nodup _ _ _ _ hFLfull
                have hWnotFL1 : s.header.slice_freelist_head ∉ FL1 :=
                  (List.nodup_cons.mp hnodup).1
                have hWFL : s.header.slice_freelist_head ∈ FL :=
                  hFLeq ▸ List.mem_cons_self _ _
                have hpsne : sh ≠ INVALID → ps ≠ s.header.slice_freelist_head :=
                  fun hsh hc => (hps hsh).2.2 (hc ▸ hWFL)
                obtain ⟨hORoi, hORne, hSLw, hSLv, hSLvI, hSLps, hHDR, hPOS, hACC,
                  hINS, hRES, hGO⟩ :=
                  walk_step_facts s s1 s.header.slice_freelist_head oi ps sh
                    (min (order.qty - order.reserved_qty) qr) order hord halloc hwlt
                    (fun hsh => ⟨(hps hsh).1, (hps hsh).2.1, hpsne hsh⟩) _ rfl
                have hTKpos : 0 < min (order.qty - order.reserved_qty) qr :=
                  Nat.lt_min.mpr ⟨Nat.pos_of_ne_zero hav, Nat.pos_of_ne_zero hqr⟩
                have hpok : price_ok side limit_px order.price = true := by
                  cases hpb : price_ok side limit_px order.price
                  · exact absurd hpb hpo
                  · rfl
                have hrec := ih _ _ _ _ _ _ _ _ fFLp fOLp FL1 OL1 _ _ _ _ _ h
                  (by
                    rw [hHDR]
                    refine linkChain_congr (sliceFreeF s) _ fFLp _ FL1 hFL1 ?_
                    intro v hv
                    have hvW : v ≠ s.header.slice_freelist_head :=
                      fun hc => hWnotFL1 (hc ▸ hv)
                    apply sliceFreeF_congr_at
                    by_cases hsh : sh = INVALID
                    · exact hSLvI hsh v hvW
                    · exact hSLv v hvW (fun hc => (hps hsh).2.2
                        (hc ▸ (hFLeq ▸ List.mem_cons_of_mem _ hv))))
                  (by
                    rw [hGO]
                    simp only [Option.map_some', Option.getD_some]
                    refine linkChain_congr (orderNextF s) _ fOLp _ OL1 hOL1 ?_
                    intro v _
                    apply orderNextF_congr_at
                    · by_cases hvoi : v = oi
                      · rw [hvoi, hORoi]
                      · rw [hORne v hvoi]
                    · by_cases hvoi : v = oi
                      · rw [hvoi, hORoi]
                      · rw [hORne v hvoi])
                  (by
                    intro _
                    refine ⟨hwlt, ?_, hWnotFL1⟩
                    rw [hSLw])
                obtain ⟨tr, H1, H2, H3, H4, H5, H6, H7, H8, H9, H10, H11, H12, H13,
                  H14, H15, H16, H17, H18⟩ := hrec
                have hshne : (if sh = INVALID then s.header.slice_freelist_head else sh)
                    ≠ INVALID := by
                  by_cases hsh : sh = INVALID
                  · rw [if_pos hsh]
                    intro hc
                    rw [hc] at hwlt
                    exact absurd hwlt (by decide)
                  · rw [if_neg hsh]
                    exact hsh
                rw [if_neg hshne] at H9
                have hALsub : ∀ x ∈ tr.map (fun e => e.sidx), x ∈ FL1 := by
                  obtain ⟨t, ht⟩ := H5
                  intro x hx
                  rw [ht]
                  exact List.mem_append_left _ hx
                refine ⟨⟨s.header.slice_freelist_head, oi,
                  min (order.qty - order.reserved_qty) qr, order.price⟩ :: tr,
                  ?_, ?_, ?_, ?_, ?_, ?_, ?_, ?_, ?_, ?_, ?_, ?_, ?_, ?_, ?_, ?_, ?_, ?_⟩
                · rw [stepsQty_cons]
                  omega
                · rw [stepsQty_cons]
                  omega
                · rw [stepsNotional_cons]
                  rw [hGO] at H3
                  simp only [Option.map_some', Option.getD_some] at H3
                  have hpr : ({ order with reserved_qty := order.reserved_qty + min (order.qty - order.reserved_qty) qr } : Order).price = order.price := rfl
                  rw [hpr] at H3
                  have hmu : mul_u64 (min (order.qty - order.reserved_qty) qr) order.price = min (order.qty - order.reserved_qty) qr * order.price := rfl
                  rw [hmu] at H3
                  omega
                · intro e he
                  rcases List.mem_cons.mp he with rfl | hmem
                  · exact ⟨hOLeq ▸ List.mem_cons_self _ _, hoi_lt, ho_eq ▸ hou,
                      congrArg Order.price ho_eq, hpok, hTKpos⟩
                  · obtain ⟨m1, m2, m3, m4, m5, m6⟩ := H4 e hmem
                    have hused : (s.orders e.oidx).used = true := by
                      by_cases hj : e.oidx = oi
                      · rw [hj] at m3 ⊢
                        rw [hORoi] at m3
                        exact m3
                      · rw [hORne e.oidx hj] at m3
                        exact m3
                    have hprice : e.price = (s.orders e.oidx).price := by
                      by_cases hj : e.oidx = oi
                      · rw [hj] at m4 ⊢
                        rw [hORoi] at m4
                        exact m4
                      · rw [hORne e.oidx hj] at m4
                        exact m4
                    exact ⟨hOLeq ▸ List.mem_cons_of_mem _ m1, m2, hused, hprice, m5, m6⟩
                · obtain ⟨t, ht⟩ := H5
                  refine ⟨t, ?_⟩
                  rw [← hFLeq, ht]
                  simp
                · intro j
                  by_cases hj : j = oi
                  · subst hj
                    have h6 := H6 j
                    rw [hORoi] at h6
                    rw [stepsReservedAt_cons]
                    rw [if_pos rfl]
                    refine h6.trans ?_
                    exact congrArg (fun v => { s.orders j with reserved_qty := v })
                      (show (s.orders j).reserved_qty +
                          min (order.qty - order.reserved_qty) qr +
                          stepsReservedAt tr j
                        = (s.orders j).reserved_qty +
                          (min (order.qty - order.reserved_qty) qr +
                            stepsReservedAt tr j) from by omega)
                  · have h6 := H6 j
                    rw [hORne j hj] at h6
                    rw [stepsReservedAt_cons]
                    rw [if_neg (fun hc => hj hc.symm)]
                    rw [Nat.zero_add]
                    exact h6
                · intro w hw1 hw2
                  simp only [List.map_cons] at hw1
                  have hwne : w ≠ s.header.slice_freelist_head := by
                    intro hc
                    exact hw1 (by rw [hc]; exact List.mem_cons_self _ _)
                  have hw3 : w ∉ tr.map (fun e => e.sidx) :=
                    fun hm => hw1 (List.mem_cons_of_mem _ hm)
                  rw [H7 w hw3 hwne]
                  by_cases hsh : sh = INVALID
                  · exact hSLvI hsh w hwne
                  · exact hSLv w hwne hw2
                · intro hsh w hw1
                  simp only [List.map_cons] at hw1
                  have hwne : w ≠ s.header.slice_freelist_head := by
                    intro hc
                    exact hw1 (by rw [hc]; exact List.mem_cons_self _ _)
                  have hw3 : w ∉ tr.map (fun e => e.sidx) :=
                    fun hm => hw1 (List.mem_cons_of_mem _ hm)
                  rw [H7 w hw3 hwne]
                  exact hSLvI hsh w hwne
                · rw [H9]
                  by_cases hsh : sh = INVALID
                  · simp [hsh]
                  · simp [hsh]
                · intro habs
                  exact absurd habs (by simp)
                · intro hsh htrne
                  have hpsnotAL : ps ∉ tr.map (fun e => e.sidx) :=
                    fun hm => (hps hsh).2.2
                      (hFLeq ▸ List.mem_cons_of_mem _ (hALsub _ hm))
                  rw [H7 ps hpsnotAL (hpsne hsh)]
                  rw [hSLps hsh]
                  simp
                · intro k hk
                  cases k with
                  | zero =>
                    by_cases htr : tr = []
                    · subst htr
                      rw [H10 rfl]
                      exact hSLw
                    · have hp := H11 hshne htr
                      have hcomb : s2.slices s.header.slice_freelist_head =
                          { order_idx := oi,
                            qty := min (order.qty - order.reserved_qty) qr,
                            next := (tr.map (fun e => e.sidx)).headD INVALID,
                            index := s.header.slice_freelist_head, used := true } := by
                        rw [hp, hSLw]
                      exact hcomb
                  | succ k =>
                    have hk' : k < tr.length := by
                      simp only [List.length_cons] at hk
                      omega
                    exact H12 k hk'
                · rw [hHDR] at H13
                  rw [show ({ s.header with
                      slice_freelist_head :=
                        (s.slices s.header.slice_freelist_head).index,
                      slice_count := s.header.slice_count + 1 } : SlabHeader).slice_count
                    = s.header.slice_count + 1 from rfl] at H13
                  simp only [List.length_cons]
                  omega
                · rw [hHDR] at H14
                  exact H14
                · exact H15.trans hPOS
                · exact H16.trans hACC
                · exact H17.trans hINS
                · exact H18.trans hRES

/-- `with_reservation` changes only the reservation pool: header. -/
theorem with_reservation_header (s : SlabState) (idx : Nat) (f : Reservation → Reservation) :
    (s.with_reservation idx f).header = s.header := by
  unfold SlabState.with_reservation
  repeat' split
  all_goals rfl

/-- `with_reservation` changes only the reservation pool: slices. -/
theorem with_reservation_slices (s : SlabState) (idx : Nat) (f : Reservation → Reservation) :
    (s.with_reservation idx f).slices = s.slices := by
  unfold SlabState.with_reservation
  repeat' split
  all_goals rfl

/-- `with_reservation` changes only the reservation pool: orders. -/
theorem with_reservation_orders (s : SlabState) (idx : Nat) (f : Reservation → Reservation) :
    (s.with_reservation idx f).orders = s.orders := by
  unfold SlabState.with_reservation
  repeat' split
  all_goals rfl

/-- `with_reservation` changes only the reservation pool: positions. -/
theorem with_reservation_positions (s : SlabState) (idx : Nat)
    (f : Reservation → Reservation) :
    (s.with_reservation idx f).positions = s.positions := by
  unfold SlabState.with_reservation
  repeat' split
  all_goals rfl

/-- `with_reservation` changes only the reservation pool: accounts. -/
theorem with_reservation_accounts (s : SlabState) (idx : Nat)
    (f : Reservation → Reservation) :
    (s.with_reservation idx f).accounts = s.accounts := by
  unfold SlabState.with_reservation
  repeat' split
  all_goals rfl

/-- `with_reservation` changes only the reservation pool: instruments. -/
theorem with_reservation_instruments (s : SlabState) (idx : Nat)
    (f : Reservation → Reservation) :
    (s.with_reservation idx f).instruments = s.instruments := by
  unfold SlabState.with_reservation
  repeat' split
  all_goals rfl

/-- Every node of a well-formed slice freelist is in range and free. -/
theorem sliceFree_facts (s : SlabState) (fuel head : Nat) (FL : List Nat)
    (hFL : linkChain (sliceFreeF s) fuel head = some FL) :
    ∀ x ∈ FL, x < POOL_SLICES ∧ (s.slices x).used = false := by
  intro x hx
  obtain ⟨y, hy⟩ := linkChain_mem_dom _ _ _ _ hFL x hx
  unfold sliceFreeF at hy
  split at hy
  · cases hy
  · next hle =>
    split at hy
    · cases hy
    · next hus =>
      exact ⟨by omega, by simpa using hus⟩

/-- Full characterization of a successful reserve: the walk is described
by a trace of locking steps, the returned totals, VWAP and max charge
are the trace's, the populated reservation heads a readable slice chain
recording exactly the trace, and only the documented header fields
move. -/
theorem process_reserve_spec (S : SlabState) (a ii : Nat) (side : Side)
    (qty limit ttl rid : Nat) (res : ReserveResult) (S2 : SlabState)
    (FL OL : List Nat) (hc : Nat)
    (hFL : linkChain (sliceFreeF S) (POOL_SLICES + 1) S.header.slice_freelist_head
      = some FL)
    (hbc : S.get_best_contra ii side = some hc)
    (hOL : linkChain (orderNextF S) (POOL_ORDERS + 1) hc = some OL)
    (hwfr : S.header.reservation_freelist_head ≠ INVALID →
      S.header.reservation_freelist_head < POOL_RESERVATIONS)
    (hsucc : process_reserve S a ii side qty limit ttl rid = some (.ok res, S2)) :
    ∃ tr : List WalkStep,
      res.hold_id = S.header.next_hold_id ∧
      res.filled_qty = stepsQty tr ∧
      0 < res.filled_qty ∧
      res.filled_qty ≤ qty ∧
      res.vwap_px = stepsNotional tr / res.filled_qty ∧
      res.max_charge = stepsNotional tr +
        stepsNotional tr * S.header.taker_fee_bps / 10000 ∧
      (∀ e ∈ tr, e.oidx ∈ OL ∧ e.oidx < POOL_ORDERS ∧
        (S.orders e.oidx).used = true ∧ e.price = (S.orders e.oidx).price ∧
        price_ok side limit e.price = true ∧ 0 < e.take) ∧
      (∃ t, FL = tr.map (fun e => e.sidx) ++ t) ∧
      tr.length ≤ POOL_SLICES ∧
      (∀ j, S2.orders j = { S.orders j with
        reserved_qty := (S.orders j).reserved_qty + stepsReservedAt tr j }) ∧
      (∀ w, w ∉ tr.map (fun e => e.sidx) → S2.slices w = S.slices w) ∧
      (∀ e ∈ tr, (S2.slices e.sidx).order_idx = e.oidx ∧
        (S2.slices e.sidx).qty = e.take ∧ (S2.slices e.sidx).used = true) ∧
      S.header.reservation_freelist_head < POOL_RESERVATIONS ∧
      (S2.reservations S.header.reservation_freelist_head).used = true ∧
      (S2.reservations S.header.reservation_freelist_head).hold_id
        = S.header.next_hold_id ∧
      (S2.reservations S.header.reservation_freelist_head).committed = false ∧
      (S2.reservations S.header.reservation_freelist_head).qty = res.filled_qty ∧
      (S2.reservations S.header.reservation_freelist_head).slice_head
        = (tr.map (fun e => e.sidx)).headD INVALID ∧
      (∀ j, j ≠ S.header.reservation_freelist_head →
        S2.reservations j = S.reservations j) ∧
      linkChain (sliceNextF S2) POOL_SLICES
        ((tr.map (fun e => e.sidx)).headD INVALID)
        = some (tr.map (fun e => e.sidx)) ∧
      S2.positions = S.positions ∧
      S2.accounts = S.accounts ∧
      S2.instruments = S.instruments ∧
      S2.header.seqno = (S.header.seqno + 1) % U32MOD ∧
      S2.header.next_hold_id = (S.header.next_hold_id + 1) % U64MOD ∧
      S2.header.reservation_freelist_head
        = (S.reservations S.header.reservation_freelist_head).index ∧
      S2.header.reservation_count = S.header.reservation_count + 1 ∧
      S2.header.slice_count = S.header.slice_count + tr.length ∧
      S2.header = { S.header with
        seqno := S2.header.seqno,
        next_hold_id := S2.header.next_hold_id,
        reservation_freelist_head := S2.header.reservation_freelist_head,
        reservation_count := S2.header.reservation_count,
        slice_freelist_head := S2.header.slice_freelist_head,
        slice_count := S2.header.slice_count } := by
  unfold process_reserve at hsucc
  split at hsucc
  · exact absurd hsucc (by simp)
  · split at hsucc
    · exact absurd hsucc (by simp)
    · split at hsucc
      · exact absurd hsucc (by simp)
      · split at hsucc
        · exact absurd hsucc (by simp)
        · next resv_idx s1 halloc =>
          obtain ⟨hrne, hrid, hs1⟩ := alloc_reservation_full S resv_idx s1 halloc
          have hRlt : S.header.reservation_freelist_head < POOL_RESERVATIONS :=
            hwfr hrne
          subst hrid
          subst hs1
          simp only [] at hsucc
          split at hsucc
          · cases hsucc
          · exact absurd hsucc (by simp)
          · next filled tn wp shead s3 hwalk =>
            split at hsucc
            · exact absurd hsucc (by simp)
            · next hfz =>
              cases hsucc
              unfold walk_and_reserve at hwalk
              split at hwalk
              · cases hwalk
                exact absurd rfl hfz
              · next idx hbc2 =>
                have hbceq : S.get_best_contra ii side = some idx := hbc2
                rw [hbc] at hbceq
                have hidx : hc = idx := Option.some_inj.mp hbceq
                subst hidx
                obtain ⟨tr, W1, W2, W3, W4, W5, W6, W7, W8, W9, W10, W11, W12, W13,
                  W14, W15, W16, W17, W18⟩ :=
                  walkAndReserveLoop_spec side limit (POOL_ORDERS + 1) _ qty hc 0 0 0
                    INVALID INVALID (POOL_SLICES + 1) (POOL_ORDERS + 1) FL OL
                    filled tn wp shead s3 hwalk hFL hOL (fun hcc => absurd rfl hcc)
                rw [if_pos rfl] at W9
                have hFLfacts := sliceFree_facts S (POOL_SLICES + 1)
                  S.header.slice_freelist_head FL hFL
                have hALsub : ∀ x ∈ tr.map (fun e => e.sidx), x ∈ FL := by
                  obtain ⟨t, ht⟩ := W5
                  intro x hx
                  rw [ht]
                  exact List.mem_append_left _ hx
                have hlentr : tr.length ≤ POOL_SLICES := by
                  obtain ⟨t, ht⟩ := W5
                  have hnd := linkChain_nodup _ _ _ _ hFL
                  have hFLlen : FL.length ≤ POOL_SLICES :=
                    nodup_lt_length_le FL POOL_SLICES hnd
                      (fun x hx => (hFLfacts x hx).1)
                  have : FL.length = tr.length + t.length := by
                    rw [ht]
                    simp
                  omega
                have hfpos : 0 < filled := Nat.pos_of_ne_zero hfz
                have hu3 : (s3.reservations S.header.reservation_freelist_head).used
                    = true := by
                  rw [W18]
                  simp
                have hmemrec : ∀ e ∈ tr, (s3.slices e.sidx).order_idx = e.oidx ∧
                    (s3.slices e.sidx).qty = e.take ∧
                    (s3.slices e.sidx).used = true := by
                  intro e he
                  obtain ⟨⟨n, hn⟩, hget⟩ := List.mem_iff_get.mp he
                  have h12 := W12 n hn
                  rw [hget] at h12
                  exact ⟨by rw [h12], by rw [h12], by rw [h12]⟩
                have hrecs : ∀ k (hk : k < tr.length),
                    (tr.get ⟨k, hk⟩).sidx < POOL_SLICES ∧
                    (s3.slices (tr.get ⟨k, hk⟩).sidx).used = true ∧
                    (s3.slices (tr.get ⟨k, hk⟩).sidx).next =
                      ((tr.map (fun e => e.sidx)).drop (k + 1)).headD INVALID := by
                  intro k hk
                  refine ⟨?_, ?_, ?_⟩
                  · exact (hFLfacts _ (hALsub _
                      (List.mem_map_of_mem _ (List.get_mem tr k hk)))).1
                  · rw [W12 k hk]
                  · rw [W12 k hk]
                have hchain3 : linkChain (sliceNextF s3) POOL_SLICES
                    ((tr.map (fun e => e.sidx)).headD INVALID)
                    = some (tr.map (fun e => e.sidx)) :=
                  chain_of_records s3 tr hrecs POOL_SLICES hlentr
                have hs3seq : s3.header.seqno = S.header.seqno := by rw [W14]
                have hs3nh : s3.header.next_hold_id
                    = (S.header.next_hold_id + 1) % U64MOD := by rw [W14]
                have hs3rfl : s3.header.reservation_freelist_head
                    = (S.reservations S.header.reservation_freelist_head).index := by
                  rw [W14]
                have hs3rc : s3.header.reservation_count
                    = S.header.reservation_count + 1 := by rw [W14]
                have hs3tf : s3.header.taker_fee_bps = S.header.taker_fee_bps := by
                  rw [W14]
                have hs3sc : s3.header.slice_count
                    = S.header.slice_count + tr.length := by
                  rw [W13]
                have hs3full : s3.header = { S.header with
                    next_hold_id := (S.header.next_hold_id + 1) % U64MOD,
                    reservation_freelist_head :=
                      (S.reservations S.header.reservation_freelist_head).index,
                    reservation_count := S.header.reservation_count + 1,
                    slice_freelist_head := s3.header.slice_freelist_head,
                    slice_count := s3.header.slice_count } := W14
                refine ⟨tr, rfl, ?_, hfpos, ?_, ?_, ?_, ?_, W5, hlentr, ?_, ?_, ?_,
                  hRlt, ?_, ?_, ?_, ?_, ?_, ?_, ?_, ?_, ?_, ?_, ?_, ?_, ?_, ?_, ?_, ?_⟩
                · show filled = stepsQty tr
                  omega
                · show filled ≤ qty
                  omega
                · show calculate_vwap tn filled = stepsNotional tr / filled
                  unfold calculate_vwap
                  rw [show tn = stepsNotional tr from by omega]
                · show tn + tn * s3.header.taker_fee_bps / 10000 =
                    stepsNotional tr + stepsNotional tr * S.header.taker_fee_bps / 10000
                  rw [hs3tf, show tn = stepsNotional tr from by omega]
                · exact W4
                · intro j
                  rw [with_reservation_eq _ _ _ hRlt hu3]
                  exact W6 j
                · intro w hw
                  rw [with_reservation_eq _ _ _ hRlt hu3]
                  exact W8 rfl w hw
                · intro e he
                  rw [with_reservation_eq _ _ _ hRlt hu3]
                  exact hmemrec e he
                · rw [with_reservation_eq _ _ _ hRlt hu3]
                  simp [hu3]
                · rw [with_reservation_eq _ _ _ hRlt hu3]
                  simp
                · rw [with_reservation_eq _ _ _ hRlt hu3]
                  simp
                · rw [with_reservation_eq _ _ _ hRlt hu3]
                  simp
                · rw [with_reservation_eq _ _ _ hRlt hu3]
                  simp [W9]
                · intro j hj
                  rw [with_reservation_eq _ _ _ hRlt hu3]
                  simp [hj]
                  rw [W18]
                  simp [hj]
                · rw [with_reservation_eq _ _ _ hRlt hu3]
                  refine linkChain_congr (sliceNextF s3) _ POOL_SLICES _ _ hchain3 ?_
                  intro v hv
                  apply sliceNextF_congr_at
                  rfl
                · rw [with_reservation_eq _ _ _ hRlt hu3]
                  exact W15
                · rw [with_reservation_eq _ _ _ hRlt hu3]
                  exact W16
                · rw [with_reservation_eq _ _ _ hRlt hu3]
                  exact W17
                · rw [with_reservation_eq _ _ _ hRlt hu3]
                  show (s3.header.seqno + 1) % U32MOD = (S.header.seqno + 1) % U32MOD
                  rw [hs3seq]
                · rw [with_reservation_eq _ _ _ hRlt hu3]
                  show s3.header.next_hold_id = (S.header.next_hold_id + 1) % U64MOD
                  exact hs3nh
                · rw [with_reservation_eq _ _ _ hRlt hu3]
                  show s3.header.reservation_freelist_head =
                    (S.reservations S.header.reservation_freelist_head).index
                  exact hs3rfl
                · rw [with_reservation_eq _ _ _ hRlt hu3]
                  show s3.header.reservation_count = S.header.reservation_count + 1
                  exact hs3rc
                · rw [with_reservation_eq _ _ _ hRlt hu3]
                  show s3.header.slice_count = S.header.slice_count + tr.length
                  exact hs3sc
                · rw [with_reservation_eq _ _ _ hRlt hu3]
                  simp only [SlabHeader.increment_seqno]
                  rw [hs3full]

/-- Claim C1 (amended): reserve postconditions on a well-formed book.
Given a well-formed slice freelist, a contra book list whose orders all
carry the contra side — an invariant the walk itself never checks — and
a sane reservation freelist head, a successful reserve populates a
reservation whose slice chain references only price-gated contra-side
maker orders, whose slice quantities sum to the returned `filled_qty`
(positive and at most the request), and whose `vwap_px` and `max_charge`
are total_notional / filled_qty and total_notional plus the taker fee,
with total_notional the chain's quantity-times-maker-price sum. -/
theorem c1_reserve_postconditions (S : SlabState) (a ii : Nat) (side : Side)
    (qty limit ttl rid : Nat) (res : ReserveResult) (S2 : SlabState)
    (FL OL : List Nat) (hc : Nat)
    (hFL : linkChain (sliceFreeF S) (POOL_SLICES + 1) S.header.slice_freelist_head
      = some FL)
    (hbc : S.get_best_contra ii side = some hc)
    (hOL : linkChain (orderNextF S) (POOL_ORDERS + 1) hc = some OL)
    (hside : ∀ j ∈ OL, (S.orders j).side = contraSide side)
    (hwfr : S.header.reservation_freelist_head ≠ INVALID →
      S.header.reservation_freelist_head < POOL_RESERVATIONS)
    (hsucc : process_reserve S a ii side qty limit ttl rid = some (.ok res, S2)) :
    ∃ AL : List Nat,
      (S2.reservations S.header.reservation_freelist_head).used = true ∧
      (S2.reservations S.header.reservation_freelist_head).hold_id = res.hold_id ∧
      (S2.reservations S.header.reservation_freelist_head).qty = res.filled_qty ∧
      linkChain (sliceNextF S2) (POOL_SLICES + 1)
        ((S2.reservations S.header.reservation_freelist_head).slice_head) = some AL ∧
      (∀ v ∈ AL, (S2.slices v).used = true ∧
        (S2.orders ((S2.slices v).order_idx)).side = contraSide side ∧
        price_ok side limit ((S2.orders ((S2.slices v).order_idx)).price) = true) ∧
      (AL.map (fun v => (S2.slices v).qty)).sum = res.filled_qty ∧
      0 < res.filled_qty ∧ res.filled_qty ≤ qty ∧
      res.vwap_px = chainNotional S2 AL / res.filled_qty ∧
      res.max_charge = chainNotional S2 AL +
        chainNotional S2 AL * S.header.taker_fee_bps / 10000 := by
  obtain ⟨tr, P1, P2, P3, P4, P5, P6, P7, P8, P9, P10, P11, P12, P13, P14, P15, P16,
    P17, P18, P19, P20, P21, P22, P23, P24, P25, P26, P27, P28, P29⟩ :=
    process_reserve_spec S a ii side qty limit ttl rid res S2 FL OL hc
      hFL hbc hOL hwfr hsucc
  have hnot : chainNotional S2 (tr.map (fun e => e.sidx)) = stepsNotional tr := by
    unfold chainNotional stepsNotional
    rw [List.map_map]
    refine congrArg List.sum (List.map_congr_left ?_)
    intro e he
    obtain ⟨ho, hq, hu⟩ := P12 e he
    obtain ⟨hmem, hlt, hused, hpr, hpok, htk⟩ := P7 e he
    show (S2.slices e.sidx).qty * (S2.orders ((S2.slices e.sidx).order_idx)).price
      = e.take * e.price
    rw [hq, ho, P10 e.oidx]
    exact congrArg (fun x => e.take * x) hpr.symm
  refine ⟨tr.map (fun e => e.sidx), P14, by rw [P15, P1], P17, ?_, ?_, ?_, P3, P4,
    ?_, ?_⟩
  · rw [P18]
    exact linkChain_fuel_mono _ POOL_SLICES (POOL_SLICES + 1) _ _ (by omega) P20
  · intro v hv
    obtain ⟨e, he, rfl⟩ := List.mem_map.mp hv
    obtain ⟨ho, hq, hu⟩ := P12 e he
    obtain ⟨hmem, hlt, hused, hpr, hpok, htk⟩ := P7 e he
    refine ⟨hu, ?_, ?_⟩
    · rw [ho, P10 e.oidx]
      exact hside e.oidx hmem
    · rw [ho, P10 e.oidx]
      exact hpr ▸ hpok
  · rw [P2, List.map_map]
    unfold stepsQty
    refine congrArg List.sum (List.map_congr_left ?_)
    intro e he
    exact (P12 e he).2.1
  · rw [P5, ← hnot]
  · rw [P6, ← hnot]

set_option maxRecDepth 10000 in
/-- Counterexample to C1 as stated: the reserve walk never checks the
maker's side flag, so on a book whose ask list holds a Buy-side order
the reserve succeeds and the reservation's slice references a same-side
maker, not a contra-side one. -/
theorem c1_counterexample :
    (∃ res, process_reserve bookWS 0 0 .Buy 5 100 1000 0 = some (.ok res, bookWSR)) ∧
    (bookWSR.reservations 0).used = true ∧
    (bookWSR.reservations 0).slice_head = 0 ∧
    (bookWSR.slices 0).order_idx = 0 ∧
    (bookWSR.orders 0).used = true ∧
    (bookWSR.orders 0).side = .Buy ∧
    contraSide .Buy = .Sell :=
  ⟨⟨⟨1, 100, 100, 5, 501, 1000, 0⟩, by rfl⟩, by decide, by decide, by decide,
    by decide, by decide, by decide⟩

set_option maxRecDepth 10000 in
/-- Witness for the amended C1 on the two-ask book: the Buy reserve of
25 at limit 102 fills 25 across the chain with both makers contra-side
and price-gated. -/
theorem c1_witness :
    ∃ AL : List Nat,
      (bookR.reservations 0).used = true ∧
      (bookR.reservations 0).hold_id = 1 ∧
      (bookR.reservations 0).qty = 25 ∧
      linkChain (sliceNextF bookR) (POOL_SLICES + 1) ((bookR.reservations 0).slice_head)
        = some AL ∧
      (∀ v ∈ AL, (bookR.slices v).used = true ∧
        (bookR.orders ((bookR.slices v).order_idx)).side = contraSide .Buy ∧
        price_ok .Buy 102 ((bookR.orders ((bookR.slices v).order_idx)).price) = true) ∧
      (AL.map (fun v => (bookR.slices v).qty)).sum = 25 := by
  obtain ⟨AL, h1, h2, h3, h4, h5, h6, h7, h8, h9, h10⟩ :=
    c1_reserve_postconditions bookS 0 0 .Buy 25 102 1000 0
      ⟨1, 100, 101, 25, 2520, 1000, 0⟩ bookR [0, 1, 2] [0, 1] 0
      (by decide) (by decide) (by decide) (by decide) (by decide) (by rfl)
  exact ⟨AL, h1, h2, h3, h4, h5, h6⟩

/-- Claim C4 (amended): reserve-then-cancel round trip on a well-formed
book.  Cancelling the fresh hold restores the order pool exactly (every
reserved-quantity bump is undone), leaves positions, accounts and
instruments untouched, restores every slice's used flag and the slice
and reservation pool counts, restores the reservation freelist head, and
frees the populated reservation; only the seqno (bumped twice), the
monotonic hold counter, and the slice-freelist head and link order
differ from the pre-reserve state. -/
theorem c4_reserve_cancel (S : SlabState) (a ii : Nat) (side : Side)
    (qty limit ttl rid : Nat) (res : ReserveResult) (S2 : SlabState)
    (FL OL : List Nat) (hc : Nat)
    (hFL : linkChain (sliceFreeF S) (POOL_SLICES + 1) S.header.slice_freelist_head
      = some FL)
    (hbc : S.get_best_contra ii side = some hc)
    (hOL : linkChain (orderNextF S) (POOL_ORDERS + 1) hc = some OL)
    (hwfr : S.header.reservation_freelist_head ≠ INVALID →
      S.header.reservation_freelist_head < POOL_RESERVATIONS)
    (huniq : ∀ j, j < POOL_RESERVATIONS → (S.reservations j).used = true →
      (S.reservations j).hold_id ≠ S.header.next_hold_id)
    (hsucc : process_reserve S a ii side qty limit ttl rid = some (.ok res, S2)) :
    ∃ Sf, process_cancel S2 res.hold_id = some (.ok (), Sf) ∧
      Sf.orders = S.orders ∧
      Sf.positions = S.positions ∧
      Sf.accounts = S.accounts ∧
      Sf.instruments = S.instruments ∧
      (∀ j, (Sf.slices j).used = (S.slices j).used) ∧
      (∀ j, j ≠ S.header.reservation_freelist_head →
        Sf.reservations j = S.reservations j) ∧
      (Sf.reservations S.header.reservation_freelist_head).used = false ∧
      Sf.header.seqno = ((S.header.seqno + 1) % U32MOD + 1) % U32MOD ∧
      Sf.header.next_hold_id = (S.header.next_hold_id + 1) % U64MOD ∧
      Sf.header.reservation_freelist_head = S.header.reservation_freelist_head ∧
      Sf.header.reservation_count = S.header.reservation_count ∧
      Sf.header.slice_count = S.header.slice_count ∧
      Sf.header.order_count = S.header.order_count ∧
      Sf.header = { S.header with
        seqno := Sf.header.seqno,
        next_hold_id := Sf.header.next_hold_id,
        slice_freelist_head := Sf.header.slice_freelist_head } := by
  obtain ⟨tr, P1, P2, P3, P4, P5, P6, P7, P8, P9, P10, P11, P12, P13, P14, P15, P16,
    P17, P18, P19, P20, P21, P22, P23, P24, P25, P26, P27, P28, P29⟩ :=
    process_reserve_spec S a ii side qty limit ttl rid res S2 FL OL hc
      hFL hbc hOL hwfr hsucc
  have hALsub : ∀ x ∈ tr.map (fun e => e.sidx), x ∈ FL := by
    obtain ⟨t, ht⟩ := P8
    intro x hx
    rw [ht]
    exact List.mem_append_left _ hx
  have hfind : S2.find_reservation_by_hold_id res.hold_id
      = some S.header.reservation_freelist_head := by
    unfold SlabState.find_reservation_by_hold_id
    refine find_range_eq POOL_RESERVATIONS _ _ P13 ?_ ?_
    · simp [P14, P15, P1]
    · intro j hj
      have hne : j ≠ S.header.reservation_freelist_head := by omega
      rw [P19 j hne]
      by_cases hu : (S.reservations j).used = true
      · have hneq := huniq j (by omega) hu
        simp [hu, P1, hneq]
      · cases hub : (S.reservations j).used
        · simp [hub]
        · exact absurd hub hu
  have hget : S2.get_reservation S.header.reservation_freelist_head
      = some (S2.reservations S.header.reservation_freelist_head) := by
    unfold SlabState.get_reservation
    rw [if_neg (show ¬ POOL_RESERVATIONS ≤ S.header.reservation_freelist_head by omega),
      if_pos P14]
  have hchainAt : linkChain (sliceNextF S2) POOL_SLICES
      ((S2.reservations S.header.reservation_freelist_head).slice_head)
      = some (tr.map (fun e => e.sidx)) := by
    rw [P18]
    exact P20
  obtain ⟨s2rel, hrel, hrel_orders, hrel_freed, hrel_off, hrel_pos, hrel_acc,
    hrel_ins, hrel_res, hrel_sc⟩ :=
    release_slices_spec S2
      ((S2.reservations S.header.reservation_freelist_head).slice_head)
      (tr.map (fun e => e.sidx)) hchainAt
  have hrel_hdr := release_slices_header S2
    ((S2.reservations S.header.reservation_freelist_head).slice_head) s2rel hrel
  have hufree : (s2rel.reservations S.header.reservation_freelist_head).used = true := by
    rw [hrel_res]
    exact P14
  have hfree := free_reservation_eq s2rel S.header.reservation_freelist_head P13 hufree
  refine ⟨{ s2rel.free_reservation S.header.reservation_freelist_head with header := (s2rel.free_reservation S.header.reservation_freelist_head).header.increment_seqno },
    ?_, ?_, ?_, ?_, ?_, ?_, ?_, ?_, ?_, ?_, ?_, ?_, ?_, ?_, ?_⟩
  · unfold process_cancel
    simp only [hfind, hget]
    rw [if_neg (show ¬ (S2.reservations
        S.header.reservation_freelist_head).committed = true by simp [P16])]
    simp only [hrel]
  · rw [hfree]
    show s2rel.orders = S.orders
    rw [hrel_orders]
    funext j
    by_cases hcase : (S.orders j).used = true ∧ j < POOL_ORDERS
    · obtain ⟨hu, hlt⟩ := hcase
      have hu2 : (S2.orders j).used = true := by
        rw [P10 j]
        exact hu
      rw [subRes_eq_update S2 (tr.map (fun e => e.sidx)) S2.orders j hlt hu2]
      rw [chainReservedSum_of_records S2 tr
        (fun e he => ⟨(P12 e he).1, (P12 e he).2.1⟩) j]
      rw [P10 j]
      exact Eq.trans (congrArg (fun v => { S.orders j with reserved_qty := v })
        (show (S.orders j).reserved_qty + stepsReservedAt tr j - stepsReservedAt tr j
          = (S.orders j).reserved_qty from by omega)) rfl
    · have hun : (S2.orders j).used = false ∨ POOL_ORDERS ≤ j := by
        by_cases hlt : j < POOL_ORDERS
        · left
          have hne : ¬ (S.orders j).used = true := fun hcc => hcase ⟨hcc, hlt⟩
          have : (S2.orders j).used = (S.orders j).used := by
            rw [P10 j]
          rw [this]
          cases hub : (S.orders j).used
          · rfl
          · exact absurd hub hne
        · right
          omega
      rw [subRes_unused S2 (tr.map (fun e => e.sidx)) S2.orders j hun]
      rw [P10 j]
      have hz : stepsReservedAt tr j = 0 := by
        refine stepsReservedAt_zero tr j ?_
        intro e he hcc
        obtain ⟨hmem, hlt, hused, hpr, hpok, htk⟩ := P7 e he
        rw [hcc] at hlt hused
        exact hcase ⟨hused, hlt⟩
      rw [hz, Nat.add_zero]
  · rw [hfree]
    show s2rel.positions = S.positions
    rw [hrel_pos]
    exact P21
  · rw [hfree]
    show s2rel.accounts = S.accounts
    rw [hrel_acc]
    exact P22
  · rw [hfree]
    show s2rel.instruments = S.instruments
    rw [hrel_ins]
    exact P23
  · intro j
    rw [hfree]
    show (s2rel.slices j).used = (S.slices j).used
    by_cases hj : j ∈ tr.map (fun e => e.sidx)
    · rw [hrel_freed j hj]
      exact (sliceFree_facts S (POOL_SLICES + 1) S.header.slice_freelist_head FL hFL
        j (hALsub j hj)).2.symm
    · rw [hrel_off j hj, P11 j hj]
  · intro j hj
    rw [hfree]
    simp [hj]
    rw [hrel_res, P19 j hj]
  · rw [hfree]
    simp
  · rw [hfree]
    show (s2rel.header.seqno + 1) % U32MOD = ((S.header.seqno + 1) % U32MOD + 1) % U32MOD
    have h1 : s2rel.header.seqno = S2.header.seqno := by rw [hrel_hdr]
    rw [h1, P24]
  · rw [hfree]
    show s2rel.header.next_hold_id = (S.header.next_hold_id + 1) % U64MOD
    have h1 : s2rel.header.next_hold_id = S2.header.next_hold_id := by rw [hrel_hdr]
    rw [h1, P25]
  · rw [hfree]
    rfl
  · rw [hfree]
    show s2rel.header.reservation_count - 1 = S.header.reservation_count
    have h1 : s2rel.header.reservation_count = S2.header.reservation_count := by
      rw [hrel_hdr]
    rw [h1, P27]
    omega
  · rw [hfree]
    show s2rel.header.slice_count = S.header.slice_count
    rw [hrel_sc, P28]
    simp
  · rw [hfree]
    show s2rel.header.order_count = S.header.order_count
    have h1 : s2rel.header.order_count = S2.header.order_count := by rw [hrel_hdr]
    have h2 : S2.header.order_count = S.header.order_count := by rw [P29]
    rw [h1, h2]
  · rw [hfree]
    simp only [SlabHeader.increment_seqno]
    rw [hrel_hdr, P29]
    ext
    case reservation_count =>
      show S2.header.reservation_count - 1 = S.header.reservation_count
      rw [P27]
      omega
    case slice_count =>
      show s2rel.header.slice_count = S.header.slice_count
      rw [hrel_sc, P28]
      simp
    all_goals rfl

set_option maxRecDepth 10000 in
/-- Counterexample to C4 as stated: after reserve-then-cancel on the
two-ask book, the slice freelist head is 1 (not the original 0) and the
freed slices' freelist links are permuted, so more than the seqno and
the monotonic id counters differ from the pre-reserve state. -/
theorem c4_counterexample :
    process_cancel bookR 1 = some (.ok (), bookRC) ∧
    bookS.header.slice_freelist_head = 0 ∧
    bookRC.header.slice_freelist_head = 1 ∧
    (bookS.slices 1).index = 2 ∧
    (bookRC.slices 1).index = 0 ∧
    bookRC.header.seqno = 2 ∧
    bookRC.header.next_hold_id = 2 :=
  ⟨by rfl, by decide, by decide, by decide, by decide, by decide, by decide⟩

set_option maxRecDepth 10000 in
/-- Witness for the amended C4 on the two-ask book: cancelling the fresh
hold restores the order pool, the used flags and the pool counts, with
the seqno bumped twice and the hold counter advanced once. -/
theorem c4_witness :
    ∃ Sf, process_cancel bookR 1 = some (.ok (), Sf) ∧
      Sf.orders = bookS.orders ∧
      (∀ j, (Sf.slices j).used = (bookS.slices j).used) ∧
      Sf.header.reservation_count = bookS.header.reservation_count ∧
      Sf.header.slice_count = bookS.header.slice_count ∧
      Sf.header.reservation_freelist_head = 0 ∧
      Sf.header.seqno = 2 ∧
      Sf.header.next_hold_id = 2 := by
  obtain ⟨Sf, hcan, ho, hp, ha, hi, hsl, hrne, hru, hseq, hnh, hrflh, hrc, hsc, hoc,
    hshape⟩ :=
    c4_reserve_cancel bookS 0 0 .Buy 25 102 1000 0 ⟨1, 100, 101, 25, 2520, 1000, 0⟩
      bookR [0, 1, 2] [0, 1] 0 (by decide) (by decide) (by decide) (by decide)
      (fun j hj hu => by
        rw [bookS_reservations_unused j] at hu
        exact Bool.noConfusion hu)
      (by rfl)
  refine ⟨Sf, hcan, ho, hsl, ?_, ?_, ?_, ?_, ?_⟩
  · rw [hrc]
  · rw [hsc]
  · rw [hrflh]
    decide
  · rw [hseq]
    decide
  · rw [hnh]
    decide

end Percolator
